import Mathlib

/-!
# CraftNE front end: a verification development

A shallow embedding of the browser code of CraftNE
(`app/static/js/app.js` and `app/static/js/map_viewer.js`) together with
theorems about it.

Conventions of the embedding:

* objects that JavaScript shares by reference (Three.js meshes) carry a `uid`;
  the scene graph stores the uid, the owner of the object stores its fields;
* an `await fetch(..)`/`response.json()` pair is an input of the operation, a
  `FetchOutcome`, so that the operation itself is a total function on states;
* `func` arguments of higher-order utilities are recorded in a log of
  invocations.
-/

namespace CraftNE

/-! ## Browser builtins: JSON

`JSON.stringify` and `JSON.parse` are builtins of the browser, not code of the
repository: the code below is modelled over an arbitrary pair of them, a
`JSONBuiltins`. The values they exchange are the JSON values. A number is a
JavaScript number, given by its exact value: every finite double is a
rational, and `-0` and `0` are one value (they are `===`-equal and both
falsy). A string is a sequence of Unicode scalar values. An object is the list
of its members in enumeration order. -/

/-- A JavaScript number: a finite one, given by its value, an infinity
(`JSON.parse('1e999')` is one), or `NaN`. -/
inductive JSNumber where
  | finite (value : ℚ)
  | infinity (negative : Bool)
  | nan
deriving DecidableEq

/-- A JSON value, as `JSON.parse` returns it and `JSON.stringify` takes it. -/
inductive JSONValue where
  | null
  | bool (b : Bool)
  | num (value : JSNumber)
  | str (s : String)
  | arr (items : List JSONValue)
  | obj (members : List (String × JSONValue))

/-- The builtins `JSON.parse(text)` (`none` when it throws a `SyntaxError`)
and `JSON.stringify(value)` of a browser. The one fact about them that the
code relies on is that the empty text is not JSON. -/
structure JSONBuiltins where
  parse : String → Option JSONValue
  stringify : JSONValue → String
  parse_empty : parse "" = none

/-! ## An instance of the builtins: JSON with integer numbers

A reader and a writer of JSON texts, after ECMA-262 (sections 25.5.1 and
25.5.2), for the texts whose numbers are written as integers. The reader gives
the double nearest to the integer it reads, as the browser does; it rejects a
fraction, an exponent and the escape of a lone surrogate, which the browser
reads. The writer writes `null` for
an infinity and for `NaN`, as the browser does, and also for a number that is
not an integer; it writes an integer with all its digits, as the browser does
below `10 ^ 21`. It is one `JSONBuiltins`, used where a concrete one is needed
and only on texts and values on which it agrees with the browser's, which is
another. -/

/-- A JSON value whose numbers are integers. -/
inductive IntJSON where
  | null
  | bool (b : Bool)
  | num (n : Int)
  | str (s : String)
  | arr (items : List IntJSON)
  | obj (members : List (String × IntJSON))

/-- The double quote character. -/
def chQuote : Char := Char.ofNat 34
/-- The reverse solidus. -/
def chBackslash : Char := Char.ofNat 92
/-- The left curly bracket. -/
def chLBrace : Char := Char.ofNat 123
/-- The right curly bracket. -/
def chRBrace : Char := Char.ofNat 125

/-- The lower-case hexadecimal digit of a number below 16. -/
def hexDigit (n : Nat) : Char :=
  if n < 10 then Char.ofNat (48 + n) else Char.ofNat (87 + n)

/-- The four hexadecimal digits of a code unit. -/
def hex4 (n : Nat) : List Char :=
  [hexDigit (n / 4096 % 16), hexDigit (n / 256 % 16), hexDigit (n / 16 % 16), hexDigit (n % 16)]

/-- One character of `QuoteJSONString`: the two-character escapes, the
`u`-escape for the other control characters, and the character itself. -/
def quoteChar (c : Char) : List Char :=
  if c = chQuote then [chBackslash, chQuote]
  else if c = chBackslash then [chBackslash, chBackslash]
  else if c.toNat = 8 then [chBackslash, 'b']
  else if c.toNat = 9 then [chBackslash, 't']
  else if c.toNat = 10 then [chBackslash, 'n']
  else if c.toNat = 12 then [chBackslash, 'f']
  else if c.toNat = 13 then [chBackslash, 'r']
  else if c.toNat < 32 then chBackslash :: 'u' :: hex4 c.toNat
  else [c]

/-- The abstract operation `QuoteJSONString`. -/
def quoteJSONString (s : List Char) : List Char :=
  chQuote :: (s.flatMap quoteChar ++ [chQuote])

/-- The decimal digit of a number below 10. -/
def digitChar (d : Nat) : Char := Char.ofNat (48 + d)

/-- The digits of `n` in front of `acc`, most significant first; `fuel` bounds
the number of digits. -/
def natToCharsAux : Nat → Nat → List Char → List Char
  | 0, _, acc => acc
  | fuel + 1, n, acc =>
    if n / 10 = 0 then digitChar (n % 10) :: acc
    else natToCharsAux fuel (n / 10) (digitChar (n % 10) :: acc)

/-- The decimal digits of a natural number. -/
def natToChars (n : Nat) : List Char :=
  natToCharsAux (n + 1) n []

/-- `Number::toString` on an integer. -/
def numberToChars (n : Int) : List Char :=
  if n = 0 then ['0']
  else if n < 0 then '-' :: natToChars n.natAbs
  else natToChars n.natAbs

mutual
/-- The text of a value as `JSON.stringify` writes it, without a gap. -/
def serialize : IntJSON → List Char
  | .null => ['n', 'u', 'l', 'l']
  | .bool true => ['t', 'r', 'u', 'e']
  | .bool false => ['f', 'a', 'l', 's', 'e']
  | .num n => numberToChars n
  | .str s => quoteJSONString s.data
  | .arr items => '[' :: (serializeElements items ++ [']'])
  | .obj members => chLBrace :: (serializeMembers members ++ [chRBrace])
/-- The elements of an array, separated by commas. -/
def serializeElements : List IntJSON → List Char
  | [] => []
  | v :: vs =>
    match vs with
    | [] => serialize v
    | _ :: _ => serialize v ++ ',' :: serializeElements vs
/-- The members of an object, separated by commas. -/
def serializeMembers : List (String × IntJSON) → List Char
  | [] => []
  | (k, v) :: ms =>
    match ms with
    | [] => quoteJSONString k.data ++ ':' :: serialize v
    | _ :: _ => quoteJSONString k.data ++ ':' :: serialize v ++ ',' :: serializeMembers ms
end


/-- JSON white space: space, tab, line feed, carriage return. -/
def isWhitespace (c : Char) : Bool :=
  c.toNat = 32 || c.toNat = 9 || c.toNat = 10 || c.toNat = 13

/-- The text without its leading white space. -/
def skipWhitespace : List Char → List Char
  | [] => []
  | c :: cs => if isWhitespace c then skipWhitespace cs else c :: cs

/-- The text after the expected characters, `none` when they are not there. -/
def expectChars : List Char → List Char → Option (List Char)
  | [], cs => some cs
  | _ :: _, [] => none
  | e :: es, c :: cs => if c = e then expectChars es cs else none

/-- The value of a hexadecimal digit. -/
def hexValue (c : Char) : Option Nat :=
  if 48 ≤ c.toNat ∧ c.toNat ≤ 57 then some (c.toNat - 48)
  else if 97 ≤ c.toNat ∧ c.toNat ≤ 102 then some (c.toNat - 87)
  else if 65 ≤ c.toNat ∧ c.toNat ≤ 70 then some (c.toNat - 55)
  else none

/-- The character that a two-character escape stands for. -/
def unescapeChar (e : Char) : Option Char :=
  if e = chQuote then some chQuote
  else if e = chBackslash then some chBackslash
  else if e = '/' then some '/'
  else if e = 'b' then some (Char.ofNat 8)
  else if e = 't' then some (Char.ofNat 9)
  else if e = 'n' then some (Char.ofNat 10)
  else if e = 'f' then some (Char.ofNat 12)
  else if e = 'r' then some (Char.ofNat 13)
  else none

/-- The four hexadecimal digits of a `u`-escape. -/
def parseHex4 : List Char → Option (Nat × List Char)
  | a :: b :: c :: d :: rest =>
    match hexValue a, hexValue b, hexValue c, hexValue d with
    | some x, some y, some z, some w => some (x * 4096 + y * 256 + z * 16 + w, rest)
    | _, _, _, _ => none
  | _ => none

/-- The low half of a surrogate pair written as a `\u` escape, and the text
after it. -/
def parseLowSurrogate : List Char → Option (Nat × List Char)
  | b :: u :: cs =>
    if b = chBackslash ∧ u = 'u' then
      match parseHex4 cs with
      | none => none
      | some (m, rest) => if 0xDC00 ≤ m ∧ m ≤ 0xDFFF then some (m, rest) else none
    else none
  | _ => none

/-- A JSON string after its opening quote: the characters up to the closing
quote, and the text after it. Two `\u` escapes that form a surrogate pair are
one character. A lone surrogate is not a character of the embedding, and its
escape is rejected. -/
def parseStringBody : Nat → List Char → Option (List Char × List Char)
  | 0, _ => none
  | _ + 1, [] => none
  | fuel + 1, c :: cs =>
    if c = chQuote then some ([], cs)
    else if c = chBackslash then
      match cs with
      | [] => none
      | e :: cs1 =>
        if e = 'u' then
          match parseHex4 cs1 with
          | none => none
          | some (n, cs2) =>
            if n < 0xD800 ∨ (0xDFFF < n) then
              (parseStringBody fuel cs2).map (fun r => (Char.ofNat n :: r.1, r.2))
            else if n ≤ 0xDBFF then
              match parseLowSurrogate cs2 with
              | none => none
              | some (m, cs3) =>
                (parseStringBody fuel cs3).map (fun r =>
                  (Char.ofNat (0x10000 + (n - 0xD800) * 0x400 + (m - 0xDC00)) :: r.1, r.2))
            else none
        else
          match unescapeChar e with
          | none => none
          | some ch => (parseStringBody fuel cs1).map (fun r => (ch :: r.1, r.2))
    else if c.toNat < 32 then none
    else (parseStringBody fuel cs).map (fun r => (c :: r.1, r.2))

/-- A decimal digit. -/
def isDigit (c : Char) : Bool := 48 ≤ c.toNat && c.toNat ≤ 57

/-- The number that the leading digits add to `acc`, and the text after them. -/
def parseDigits : List Char → Nat → Nat × List Char
  | [], acc => (acc, [])
  | c :: cs, acc => if isDigit c then parseDigits cs (acc * 10 + (c.toNat - 48)) else (acc, c :: cs)

/-- A character that continues a number: a digit, or the start of a fraction
or of an exponent. -/
def isNumberTail (c : Char) : Bool := isDigit c || c = '.' || c = 'e' || c = 'E'

/-- A JSON integer without sign: `0`, or digits that do not start with `0`;
a fraction or an exponent is rejected. -/
def parseNatural : List Char → Option (Nat × List Char)
  | [] => none
  | c :: cs =>
    if c = '0' then
      match cs with
      | [] => some (0, [])
      | d :: _ => if isNumberTail d then none else some (0, cs)
    else if isDigit c then
      match parseDigits (c :: cs) 0 with
      | (n, []) => some (n, [])
      | (n, d :: rest) => if isNumberTail d then none else some (n, d :: rest)
    else none

/-- A JSON integer with its optional minus sign. -/
def parseNumber : List Char → Option (Int × List Char)
  | [] => none
  | c :: cs =>
    if c = '-' then (parseNatural cs).map (fun r => (-(r.1 : Int), r.2))
    else (parseNatural (c :: cs)).map (fun r => ((r.1 : Int), r.2))

mutual
/-- A JSON value at the start of the text, and the text after it; `fuel`
bounds the nesting and the number of elements. -/
def parseValue : Nat → List Char → Option (IntJSON × List Char)
  | 0, _ => none
  | fuel + 1, cs =>
    match skipWhitespace cs with
    | [] => none
    | c :: rest =>
      if c = 'n' then (expectChars ['u', 'l', 'l'] rest).map (fun r => (IntJSON.null, r))
      else if c = 't' then (expectChars ['r', 'u', 'e'] rest).map (fun r => (IntJSON.bool true, r))
      else if c = 'f' then
        (expectChars ['a', 'l', 's', 'e'] rest).map (fun r => (IntJSON.bool false, r))
      else if c = chQuote then
        (parseStringBody (rest.length + 1) rest).map (fun r => (IntJSON.str (String.mk r.1), r.2))
      else if c = '[' then
        match skipWhitespace rest with
        | [] => none
        | d :: rest1 =>
          if d = ']' then some (IntJSON.arr [], rest1)
          else (parseElements fuel (d :: rest1)).map (fun r => (IntJSON.arr r.1, r.2))
      else if c = chLBrace then
        match skipWhitespace rest with
        | [] => none
        | d :: rest1 =>
          if d = chRBrace then some (IntJSON.obj [], rest1)
          else (parseMembers fuel (d :: rest1)).map (fun r => (IntJSON.obj r.1, r.2))
      else (parseNumber (c :: rest)).map (fun r => (IntJSON.num r.1, r.2))
/-- The elements of a non-empty array up to its closing bracket. -/
def parseElements : Nat → List Char → Option (List IntJSON × List Char)
  | 0, _ => none
  | fuel + 1, cs =>
    match parseValue fuel cs with
    | none => none
    | some (v, rest) =>
      match skipWhitespace rest with
      | [] => none
      | d :: rest1 =>
        if d = ',' then (parseElements fuel rest1).map (fun r => (v :: r.1, r.2))
        else if d = ']' then some ([v], rest1)
        else none
/-- The members of a non-empty object up to its closing bracket. -/
def parseMembers : Nat → List Char → Option (List (String × IntJSON) × List Char)
  | 0, _ => none
  | fuel + 1, cs =>
    match skipWhitespace cs with
    | [] => none
    | q :: cs1 =>
      if q = chQuote then
        match parseStringBody (cs1.length + 1) cs1 with
        | none => none
        | some (k, cs2) =>
          match skipWhitespace cs2 with
          | [] => none
          | colon :: cs3 =>
            if colon = ':' then
              match parseValue fuel cs3 with
              | none => none
              | some (v, rest) =>
                match skipWhitespace rest with
                | [] => none
                | d :: rest1 =>
                  if d = ',' then
                    (parseMembers fuel rest1).map (fun r => ((String.mk k, v) :: r.1, r.2))
                  else if d = chRBrace then some ([(String.mk k, v)], rest1)
                  else none
            else none
      else none
end

/-- The writer: the text of a value. -/
def IntJSON.stringify (v : IntJSON) : String := String.mk (serialize v)

/-- The reader: the value of a text, `none` when the text is rejected. -/
def IntJSON.parse (text : String) : Option IntJSON :=
  match parseValue (text.data.length + 1) text.data with
  | none => none
  | some (v, rest) => if skipWhitespace rest = [] then some v else none

/-- The spacing of the doubles around `a`: the least power of two `ulp`, from
`ulp` on, with `a < ulp * 2 ^ 53`; `fuel` bounds the search. -/
def doubleUlp : Nat → Nat → Nat → Nat
  | 0, _, ulp => ulp
  | fuel + 1, a, ulp => if a < ulp * 2 ^ 53 then ulp else doubleUlp fuel a (ulp * 2)

/-- The number that an integer literal denotes: an integer of absolute value up
to `2 ^ 53` is kept, a larger one is rounded to the nearest number with a
53-bit significand, a tie going to the even significand, and what rounds to
`2 ^ 1024` or beyond becomes an infinity. -/
def toDouble (n : Int) : JSNumber :=
  let a := n.natAbs
  if a ≤ 2 ^ 53 then JSNumber.finite n
  else
    let ulp := doubleUlp a a 1
    let q := a / ulp
    let r := a % ulp
    let half := ulp / 2
    let q1 := if half < r ∨ (r = half ∧ q % 2 = 1) then q + 1 else q
    let m := q1 * ulp
    if 2 ^ 1024 ≤ m then JSNumber.infinity (decide (n < 0))
    else JSNumber.finite (if n < 0 then -(m : Int) else (m : Int))

mutual
/-- What the reader has read, as a JSON value: a number is the double nearest
to the integer read. -/
def IntJSON.toJSON : IntJSON → JSONValue
  | IntJSON.null => JSONValue.null
  | IntJSON.bool b => JSONValue.bool b
  | IntJSON.num n => JSONValue.num (toDouble n)
  | IntJSON.str s => JSONValue.str s
  | IntJSON.arr items => JSONValue.arr (IntJSON.toJSONList items)
  | IntJSON.obj members => JSONValue.obj (IntJSON.toJSONMembers members)
/-- The elements of an array as JSON values. -/
def IntJSON.toJSONList : List IntJSON → List JSONValue
  | [] => []
  | v :: vs => IntJSON.toJSON v :: IntJSON.toJSONList vs
/-- The members of an object as JSON values. -/
def IntJSON.toJSONMembers : List (String × IntJSON) → List (String × JSONValue)
  | [] => []
  | (k, v) :: ms => (k, IntJSON.toJSON v) :: IntJSON.toJSONMembers ms
end

mutual
/-- What the writer writes of a JSON value: an infinity, `NaN` and a number
that is not an integer become `null`. -/
def IntJSON.ofJSON : JSONValue → IntJSON
  | JSONValue.null => IntJSON.null
  | JSONValue.bool b => IntJSON.bool b
  | JSONValue.num (JSNumber.finite q) => if q.den = 1 then IntJSON.num q.num else IntJSON.null
  | JSONValue.num _ => IntJSON.null
  | JSONValue.str s => IntJSON.str s
  | JSONValue.arr items => IntJSON.arr (IntJSON.ofJSONList items)
  | JSONValue.obj members => IntJSON.obj (IntJSON.ofJSONMembers members)
/-- What the writer writes of the elements of an array. -/
def IntJSON.ofJSONList : List JSONValue → List IntJSON
  | [] => []
  | v :: vs => IntJSON.ofJSON v :: IntJSON.ofJSONList vs
/-- What the writer writes of the members of an object. -/
def IntJSON.ofJSONMembers : List (String × JSONValue) → List (String × IntJSON)
  | [] => []
  | (k, v) :: ms => (k, IntJSON.ofJSON v) :: IntJSON.ofJSONMembers ms
end

mutual
/-- Whether every number of a value has an absolute value of at most `2 ^ 53`,
so that it is a double. -/
def IntJSON.safe : IntJSON → Bool
  | IntJSON.num n => decide (n.natAbs ≤ 2 ^ 53)
  | IntJSON.arr items => IntJSON.safeList items
  | IntJSON.obj members => IntJSON.safeMembers members
  | _ => true
/-- Whether every number of the elements of an array is a double. -/
def IntJSON.safeList : List IntJSON → Bool
  | [] => true
  | v :: vs => IntJSON.safe v && IntJSON.safeList vs
/-- Whether every number of the members of an object is a double. -/
def IntJSON.safeMembers : List (String × IntJSON) → Bool
  | [] => true
  | (_, v) :: ms => IntJSON.safe v && IntJSON.safeMembers ms
end

/-- The builtins given by the reader and the writer for integer numbers. -/
def integerJSON : JSONBuiltins :=
  { parse := fun text => (IntJSON.parse text).map IntJSON.toJSON
    stringify := fun v => IntJSON.stringify (IntJSON.ofJSON v)
    parse_empty := rfl }

/-! ## map_viewer.js: data model -/

/-- A block record of the `/api/maps/:id/blocks` response. -/
structure Block where
  block_type : String
  x : Int
  y : Int
  z : Int
deriving DecidableEq, Repr

/-- A `THREE.Matrix4` that was created as the identity and then given
`setPosition(x, y, z)`: its translation. -/
structure Matrix4 where
  x : Int
  y : Int
  z : Int
deriving DecidableEq, Repr

/-- An element of a `Float32Array` that was given an integer: an integer
again, or an infinity. -/
inductive Float32 where
  | finite (value : Int)
  | infinity (negative : Bool)
deriving DecidableEq, Repr

/-- The spacing of the single-precision numbers around `a`: the least power of
two `ulp`, from `ulp` on, with `a < ulp * 2 ^ 24`; `fuel` bounds the search. -/
def float32Ulp : Nat → Nat → Nat → Nat
  | 0, _, ulp => ulp
  | fuel + 1, a, ulp => if a < ulp * 2 ^ 24 then ulp else float32Ulp fuel a (ulp * 2)

/-- The conversion of a number to single precision when it is stored in a
`Float32Array`, on the integers (`Math.fround`): an integer of absolute value
up to `2 ^ 24` is kept, a larger one is rounded to the nearest number with a
24-bit significand, a tie going to the even significand, and what rounds to
`2 ^ 128` or beyond becomes an infinity. The integer is the value of a
JavaScript number, that is of a double. -/
def fround (n : Int) : Float32 :=
  let a := n.natAbs
  if a ≤ 2 ^ 24 then Float32.finite n
  else
    let ulp := float32Ulp a a 1
    let q := a / ulp
    let r := a % ulp
    let half := ulp / 2
    let q1 := if half < r ∨ (r = half ∧ q % 2 = 1) then q + 1 else q
    let m := q1 * ulp
    if 2 ^ 128 ≤ m then Float32.infinity (decide (n < 0))
    else Float32.finite (if n < 0 then -(m : Int) else (m : Int))

/-- The translation of a matrix as it sits in the `Float32Array` of an
instanced mesh. -/
structure Vec3 where
  x : Float32
  y : Float32
  z : Float32
deriving DecidableEq, Repr

/-- The translation of a matrix after the copy into a `Float32Array`. -/
def Matrix4.toFloat32 (m : Matrix4) : Vec3 :=
  { x := fround m.x, y := fround m.y, z := fround m.z }

/-- A `THREE.MeshLambertMaterial` as configured by `createBlockMaterials`;
opacity is kept in percent. -/
structure Material where
  color : Nat
  transparent : Bool
  opacity : Nat
  emissive : Option Nat
deriving DecidableEq, Repr

/-- The fields of a `THREE.InstancedMesh` that `loadBlocks` touches.
`instanceMatrix` has one slot per instance; `none` is a slot never written. -/
structure InstancedMesh where
  uid : Nat
  geometry : Nat × Nat × Nat
  material : Material
  count : Nat
  instanceMatrix : List (Option Vec3)
  castShadow : Bool
  receiveShadow : Bool
  needsUpdate : Bool
deriving DecidableEq, Repr

/-- `InstancedMesh.setMatrixAt(index, matrix)`: the matrix is copied into the
`Float32Array` at slot `index`, each element converted to single precision; a
write past the end of a typed array is dropped. -/
def InstancedMesh.setMatrixAt (m : InstancedMesh) (index : Nat) (matrix : Matrix4) :
    InstancedMesh :=
  { m with instanceMatrix := m.instanceMatrix.set index (some matrix.toFloat32) }

/-- Value stored in the `instancedMeshes` map of `loadBlocks`. -/
structure Instance where
  mesh : InstancedMesh
  index : Nat
deriving DecidableEq, Repr

/-- `Map.prototype.has` on an insertion-ordered association list. -/
def mapHas {β : Type} (m : List (String × β)) (k : String) : Bool :=
  m.any (fun e => e.1 == k)

/-- `Map.prototype.get`. -/
def mapGet {β : Type} (m : List (String × β)) (k : String) : Option β :=
  (m.find? (fun e => e.1 == k)).map Prod.snd

/-- `Map.prototype.set`: an existing key keeps its position, a new key is
appended. -/
def mapSet {β : Type} : List (String × β) → String → β → List (String × β)
  | [], k, v => [(k, v)]
  | e :: rest, k, v => if e.1 == k then (k, v) :: rest else e :: mapSet rest k v

/-- `Array.from(map.values())`. -/
def mapValues {β : Type} (m : List (String × β)) : List β :=
  m.map Prod.snd

/-- The table `materialConfigs` of `createBlockMaterials`, after the
`forEach` that builds the materials. -/
def createBlockMaterials : List (String × Material) :=
  [ ("minecraft:stone", ⟨0x7F7F7F, false, 100, none⟩),
    ("minecraft:grass_block", ⟨0x7CBD6B, false, 100, none⟩),
    ("minecraft:dirt", ⟨0x8B4513, false, 100, none⟩),
    ("minecraft:cobblestone", ⟨0x6F6F6F, false, 100, none⟩),
    ("minecraft:oak_planks", ⟨0xC4A570, false, 100, none⟩),
    ("minecraft:oak_log", ⟨0x8B4513, false, 100, none⟩),
    ("minecraft:oak_leaves", ⟨0x228B22, true, 80, none⟩),
    ("minecraft:water", ⟨0x4169E1, true, 60, none⟩),
    ("minecraft:lava", ⟨0xFF4500, false, 100, some 0xFF4500⟩),
    ("default", ⟨0xCCCCCC, false, 100, none⟩) ]

/-- The expression `materials.get(blockType) || materials.get('default')`. -/
def materialFor (materials : List (String × Material)) (blockType : String) : Material :=
  match mapGet materials blockType with
  | some m => m
  | none => (mapGet materials "default").getD ⟨0xCCCCCC, false, 100, none⟩

/-- Result of a property read on a parsed JSON value: `none` is `undefined`. -/
abbrev JSProp := Option JSONValue

/-- JavaScript truthiness of the result of a property read. -/
def truthy : JSProp → Bool
  | none => false
  | some JSONValue.null => false
  | some (JSONValue.bool b) => b
  | some (JSONValue.num (JSNumber.finite q)) => q ≠ 0
  | some (JSONValue.num (JSNumber.infinity _)) => true
  | some (JSONValue.num JSNumber.nan) => false
  | some (JSONValue.str s) => s ≠ ""
  | some (JSONValue.arr _) => true
  | some (JSONValue.obj _) => true

/-- The property read `value.name` on a parsed JSON value: `none` when the
read throws (the value is `null`), `some none` when it yields `undefined`. A
member that occurs twice in the text was overwritten by its last occurrence. -/
def getProperty (value : JSONValue) (name : String) : Option JSProp :=
  match value with
  | JSONValue.null => none
  | JSONValue.obj members => some ((members.reverse.find? (fun m => m.1 == name)).map Prod.snd)
  | _ => some none

/-- An annotation record of the `/annotation/api/annotations/:id` response;
`coordinates` is the JSON-encoded bounding box. -/
structure Annotation where
  id : Nat
  coordinates : String
deriving DecidableEq, Repr

/-- The `THREE.Mesh` that `renderAnnotations` builds for one annotation: the
arguments given to `BoxGeometry` and to `position.set`, and its `userData`. -/
structure AnnotationMesh where
  uid : Nat
  geometry : JSONValue × JSONValue × JSONValue
  position : JSProp × JSProp × JSProp
  isAnnotation : Bool
  userDataAnnotation : Annotation

/-- A child of the Three.js scene. An instanced mesh is referred to by uid (its
fields live with the viewer), an annotation mesh is owned by the scene. -/
inductive SceneChild where
  | light (name : String)
  | instanced (uid : Nat)
  | annotationMesh (mesh : AnnotationMesh)

/-- The test `child.userData.isAnnotation` of `renderAnnotations`. -/
def SceneChild.isAnnotation : SceneChild → Bool
  | SceneChild.annotationMesh m => m.isAnnotation
  | _ => false

/-- State of the `blocks.forEach` loop of `loadBlocks`: the local map
`instancedMeshes`, the scene, the uid supply and the loading text. -/
structure LoopState where
  instancedMeshes : List (String × Instance)
  scene : List SceneChild
  nextUid : Nat
  loading : Option String

/-- The expression `blocks.filter(b => b.block_type === blockType).length`. -/
def countOfType (blocks : List Block) (blockType : String) : Nat :=
  (blocks.filter (fun b => b.block_type == blockType)).length

/-- One iteration of the callback of `blocks.forEach((block, index) => ..)`. -/
def loadBlocksStep (materials : List (String × Material)) (blocks : List Block)
    (st : LoopState) (index : Nat) (block : Block) : LoopState :=
  let text := "Loading blocks: " ++ toString index ++ "/" ++ toString blocks.length
  let st1 : LoopState := if index % 1000 = 0 then { st with loading := some text } else st
  let blockType := block.block_type
  let st2 : LoopState :=
    if !(mapHas st1.instancedMeshes blockType) then
      let count := countOfType blocks blockType
      let instancedMesh : InstancedMesh :=
        { uid := st1.nextUid
          geometry := (1, 1, 1)
          material := materialFor materials blockType
          count := count
          instanceMatrix := List.replicate count none
          castShadow := true
          receiveShadow := true
          needsUpdate := false }
      { st1 with
        instancedMeshes := mapSet st1.instancedMeshes blockType ⟨instancedMesh, 0⟩
        scene := st1.scene ++ [SceneChild.instanced instancedMesh.uid]
        nextUid := st1.nextUid + 1 }
    else st1
  match mapGet st2.instancedMeshes blockType with
  | none => st2
  | some inst =>
    { st2 with
      instancedMeshes :=
        mapSet st2.instancedMeshes blockType
          ⟨inst.mesh.setMatrixAt inst.index ⟨block.x, block.y, block.z⟩, inst.index + 1⟩ }

/-- The loop `blocks.forEach(..)` from position `index` on; `blocks` is the
whole array, `todo` what is left of it. -/
def loadBlocksLoop (materials : List (String × Material)) (blocks : List Block) :
    LoopState → Nat → List Block → LoopState
  | st, _, [] => st
  | st, index, b :: todo =>
    loadBlocksLoop materials blocks (loadBlocksStep materials blocks st index b) (index + 1) todo

/-- The map record of `/upload/api/maps/:id`; `is_parsed` is the result of
the property read. -/
structure MapData where
  id : Nat
  is_parsed : JSProp

/-- What `await fetch(url)` followed by `await response.json()` delivers. -/
inductive FetchOutcome (α : Type) where
  | rejected
  | invalidJSON
  | ok (value : α)

/-- How a call ended: normally or by throwing. -/
inductive Completion where
  | normal
  | thrown
deriving DecidableEq, Repr

/-- The state of a `MapViewer` and of the page around it. `loading` is the
text of the visible loading box, `messages` the boxes put up by `showMessage`
(text and type), `consoleErrors` the labels given to `console.error`,
`cameraTarget` the meshes whose bounding box the camera was last fitted to
(`none`: the pose set by `init`). -/
structure ViewerState where
  scene : List SceneChild
  mapData : Option MapData
  blockMeshes : List InstancedMesh
  annotations : List Annotation
  loading : Option String
  messages : List (String × String)
  consoleErrors : List String
  cameraTarget : Option (List InstancedMesh)
  nextUid : Nat

/-- The method `showLoadingMessage(message)`. -/
def showLoadingMessage (s : ViewerState) (message : String) : ViewerState :=
  { s with loading := some message }

/-- The method `hideLoadingMessage()`. -/
def hideLoadingMessage (s : ViewerState) : ViewerState :=
  { s with loading := none }

/-- The method `showMessage(message, type)`. -/
def showMessage (s : ViewerState) (message : String) (type : String) : ViewerState :=
  { s with messages := s.messages ++ [(message, type)] }

/-- A call of `console.error(label, error)`. -/
def consoleError (s : ViewerState) (label : String) : ViewerState :=
  { s with consoleErrors := s.consoleErrors ++ [label] }

/-- The method `clearBlocks()`. -/
def clearBlocks (s : ViewerState) : ViewerState :=
  { s with
    scene := s.blockMeshes.foldl
      (fun scene mesh => scene.filter (fun child =>
        match child with
        | SceneChild.instanced uid => uid != mesh.uid
        | _ => true)) s.scene
    blockMeshes := [] }

/-- The body of the `try` block of `loadBlocks` once the blocks have arrived. -/
def loadBlocksBody (s : ViewerState) (blocks : List Block) : ViewerState :=
  let s1 := showLoadingMessage s ("Loading " ++ toString blocks.length ++ " blocks...")
  let s2 := clearBlocks s1
  let materials := createBlockMaterials
  let st := loadBlocksLoop materials blocks
    { instancedMeshes := [], scene := s2.scene, nextUid := s2.nextUid, loading := s2.loading }
    0 blocks
  let instancedMeshes := st.instancedMeshes.map
    (fun e => (e.1, ({ e.2 with mesh := { e.2.mesh with needsUpdate := true } } : Instance)))
  { s2 with
    scene := st.scene
    nextUid := st.nextUid
    loading := st.loading
    blockMeshes := (mapValues instancedMeshes).map (fun inst => inst.mesh) }

/-- The method `loadBlocks(mapId)`; the argument is what the request for the
blocks delivers. -/
def loadBlocks (s : ViewerState) (response : FetchOutcome (List Block)) :
    ViewerState × Completion :=
  match response with
  | FetchOutcome.ok blocks => (loadBlocksBody s blocks, Completion.normal)
  | _ => (showMessage (consoleError s "Error loading blocks:") "Failed to load blocks" "error",
          Completion.normal)

/-- The expression `value || 1`. -/
def orOne (value : JSProp) : JSONValue :=
  match value with
  | some v => if truthy (some v) then v else JSONValue.num (JSNumber.finite 1)
  | none => JSONValue.num (JSNumber.finite 1)

/-- The callback of `this.annotations.forEach(..)` in `renderAnnotations`;
`none` when it throws, which happens before anything is added to the scene. -/
def renderAnnotation (JSON : JSONBuiltins) (scene : List SceneChild) (uid : Nat)
    (a : Annotation) : Option (List SceneChild) :=
  match JSON.parse a.coordinates with
  | none => none
  | some coords =>
    match getProperty coords "width", getProperty coords "height", getProperty coords "depth",
        getProperty coords "x", getProperty coords "y", getProperty coords "z" with
    | some w, some h, some d, some x, some y, some z =>
      some (scene ++ [SceneChild.annotationMesh
        { uid := uid
          geometry := (orOne w, orOne h, orOne d)
          position := (x, y, z)
          isAnnotation := true
          userDataAnnotation := a }])
    | _, _, _, _, _, _ => none

/-- The loop `this.annotations.forEach(..)` of `renderAnnotations`: it stops
at the first annotation whose callback throws. -/
def renderAnnotationsLoop (JSON : JSONBuiltins) : List SceneChild → Nat → List Annotation →
    List SceneChild × Nat × Completion
  | scene, uid, [] => (scene, uid, Completion.normal)
  | scene, uid, a :: rest =>
    match renderAnnotation JSON scene uid a with
    | none => (scene, uid, Completion.thrown)
    | some scene1 => renderAnnotationsLoop JSON scene1 (uid + 1) rest

/-- The method `renderAnnotations()`. -/
def renderAnnotations (JSON : JSONBuiltins) (s : ViewerState) : ViewerState × Completion :=
  let kept := s.scene.filter (fun child => !child.isAnnotation)
  let r := renderAnnotationsLoop JSON kept s.nextUid s.annotations
  ({ s with scene := r.1, nextUid := r.2.1 }, r.2.2)

/-- The method `loadAnnotations(mapId)`; the argument is what the request
for the annotations delivers. -/
def loadAnnotations (JSON : JSONBuiltins) (s : ViewerState)
    (response : FetchOutcome (List Annotation)) : ViewerState × Completion :=
  match response with
  | FetchOutcome.ok annotations =>
    match renderAnnotations JSON { s with annotations := annotations } with
    | (s1, Completion.normal) => (s1, Completion.normal)
    | (s1, Completion.thrown) => (consoleError s1 "Error loading annotations:", Completion.normal)
  | _ => (consoleError s "Error loading annotations:", Completion.normal)

/-- The method `fitCameraToMap()`. The pose is a floating-point function of
the bounding box of the block meshes; the state records the meshes. -/
def fitCameraToMap (s : ViewerState) : ViewerState :=
  if s.mapData.isNone || s.blockMeshes.length = 0 then s
  else { s with cameraTarget := some s.blockMeshes }

/-- The method `loadMap(mapId)`; the arguments are what its three requests
deliver. A step of the `try` block that ends by throwing hands over to the
`catch` block. -/
def loadMap (JSON : JSONBuiltins) (s : ViewerState) (mapResponse : FetchOutcome MapData)
    (blocksResponse : FetchOutcome (List Block))
    (annotationsResponse : FetchOutcome (List Annotation)) : ViewerState × Completion :=
  let s0 := showLoadingMessage s "Loading map data..."
  let failed (t : ViewerState) : ViewerState × Completion :=
    (showMessage (consoleError t "Error loading map:") "Failed to load map" "error",
     Completion.normal)
  match mapResponse with
  | FetchOutcome.ok mapData =>
    if !(truthy mapData.is_parsed) then
      (showMessage s0 "Map is not parsed yet" "warning", Completion.normal)
    else
      let s1 := { s0 with mapData := some mapData }
      match loadBlocks s1 blocksResponse with
      | (s2, Completion.thrown) => failed s2
      | (s2, Completion.normal) =>
        match loadAnnotations JSON s2 annotationsResponse with
        | (s3, Completion.thrown) => failed s3
        | (s3, Completion.normal) => (hideLoadingMessage (fitCameraToMap s3), Completion.normal)
  | _ => failed s0

/-! ## Specification-side definitions for `loadBlocks` -/

/-- The distinct elements of a list in order of first occurrence. -/
def firstOccurrences : List String → List String
  | [] => []
  | t :: ts => t :: (firstOccurrences ts).filter (fun u => u != t)

/-- The slot contents that the blocks of type `blockType` ask for, in list
order: slot `j` is the position of the `j`-th block of that type. -/
def slotsOfType (blocks : List Block) (blockType : String) : List (Option Vec3) :=
  (blocks.filter (fun b => b.block_type == blockType)).map
    (fun b => some (Matrix4.toFloat32 ⟨b.x, b.y, b.z⟩))

/-- Closed form of the map entry of type `t` once the blocks `done` have been
processed and the map holds the keys `keys`. -/
def expectedInstance (materials : List (String × Material)) (blocks : List Block) (uid0 : Nat)
    (keys : List String) (done : List Block) (t : String) : Instance :=
  { mesh :=
      { uid := uid0 + keys.indexOf t
        geometry := (1, 1, 1)
        material := materialFor materials t
        count := countOfType blocks t
        instanceMatrix :=
          slotsOfType done t ++ List.replicate (countOfType blocks t - countOfType done t) none
        castShadow := true
        receiveShadow := true
        needsUpdate := false }
    index := countOfType done t }

/-- Closed form of the mesh that `loadBlocks` leaves for type `t`. -/
def expectedMesh (blocks : List Block) (uid0 : Nat) (t : String) : InstancedMesh :=
  { uid := uid0 + (firstOccurrences (blocks.map Block.block_type)).indexOf t
    geometry := (1, 1, 1)
    material := materialFor createBlockMaterials t
    count := countOfType blocks t
    instanceMatrix := slotsOfType blocks t
    castShadow := true
    receiveShadow := true
    needsUpdate := true }

/-! ## app.js: configuration and upload validation -/

/-- The entry `config.uploadMaxSize`, `500 * 1024 * 1024`. -/
def uploadMaxSize : Nat := 500 * 1024 * 1024

/-- The entry `config.supportedFormats`. -/
def supportedFormats : List String := ["mca", "mcr"]

/-- The fields of a browser `File` that `validateFile` reads. -/
structure File where
  name : String
  size : Nat
deriving DecidableEq, Repr

/-- `String.prototype.split(sep)` for a one-character separator: the
segments between the separators; the result is never empty. -/
def split (sep : Char) : List Char → List (List Char)
  | [] => [[]]
  | c :: cs =>
    if c = sep then [] :: split sep cs
    else
      match split sep cs with
      | [] => [[c]]
      | seg :: segs => (c :: seg) :: segs

/-- `Array.prototype.pop()` on the result of `split`: its last element. -/
def pop (segments : List (List Char)) : List Char :=
  segments.getLastD []

/-- `String.prototype.toLowerCase()` on the ASCII letters. A character outside
ASCII is left alone: none of them lower-cases to a letter of `mca` or `mcr`,
so the test of `validateFile` is not affected. -/
def toLowerCase (s : List Char) : List Char :=
  s.map Char.toLower

/-- The expression `file.name.split('.').pop().toLowerCase()`. -/
def extensionOf (name : String) : String :=
  String.mk (toLowerCase (pop (split '.' name.data)))

/-- The message pushed when the file is too large; `limit` is the text that
`formatFileSize` gives for the limit. -/
def sizeError (limit : String) : String :=
  "文件大小超过限制 (" ++ limit ++ ")"

/-- The message pushed when the extension is not supported. -/
def formatError : String :=
  "不支持的文件格式，支持: " ++ ", ".intercalate supportedFormats

/-- The function `CraftNE.upload.validateFile(file)`. `formatFileSize` is the
utility of the same name: it computes in floating point (`Math.log`,
`toFixed`) and is taken as a parameter. -/
def validateFile (formatFileSize : Nat → String) (file : File) : List String :=
  let errors : List String := []
  let errors :=
    if file.size > uploadMaxSize then errors ++ [sizeError (formatFileSize uploadMaxSize)]
    else errors
  let extension := extensionOf file.name
  let errors :=
    if !(supportedFormats.contains extension) then errors ++ [formatError] else errors
  errors

/-- The words "the text after the last `.` of the name": defined when the name
has a `.`, and then the longest suffix without one. -/
def textAfterLastDot (name : List Char) : Option (List Char) :=
  if '.' ∈ name then some (name.reverse.takeWhile (fun c => c != '.')).reverse else none

/-! ## app.js: notifications and the request wrapper -/

/-- The value of `alertClass` in `showNotification`, as the template string
shows it: one of the four class names of the object literal, or the text of a
member that the literal inherits from `Object.prototype`. -/
inductive AlertClass where
  | named (cls : String)
  | inherited (member : String)
deriving DecidableEq, Repr

/-- An alert box that `showNotification` puts on the page. -/
structure Alert where
  message : String
  alertClass : AlertClass
deriving DecidableEq, Repr

/-- The part of the page that `CraftNE.api.request` acts on: whether the page
has a `.container` or `.container-fluid` element, the alerts put into it
(newest first) and the labels given to `console.error`. -/
structure Page where
  hasContainer : Bool
  alerts : List Alert
  consoleErrors : List String
deriving DecidableEq, Repr

/-- The names of the members of `Object.prototype`, which a property lookup
in an object literal reaches when the literal has no such key of its own. All
of them are truthy: eleven functions, and `__proto__`, which is
`Object.prototype` itself. -/
def objectPrototypeMembers : List String :=
  ["constructor", "__defineGetter__", "__defineSetter__", "hasOwnProperty",
    "__lookupGetter__", "__lookupSetter__", "isPrototypeOf", "propertyIsEnumerable",
    "toString", "valueOf", "__proto__", "toLocaleString"]

/-- The lookup of `alertClass` in `showNotification`: the object literal with
the keys `success`, `error`, `warning` and `info`, indexed by `type`, and
`|| 'alert-info'` after it. A `type` that is no key of the literal but names a member of
`Object.prototype` finds that member, which is truthy, so that the default
`'alert-info'` is not taken. -/
def alertClassOf (type : String) : AlertClass :=
  if type = "success" then AlertClass.named "alert-success"
  else if type = "error" then AlertClass.named "alert-danger"
  else if type = "warning" then AlertClass.named "alert-warning"
  else if type = "info" then AlertClass.named "alert-info"
  else if objectPrototypeMembers.contains type then AlertClass.inherited type
  else AlertClass.named "alert-info"

/-- The function `CraftNE.utils.showNotification(message, type)`: the alert is
prepended to the first container when the page has one. The timer that fades
the alert out after `duration` is not part of the state. -/
def showNotification (p : Page) (message : String) (type : String) : Page :=
  if p.hasContainer then { p with alerts := ⟨message, alertClassOf type⟩ :: p.alerts } else p

/-- A JavaScript `Error`. -/
structure JSError where
  message : String
deriving DecidableEq, Repr

/-- The fields of a `Response` that `request` reads; `json` is what
`response.json()` settles to, `none` when the body is not JSON. -/
structure Response where
  ok : Bool
  status : Nat
  statusText : String
  json : Option JSONValue

/-- What `fetch(url, options)` settles to. -/
inductive FetchResult where
  | rejected (error : JSError)
  | fulfilled (response : Response)

/-- How a promise settles. -/
inductive Settled (α : Type) where
  | resolved (value : α)
  | rejected (error : JSError)

/-- The options object handed to `fetch`. -/
structure RequestOptions where
  method : String
  headers : List (String × String)
  body : Option String
deriving DecidableEq, Repr

/-- The caller's `options` argument of `request`: the properties it sets. -/
structure OptionsOverride where
  method : Option String
  headers : Option (List (String × String))
  body : Option (Option String)
deriving DecidableEq, Repr

/-- The object `finalOptions` of `request`. -/
def finalOptions (JSON : JSONBuiltins) (method : String) (data : Option JSONValue)
    (options : OptionsOverride) : RequestOptions :=
  let defaultOptions : RequestOptions :=
    { method := method
      headers := [("Content-Type", "application/json"), ("X-Requested-With", "XMLHttpRequest")]
      body := none }
  let defaultOptions :=
    if truthy data && method != "GET" then
      { defaultOptions with body := (data.map JSON.stringify) }
    else defaultOptions
  { method := options.method.getD defaultOptions.method
    headers := options.headers.getD defaultOptions.headers
    body := options.body.getD defaultOptions.body }

/-- The syntax error with which `response.json()` rejects. -/
def jsonSyntaxError : JSError := ⟨"Unexpected token in JSON"⟩

/-- The function `CraftNE.api.request(method, url, data, options)`. `fetch`
is the browser's network call; the result is the page afterwards and the way
the returned promise settles. -/
def request (JSON : JSONBuiltins) (fetch : String → RequestOptions → FetchResult) (p : Page)
    (method url : String) (data : Option JSONValue) (options : OptionsOverride) :
    Page × Settled JSONValue :=
  let afterThen : Settled JSONValue :=
    match fetch url (finalOptions JSON method data options) with
    | FetchResult.rejected error => Settled.rejected error
    | FetchResult.fulfilled response =>
      if !response.ok then
        Settled.rejected ⟨"HTTP " ++ toString response.status ++ ": " ++ response.statusText⟩
      else
        match response.json with
        | some value => Settled.resolved value
        | none => Settled.rejected jsonSyntaxError
  match afterThen with
  | Settled.resolved value => (p, Settled.resolved value)
  | Settled.rejected error =>
    let p1 := { p with consoleErrors := p.consoleErrors ++ ["API请求失败:"] }
    let p2 := showNotification p1 ("请求失败: " ++ error.message) "error"
    (p2, Settled.rejected error)

/-! ## app.js: local storage helpers -/

/-- The browser's `localStorage`: its entries in key order of `Object.keys`,
and the room the origin is allowed (in characters of keys and values). -/
structure LocalStorage where
  items : List (String × String)
  quota : Nat
deriving DecidableEq, Repr

/-- The characters that the entries take up. -/
def LocalStorage.used (items : List (String × String)) : Nat :=
  (items.map (fun e => e.1.length + e.2.length)).sum

/-- `localStorage.getItem(key)`; `none` is `null`. -/
def LocalStorage.getItem (ls : LocalStorage) (key : String) : Option String :=
  (ls.items.find? (fun e => e.1 == key)).map Prod.snd

/-- `localStorage.removeItem(key)`. -/
def LocalStorage.removeItem (ls : LocalStorage) (key : String) : LocalStorage :=
  { ls with items := ls.items.filter (fun e => e.1 != key) }

/-- `localStorage.setItem(key, value)`; `none` when it throws because the
quota would be exceeded. An existing key keeps its place. -/
def LocalStorage.setItem (ls : LocalStorage) (key value : String) : Option LocalStorage :=
  let items :=
    if ls.items.any (fun e => e.1 == key) then
      ls.items.map (fun e => if e.1 == key then (key, value) else e)
    else ls.items ++ [(key, value)]
  if LocalStorage.used items ≤ ls.quota then some { ls with items := items } else none

/-- `Object.keys(localStorage)`. A stored key that a member of
`Storage.prototype` shadows (`length`, `getItem`, ..) is not enumerated by a
browser; no such key starts with `craftne_`, so `storage.clear` sees the same
keys to remove either way. -/
def LocalStorage.keys (ls : LocalStorage) : List String :=
  ls.items.map Prod.fst

/-- `String.prototype.startsWith`. -/
def startsWith (s start : String) : Bool :=
  start.data.isPrefixOf s.data

/-- The function `CraftNE.storage.set(key, value)`: the storage afterwards
and the boolean returned. -/
def storage.set (JSON : JSONBuiltins) (ls : LocalStorage) (key : String) (value : JSONValue) :
    LocalStorage × Bool :=
  match ls.setItem ("craftne_" ++ key) (JSON.stringify value) with
  | some ls1 => (ls1, true)
  | none => (ls, false)

/-- The function `CraftNE.storage.get(key, defaultValue)`. A string is truthy
when it is not empty. -/
def storage.get (JSON : JSONBuiltins) (ls : LocalStorage) (key : String)
    (defaultValue : JSONValue) : JSONValue :=
  match ls.getItem ("craftne_" ++ key) with
  | none => defaultValue
  | some item =>
    if item ≠ "" then
      match JSON.parse item with
      | some value => value
      | none => defaultValue
    else defaultValue

/-- The function `CraftNE.storage.remove(key)`. -/
def storage.remove (ls : LocalStorage) (key : String) : LocalStorage × Bool :=
  (ls.removeItem ("craftne_" ++ key), true)

/-- The function `CraftNE.storage.clear()`: the keys are listed first, then
each key that starts with `craftne_` is removed. -/
def storage.clear (ls : LocalStorage) : LocalStorage × Bool :=
  (ls.keys.foldl (fun acc key => if startsWith key "craftne_" then acc.removeItem key else acc) ls,
   true)

/-! ## app.js: debounce and throttle

The closure returned by `debounce` or `throttle` is a state machine: its
state is the closure variable, the timers it has pending in the browser, the
supply of timer ids, and the log of the invocations of `func`. `debounce`
sets its timer before it invokes `func`; `throttle` invokes `func` first, so
what `func` does matters to it. -/

/-- What happens to a debounced function: it is called with arguments, or the
browser timer with the given id expires. -/
inductive Event (α : Type) where
  | call (args : α)
  | expire (id : Nat)

/-- State of the closure returned by `debounce(func, wait, immediate)`.
`timeout` is the closure variable (`none`: `undefined` or `null`), `timers`
the pending timers with the arguments captured by their `later`. -/
structure DebounceState (α : Type) where
  timeout : Option Nat
  timers : List (Nat × α)
  nextId : Nat
  invocations : List α

/-- The state right after `debounce(..)` returns. Timer ids are positive. -/
def DebounceState.init (α : Type) : DebounceState α :=
  { timeout := none, timers := [], nextId := 1, invocations := [] }

/-- `clearTimeout(id)` on the pending timers. -/
def clearTimeout {β : Type} (timers : List (Nat × β)) (id : Option Nat) : List (Nat × β) :=
  match id with
  | none => timers
  | some i => timers.filter (fun t => t.1 != i)

/-- One call of `executedFunction(...args)`. -/
def debounceCall {α : Type} (immediate : Bool) (s : DebounceState α) (args : α) :
    DebounceState α :=
  let callNow := immediate && s.timeout.isNone
  let timers := clearTimeout s.timers s.timeout
  let id := s.nextId
  let s1 : DebounceState α :=
    { s with timeout := some id, timers := timers ++ [(id, args)], nextId := s.nextId + 1 }
  if callNow then { s1 with invocations := s1.invocations ++ [args] } else s1

/-- The callback `later` of the timer `id`, run when the timer expires. An id
that is not pending has no callback to run. -/
def debounceExpire {α : Type} (immediate : Bool) (s : DebounceState α) (id : Nat) :
    DebounceState α :=
  match s.timers.find? (fun t => t.1 == id) with
  | none => s
  | some (_, args) =>
    let s1 : DebounceState α :=
      { s with timers := s.timers.filter (fun t => t.1 != id), timeout := none }
    if !immediate then { s1 with invocations := s1.invocations ++ [args] } else s1

/-- One event of the debounced function. -/
def debounceStep {α : Type} (immediate : Bool) (s : DebounceState α) : Event α → DebounceState α
  | Event.call args => debounceCall immediate s args
  | Event.expire id => debounceExpire immediate s id

/-- A sequence of events of the debounced function, from a given state. -/
def debounceRun {α : Type} (immediate : Bool) (s : DebounceState α) (events : List (Event α)) :
    DebounceState α :=
  events.foldl (debounceStep immediate) s

/-- The arguments of the most recent call in a sequence of events. -/
def lastCall {α : Type} : List (Event α) → Option α
  | [] => none
  | Event.call args :: rest =>
    match lastCall rest with
    | some later => some later
    | none => some args
  | Event.expire _ :: rest => lastCall rest

/-- State of the closure returned by `throttle(func, limit)`. `inThrottle` is
the closure variable (`undefined` counts as `false`), `timers` the ids of the
pending timers. -/
structure ThrottleState (α : Type) where
  inThrottle : Bool
  timers : List Nat
  nextId : Nat
  invocations : List α

/-- The state right after `throttle(..)` returns. -/
def ThrottleState.init (α : Type) : ThrottleState α :=
  { inThrottle := false, timers := [], nextId := 1, invocations := [] }

/-- What one invocation of `func` does, as far as the throttled function can
tell: it returns, it throws, or it calls the throttled function again (with
`args`, the nested invocation of `func` behaving as `inner`) before it
returns; an exception of the nested call passes through it. -/
inductive FuncBehaviour (α : Type) where
  | returns
  | throws
  | reenters (args : α) (inner : FuncBehaviour α)

/-- What happens to a throttled function: it is called with arguments, `func`
behaving as given when it is invoked, or the browser timer with the given id
expires. -/
inductive ThrottleEvent (α : Type) where
  | call (args : α) (func : FuncBehaviour α)
  | expire (id : Nat)

/-- The start of `func.apply(this, args)`: the invocation is logged. -/
def ThrottleState.invoke {α : Type} (s : ThrottleState α) (args : α) : ThrottleState α :=
  { s with invocations := s.invocations ++ [args] }

/-- The two statements after the invocation of `func`:
`inThrottle = true; setTimeout(() => inThrottle = false, limit)`. -/
def ThrottleState.arm {α : Type} (s : ThrottleState α) : ThrottleState α :=
  { s with inThrottle := true, timers := s.timers ++ [s.nextId], nextId := s.nextId + 1 }

/-- One call of the throttled function, `func` behaving as given: when
`inThrottle` is not set, `func` is invoked first, and only when it has
returned are `inThrottle` and the timer set. The second component says whether
the call returns or throws. -/
def throttleCall {α : Type} : FuncBehaviour α → ThrottleState α → α →
    ThrottleState α × Completion
  | FuncBehaviour.returns, s, args =>
    if !s.inThrottle then ((s.invoke args).arm, Completion.normal) else (s, Completion.normal)
  | FuncBehaviour.throws, s, args =>
    if !s.inThrottle then (s.invoke args, Completion.thrown) else (s, Completion.normal)
  | FuncBehaviour.reenters args2 inner, s, args =>
    if !s.inThrottle then
      match throttleCall inner (s.invoke args) args2 with
      | (s2, Completion.thrown) => (s2, Completion.thrown)
      | (s2, Completion.normal) => (s2.arm, Completion.normal)
    else (s, Completion.normal)

/-- The callback `() => inThrottle = false` of the timer `id`. -/
def throttleExpire {α : Type} (s : ThrottleState α) (id : Nat) : ThrottleState α :=
  if s.timers.contains id then
    { s with timers := s.timers.filter (fun t => t != id), inThrottle := false }
  else s

/-- One event of the throttled function. -/
def throttleStep {α : Type} (s : ThrottleState α) : ThrottleEvent α → ThrottleState α
  | ThrottleEvent.call args func => (throttleCall func s args).1
  | ThrottleEvent.expire id => throttleExpire s id

/-- A sequence of events of the throttled function, from a given state. -/
def throttleRun {α : Type} (s : ThrottleState α) (events : List (ThrottleEvent α)) :
    ThrottleState α :=
  events.foldl throttleStep s

/-- An event of a throttled function whose `func` returns normally and does
not call the throttled function. -/
def Event.toThrottle {α : Type} : Event α → ThrottleEvent α
  | Event.call args => ThrottleEvent.call args FuncBehaviour.returns
  | Event.expire id => ThrottleEvent.expire id

/-! ## Proof-side definitions for the JSON round trip -/

/-- What may follow a number in a JSON text without being taken for a part of
the number: the end of the text, or a character that is not a digit, `.`, `e`
or `E`. -/
def okFollow : List Char → Bool
  | [] => true
  | d :: _ => !isNumberTail d

mutual
/-- A bound on the fuel that `parseValue` needs to read back a value. -/
def weight : IntJSON → Nat
  | IntJSON.arr items => 1 + weightElements items
  | IntJSON.obj members => 1 + weightMembers members
  | _ => 1
/-- The bound for the elements of an array. -/
def weightElements : List IntJSON → Nat
  | [] => 0
  | v :: vs => 1 + weight v + weightElements vs
/-- The bound for the members of an object. -/
def weightMembers : List (String × IntJSON) → Nat
  | [] => 0
  | (_, v) :: ms => 1 + weight v + weightMembers ms
end

/-! ## map_viewer.js: the requests of `loadMap` -/

/-- The method `loadMap(mapId)` together with the URLs it hands to `fetch`,
in order: its own request for the map record, then the request that
`loadBlocks(mapId)` opens with and the request that `loadAnnotations(mapId)`
opens with, when it gets as far as calling them. The first component is
`loadMap` itself. -/
def loadMapTraced (JSON : JSONBuiltins) (mapId : String) (s : ViewerState)
    (mapResponse : FetchOutcome MapData)
    (blocksResponse : FetchOutcome (List Block))
    (annotationsResponse : FetchOutcome (List Annotation)) :
    (ViewerState × Completion) × List String :=
  let s0 := showLoadingMessage s "Loading map data..."
  let requests := ["/upload/api/maps/" ++ mapId]
  let failed (t : ViewerState) : ViewerState × Completion :=
    (showMessage (consoleError t "Error loading map:") "Failed to load map" "error",
     Completion.normal)
  match mapResponse with
  | FetchOutcome.ok mapData =>
    if !(truthy mapData.is_parsed) then
      ((showMessage s0 "Map is not parsed yet" "warning", Completion.normal), requests)
    else
      let s1 := { s0 with mapData := some mapData }
      let requests1 := requests ++ ["/api/maps/" ++ mapId ++ "/blocks"]
      match loadBlocks s1 blocksResponse with
      | (s2, Completion.thrown) => (failed s2, requests1)
      | (s2, Completion.normal) =>
        let requests2 := requests1 ++ ["/annotation/api/annotations/" ++ mapId]
        match loadAnnotations JSON s2 annotationsResponse with
        | (s3, Completion.thrown) => (failed s3, requests2)
        | (s3, Completion.normal) =>
          ((hideLoadingMessage (fitCameraToMap s3), Completion.normal), requests2)
  | _ => (failed s0, requests)

/-! ## map_viewer.js: the `setMatrixAt` calls of `loadBlocks` -/

/-- One call `instance.mesh.setMatrixAt(instance.index, matrix)`: the key of
the mesh in `instancedMeshes`, the index handed over, and the `count` of the
mesh at that moment. -/
structure MatrixWrite where
  blockType : String
  index : Nat
  capacity : Nat
deriving DecidableEq, Repr

/-- One iteration of the callback of `blocks.forEach(..)`, as
`loadBlocksStep`, together with the `setMatrixAt` call it makes. -/
def loadBlocksStepTraced (materials : List (String × Material)) (blocks : List Block)
    (st : LoopState) (index : Nat) (block : Block) : LoopState × Option MatrixWrite :=
  let text := "Loading blocks: " ++ toString index ++ "/" ++ toString blocks.length
  let st1 : LoopState := if index % 1000 = 0 then { st with loading := some text } else st
  let blockType := block.block_type
  let st2 : LoopState :=
    if !(mapHas st1.instancedMeshes blockType) then
      let count := countOfType blocks blockType
      let instancedMesh : InstancedMesh :=
        { uid := st1.nextUid
          geometry := (1, 1, 1)
          material := materialFor materials blockType
          count := count
          instanceMatrix := List.replicate count none
          castShadow := true
          receiveShadow := true
          needsUpdate := false }
      { st1 with
        instancedMeshes := mapSet st1.instancedMeshes blockType ⟨instancedMesh, 0⟩
        scene := st1.scene ++ [SceneChild.instanced instancedMesh.uid]
        nextUid := st1.nextUid + 1 }
    else st1
  match mapGet st2.instancedMeshes blockType with
  | none => (st2, none)
  | some inst =>
    ({ st2 with
        instancedMeshes :=
          mapSet st2.instancedMeshes blockType
            ⟨inst.mesh.setMatrixAt inst.index ⟨block.x, block.y, block.z⟩, inst.index + 1⟩ },
      some ⟨blockType, inst.index, inst.mesh.count⟩)

/-- The loop `blocks.forEach(..)`, as `loadBlocksLoop`, together with the
`setMatrixAt` calls it makes, in order. -/
def loadBlocksLoopTraced (materials : List (String × Material)) (blocks : List Block) :
    LoopState → Nat → List Block → LoopState × List MatrixWrite
  | st, _, [] => (st, [])
  | st, index, b :: todo =>
    let r := loadBlocksStepTraced materials blocks st index b
    let rest := loadBlocksLoopTraced materials blocks r.1 (index + 1) todo
    (rest.1, r.2.toList ++ rest.2)

/-- The `setMatrixAt` calls of `loadBlocks` on the blocks `blocks`, and the
map `instancedMeshes` at the end of its loop. -/
def loadBlocksTraced (s : ViewerState) (blocks : List Block) :
    List (String × Instance) × List MatrixWrite :=
  let s1 := showLoadingMessage s ("Loading " ++ toString blocks.length ++ " blocks...")
  let s2 := clearBlocks s1
  let r := loadBlocksLoopTraced createBlockMaterials blocks
    { instancedMeshes := [], scene := s2.scene, nextUid := s2.nextUid, loading := s2.loading }
    0 blocks
  (r.1.instancedMeshes, r.2)

/-- Closed form of the `setMatrixAt` calls for the blocks `todo` that follow
the blocks `done` in `blocks`: the index is the number of earlier blocks of
the same type. -/
def expectedWrites (blocks : List Block) : List Block → List Block → List MatrixWrite
  | _, [] => []
  | done, b :: todo =>
    ⟨b.block_type, countOfType done b.block_type, countOfType blocks b.block_type⟩ ::
      expectedWrites blocks (done ++ [b]) todo

/-! ## app.js: the `load` handler of `uploadFile` -/

/-- An invocation of one of the callbacks given to `uploadFile`, with its
argument. -/
inductive UploadCallback where
  | success (response : JSONValue)
  | error (message : JSONValue)

/-- The listener that `uploadFile` registers for the `load` event of the
request: the callbacks it invokes, in order, for the status and the response
text of the request. `hasSuccess` and `hasError` say whether
`successCallback` and `errorCallback` were given; the callbacks return
normally. -/
def uploadLoadHandler (JSON : JSONBuiltins) (status : Nat) (responseText : String)
    (hasSuccess hasError : Bool) : List UploadCallback :=
  if status = 200 ∨ status = 201 then
    match JSON.parse responseText with
    | some response => if hasSuccess then [UploadCallback.success response] else []
    | none => if hasError then [UploadCallback.error (JSONValue.str "响应解析失败")] else []
  else
    match JSON.parse responseText with
    | some error =>
      match getProperty error "error" with
      | some field =>
        if hasError then
          [UploadCallback.error
            (match field with
              | some value => if truthy (some value) then value else JSONValue.str "上传失败"
              | none => JSONValue.str "上传失败")]
        else []
      | none => if hasError then [UploadCallback.error (JSONValue.str "上传失败")] else []
    | none => if hasError then [UploadCallback.error (JSONValue.str "上传失败")] else []

/-! ## Specification-side definitions for `renderAnnotations` -/

/-- A scene child without the identity of the mesh object: two runs of
`renderAnnotations` build different objects with the same fields. -/
def SceneChild.eraseUid : SceneChild → SceneChild
  | SceneChild.annotationMesh m => SceneChild.annotationMesh { m with uid := 0 }
  | child => child

/-- The result of the property read `coords.name` when it does not throw. -/
def propertyOf (coords : JSONValue) (name : String) : JSProp :=
  (getProperty coords name).getD none

/-- Closed form of the mesh that `renderAnnotations` builds for an
annotation whose coordinates parse to `coords`. -/
def expectedAnnotationMesh (coords : Annotation → JSONValue) (uid : Nat) (a : Annotation) :
    SceneChild :=
  SceneChild.annotationMesh
    { uid := uid
      geometry := (orOne (propertyOf (coords a) "width"), orOne (propertyOf (coords a) "height"),
        orOne (propertyOf (coords a) "depth"))
      position := (propertyOf (coords a) "x", propertyOf (coords a) "y",
        propertyOf (coords a) "z")
      isAnnotation := true
      userDataAnnotation := a }

/-! ## app.js: the document-wide drag and drop handlers -/

/-- The four drag events that the document listens to. -/
inductive DragEvent where
  | dragenter
  | dragleave
  | dragover
  | drop
deriving DecidableEq, Repr

/-- The variable `dragCounter` and whether `body` carries the class
`drag-over`. -/
structure DragState where
  dragCounter : Int
  dragOver : Bool
deriving DecidableEq, Repr

/-- The state when the handlers are installed. -/
def DragState.init : DragState :=
  { dragCounter := 0, dragOver := false }

/-- The handler of one drag event. On the upload page the `drop` handler also
hands the dropped files to the file input; that is outside this state. -/
def dragStep (s : DragState) : DragEvent → DragState
  | DragEvent.dragenter => { dragCounter := s.dragCounter + 1, dragOver := true }
  | DragEvent.dragleave =>
    { dragCounter := s.dragCounter - 1
      dragOver := if s.dragCounter - 1 ≤ 0 then false else s.dragOver }
  | DragEvent.dragover => s
  | DragEvent.drop => { dragCounter := 0, dragOver := false }

/-- A sequence of drag events, from a given state. -/
def dragRun (s : DragState) (events : List DragEvent) : DragState :=
  events.foldl dragStep s

/-- The sequences in which no `dragleave` occurs while `dragCounter` is 0. -/
def noLeaveAtZero : DragState → List DragEvent → Bool
  | _, [] => true
  | s, e :: rest =>
    (e != DragEvent.dragleave || s.dragCounter != 0) && noLeaveAtZero (dragStep s e) rest

/-! ## Theorems: `loadBlocks` -/

theorem mem_firstOccurrences (l : List String) (t : String) :
    t ∈ firstOccurrences l ↔ t ∈ l := by
  induction l with
  | nil => simp [firstOccurrences]
  | cons a l ih =>
    simp only [firstOccurrences, List.mem_cons, List.mem_filter, ih]
    by_cases h : t = a <;> simp [h]

theorem nodup_firstOccurrences (l : List String) : (firstOccurrences l).Nodup := by
  induction l with
  | nil => simp [firstOccurrences]
  | cons a l ih =>
    simp only [firstOccurrences, List.nodup_cons, List.mem_filter]
    exact ⟨by simp, ih.filter _⟩

theorem firstOccurrences_filter_ne (l : List String) (a : String) :
    firstOccurrences (l.filter (fun u => u != a)) = (firstOccurrences l).filter (fun u => u != a) := by
  induction l with
  | nil => simp [firstOccurrences]
  | cons b l ih =>
    by_cases h : b = a
    · subst h
      simp [firstOccurrences, ih, List.filter_filter]
    · simp [firstOccurrences, h, ih, List.filter_filter]
      congr 1
      funext u
      exact Bool.and_comm _ _

theorem firstOccurrences_append_singleton (l : List String) (t : String) :
    firstOccurrences (l ++ [t]) =
      if t ∈ l then firstOccurrences l else firstOccurrences l ++ [t] := by
  induction l with
  | nil => simp [firstOccurrences]
  | cons a l ih =>
    rw [List.cons_append, firstOccurrences, firstOccurrences, ih]
    by_cases h : t = a
    · subst h
      by_cases h2 : t ∈ l
      · simp [h2]
      · simp [h2, List.filter_append]
    · by_cases h2 : t ∈ l
      · simp [h, h2]
      · simp [h, h2, List.filter_append]

theorem mapHas_map {β : Type} (keys : List String) (f : String → β) (t : String) :
    mapHas (keys.map (fun k => (k, f k))) t = decide (t ∈ keys) := by
  induction keys with
  | nil => simp [mapHas]
  | cons a keys ih =>
    simp only [mapHas, List.map_cons, List.any_cons, List.mem_cons] at ih ⊢
    rw [ih]
    by_cases h : a = t
    · simp [h]
    · have h2 : ¬ t = a := fun e => h e.symm
      simp [h, h2]

theorem mapGet_map_of_mem {β : Type} (keys : List String) (f : String → β) (t : String)
    (h : t ∈ keys) : mapGet (keys.map (fun k => (k, f k))) t = some (f t) := by
  induction keys with
  | nil => simp at h
  | cons a keys ih =>
    by_cases e : a = t
    · simp [mapGet, e]
    · have h2 : t ∈ keys := by
        rcases List.mem_cons.mp h with h3 | h3
        · exact absurd h3.symm e
        · exact h3
      have := ih h2
      simp only [mapGet, List.map_cons] at this ⊢
      rw [List.find?_cons_of_neg _ (by simpa using e)]
      exact this

theorem mapSet_map_of_not_mem {β : Type} (keys : List String) (f : String → β) (t : String)
    (v : β) (h : t ∉ keys) :
    mapSet (keys.map (fun k => (k, f k))) t v = keys.map (fun k => (k, f k)) ++ [(t, v)] := by
  induction keys with
  | nil => simp [mapSet]
  | cons a keys ih =>
    have h1 : ¬ a = t := fun e => h (by simp [e])
    have h2 : t ∉ keys := fun e => h (List.mem_cons_of_mem _ e)
    simp [mapSet, h1, ih h2]

theorem mapSet_map_of_mem {β : Type} (keys : List String) (f : String → β) (t : String)
    (v : β) (h : t ∈ keys) (hn : keys.Nodup) :
    mapSet (keys.map (fun k => (k, f k))) t v =
      keys.map (fun k => (k, if k = t then v else f k)) := by
  induction keys with
  | nil => simp at h
  | cons a keys ih =>
    have hn' := List.nodup_cons.mp hn
    by_cases e : a = t
    · subst e
      simp only [List.map_cons, mapSet, beq_self_eq_true, if_true]
      congr 1
      apply List.map_congr_left
      intro k hk
      have : k ≠ a := fun e => hn'.1 (e ▸ hk)
      simp [this]
    · have h2 : t ∈ keys := by
        rcases List.mem_cons.mp h with h3 | h3
        · exact absurd h3.symm e
        · exact h3
      simp [mapSet, e, ih h2 hn'.2]

theorem countOfType_append (a b : List Block) (t : String) :
    countOfType (a ++ b) t = countOfType a t + countOfType b t := by
  simp [countOfType]

theorem slotsOfType_length (blocks : List Block) (t : String) :
    (slotsOfType blocks t).length = countOfType blocks t := by
  simp [slotsOfType, countOfType]

theorem set_append_replicate {α : Type} (l : List α) (n : Nat) (x y : α) (h : 0 < n) :
    (l ++ List.replicate n x).set l.length y = (l ++ [y]) ++ List.replicate (n - 1) x := by
  obtain ⟨m, rfl⟩ : ∃ m, n = m + 1 := ⟨n - 1, by omega⟩
  induction l with
  | nil => simp [List.replicate_succ]
  | cons a l ih => simpa using ih

theorem countOfType_snoc_self (done : List Block) (b : Block) :
    countOfType (done ++ [b]) b.block_type = countOfType done b.block_type + 1 := by
  simp [countOfType]

theorem countOfType_snoc_ne (done : List Block) (b : Block) (k : String)
    (h : k ≠ b.block_type) : countOfType (done ++ [b]) k = countOfType done k := by
  have h2 : ¬ b.block_type = k := fun e => h e.symm
  simp [countOfType, List.filter_append, h2]

theorem slotsOfType_snoc_self (done : List Block) (b : Block) :
    slotsOfType (done ++ [b]) b.block_type =
      slotsOfType done b.block_type ++ [some (Matrix4.toFloat32 ⟨b.x, b.y, b.z⟩)] := by
  simp [slotsOfType, List.filter_append]

theorem slotsOfType_snoc_ne (done : List Block) (b : Block) (k : String)
    (h : k ≠ b.block_type) : slotsOfType (done ++ [b]) k = slotsOfType done k := by
  have h2 : ¬ b.block_type = k := fun e => h e.symm
  simp [slotsOfType, List.filter_append, h2]

theorem slots_set (done : List Block) (b : Block) (c : Nat)
    (h : countOfType done b.block_type < c) :
    (slotsOfType done b.block_type ++
        List.replicate (c - countOfType done b.block_type) none).set
      (countOfType done b.block_type) (some (Matrix4.toFloat32 ⟨b.x, b.y, b.z⟩)) =
    slotsOfType (done ++ [b]) b.block_type ++
      List.replicate (c - countOfType (done ++ [b]) b.block_type) none := by
  have h1 := set_append_replicate (slotsOfType done b.block_type)
    (c - countOfType done b.block_type) none (some (Matrix4.toFloat32 ⟨b.x, b.y, b.z⟩)) (by omega)
  rw [slotsOfType_length] at h1
  rw [h1, slotsOfType_snoc_self, countOfType_snoc_self]
  congr 2

theorem filter_type_eq_nil (done : List Block) (t : String)
    (h : t ∉ done.map Block.block_type) :
    done.filter (fun b => b.block_type == t) = [] := by
  rw [List.filter_eq_nil_iff]
  intro b hb e
  exact h (List.mem_map.mpr ⟨b, hb, by simpa using e⟩)

theorem expectedInstance_new (materials : List (String × Material)) (blocks done : List Block)
    (uid0 : Nat) (keys : List String) (t : String) (hk : t ∉ keys)
    (hd : t ∉ done.map Block.block_type) :
    expectedInstance materials blocks uid0 (keys ++ [t]) done t =
      { mesh :=
          { uid := uid0 + keys.length
            geometry := (1, 1, 1)
            material := materialFor materials t
            count := countOfType blocks t
            instanceMatrix := List.replicate (countOfType blocks t) none
            castShadow := true
            receiveShadow := true
            needsUpdate := false }
        index := 0 } := by
  have h0 := filter_type_eq_nil done t hd
  simp [expectedInstance, slotsOfType, countOfType, h0, List.indexOf_append_of_not_mem hk]

theorem expectedInstance_keys_append (materials : List (String × Material))
    (blocks done : List Block) (uid0 : Nat) (keys : List String) (t k : String) (hk : k ∈ keys) :
    expectedInstance materials blocks uid0 (keys ++ [t]) done k =
      expectedInstance materials blocks uid0 keys done k := by
  simp [expectedInstance, List.indexOf_append_of_mem hk]

theorem loadBlocksStep_spec (materials : List (String × Material)) (blocks done todo : List Block)
    (b : Block) (st : LoopState) (index uid0 : Nat) (scene0 : List SceneChild)
    (hb : blocks = done ++ b :: todo)
    (hm : st.instancedMeshes = (firstOccurrences (done.map Block.block_type)).map
      (fun k => (k, expectedInstance materials blocks uid0
        (firstOccurrences (done.map Block.block_type)) done k)))
    (hu : st.nextUid = uid0 + (firstOccurrences (done.map Block.block_type)).length)
    (hs : st.scene = scene0 ++ (List.range (firstOccurrences (done.map Block.block_type)).length).map
      (fun i => SceneChild.instanced (uid0 + i))) :
    (loadBlocksStep materials blocks st index b).instancedMeshes =
      (firstOccurrences ((done ++ [b]).map Block.block_type)).map
        (fun k => (k, expectedInstance materials blocks uid0
          (firstOccurrences ((done ++ [b]).map Block.block_type)) (done ++ [b]) k)) ∧
    (loadBlocksStep materials blocks st index b).nextUid =
      uid0 + (firstOccurrences ((done ++ [b]).map Block.block_type)).length ∧
    (loadBlocksStep materials blocks st index b).scene =
      scene0 ++ (List.range (firstOccurrences ((done ++ [b]).map Block.block_type)).length).map
        (fun i => SceneChild.instanced (uid0 + i)) := by
  obtain ⟨im, sc, nu, ld⟩ := st
  simp only at hm hu hs
  subst hm hu hs
  unfold loadBlocksStep
  simp only []
  obtain ⟨ld1, hst1⟩ : ∃ ld1 : Option String,
      (if index % 1000 = 0 then ({ (LoopState.mk _ _ _ ld) with loading := some ("Loading blocks: "
        ++ toString index ++ "/" ++ toString blocks.length) } : LoopState) else LoopState.mk _ _ _ ld)
        = LoopState.mk _ _ _ ld1 := by
    split
    · exact ⟨_, rfl⟩
    · exact ⟨_, rfl⟩
  rw [hst1]
  clear hst1
  set keys := firstOccurrences (done.map Block.block_type) with hkeys
  have hkeys' : firstOccurrences ((done ++ [b]).map Block.block_type) =
      if b.block_type ∈ keys then keys else keys ++ [b.block_type] := by
    rw [List.map_append, List.map_singleton, firstOccurrences_append_singleton]
    simp only [hkeys, mem_firstOccurrences]
  have hnd : keys.Nodup := nodup_firstOccurrences _
  rw [hkeys', mapHas_map]
  have hlt : countOfType done b.block_type < countOfType blocks b.block_type := by
    rw [hb, countOfType_append]
    simp [countOfType]
  by_cases hmem : b.block_type ∈ keys
  · simp only [hmem, decide_True, Bool.not_true, if_true, Bool.false_eq_true, if_false]
    rw [mapGet_map_of_mem _ _ _ hmem]
    simp only []
    rw [mapSet_map_of_mem _ _ _ _ hmem hnd]
    refine ⟨?_, trivial, trivial⟩
    apply List.map_congr_left
    intro k hk
    congr 1
    by_cases hkb : k = b.block_type
    · subst hkb
      simp only [if_true, expectedInstance, InstancedMesh.setMatrixAt]
      rw [slots_set _ _ _ hlt, countOfType_snoc_self]
    · simp only [if_neg hkb, expectedInstance]
      rw [slotsOfType_snoc_ne _ _ _ hkb, countOfType_snoc_ne _ _ _ hkb]
  · simp only [hmem, decide_False, Bool.not_false, if_true, if_false]
    rw [mapSet_map_of_not_mem _ _ _ _ hmem]
    have hd : b.block_type ∉ done.map Block.block_type := by
      rw [← mem_firstOccurrences]; exact hmem
    have hmid : List.map (fun k => (k, expectedInstance materials blocks uid0 keys done k)) keys ++
        [(b.block_type, (⟨⟨uid0 + keys.length, (1, 1, 1), materialFor materials b.block_type,
          countOfType blocks b.block_type, List.replicate (countOfType blocks b.block_type) none,
          true, true, false⟩, 0⟩ : Instance))] =
        List.map (fun k => (k, expectedInstance materials blocks uid0 (keys ++ [b.block_type]) done k))
          (keys ++ [b.block_type]) := by
      rw [List.map_append, List.map_singleton, expectedInstance_new _ _ _ _ _ _ hmem hd]
      congr 1
      apply List.map_congr_left
      intro k hk
      rw [expectedInstance_keys_append _ _ _ _ _ _ _ hk]
    rw [hmid]
    have hmem' : b.block_type ∈ keys ++ [b.block_type] := by simp
    have hnd' : (keys ++ [b.block_type]).Nodup := by
      rw [List.nodup_append]
      refine ⟨hnd, List.nodup_singleton _, ?_⟩
      intro x hx hx'
      rw [List.mem_singleton] at hx'
      exact hmem (hx' ▸ hx)
    rw [mapGet_map_of_mem _ _ _ hmem']
    simp only []
    rw [mapSet_map_of_mem _ _ _ _ hmem' hnd']
    refine ⟨?_, by simp; omega, by simp [List.range_succ]⟩
    apply List.map_congr_left
    intro k hk
    congr 1
    by_cases hkb : k = b.block_type
    · subst hkb
      simp only [if_true, expectedInstance, InstancedMesh.setMatrixAt]
      rw [slots_set _ _ _ hlt, countOfType_snoc_self]
    · simp only [if_neg hkb, expectedInstance]
      rw [slotsOfType_snoc_ne _ _ _ hkb, countOfType_snoc_ne _ _ _ hkb]

theorem loadBlocksLoop_spec (materials : List (String × Material)) (blocks : List Block)
    (uid0 : Nat) (scene0 : List SceneChild) (todo : List Block) :
    ∀ (done : List Block) (st : LoopState) (index : Nat),
    blocks = done ++ todo →
    st.instancedMeshes = (firstOccurrences (done.map Block.block_type)).map
      (fun k => (k, expectedInstance materials blocks uid0
        (firstOccurrences (done.map Block.block_type)) done k)) →
    st.nextUid = uid0 + (firstOccurrences (done.map Block.block_type)).length →
    st.scene = scene0 ++ (List.range (firstOccurrences (done.map Block.block_type)).length).map
      (fun i => SceneChild.instanced (uid0 + i)) →
    (loadBlocksLoop materials blocks st index todo).instancedMeshes =
      (firstOccurrences (blocks.map Block.block_type)).map
        (fun k => (k, expectedInstance materials blocks uid0
          (firstOccurrences (blocks.map Block.block_type)) blocks k)) ∧
    (loadBlocksLoop materials blocks st index todo).nextUid =
      uid0 + (firstOccurrences (blocks.map Block.block_type)).length ∧
    (loadBlocksLoop materials blocks st index todo).scene =
      scene0 ++ (List.range (firstOccurrences (blocks.map Block.block_type)).length).map
        (fun i => SceneChild.instanced (uid0 + i)) := by
  induction todo with
  | nil =>
    intro done st index hb hm hu hs
    rw [List.append_nil] at hb
    subst hb
    exact ⟨hm, hu, hs⟩
  | cons b todo ih =>
    intro done st index hb hm hu hs
    have hstep := loadBlocksStep_spec materials blocks done todo b st index uid0 scene0 hb hm hu hs
    rw [loadBlocksLoop]
    exact ih (done ++ [b]) _ (index + 1) (by simp [hb]) hstep.1 hstep.2.1 hstep.2.2

theorem loadBlocksBody_blockMeshes (s : ViewerState) (blocks : List Block) :
    (loadBlocksBody s blocks).blockMeshes =
      (firstOccurrences (blocks.map Block.block_type)).map (expectedMesh blocks s.nextUid) ∧
    (loadBlocksBody s blocks).nextUid =
      s.nextUid + (firstOccurrences (blocks.map Block.block_type)).length ∧
    (loadBlocksBody s blocks).scene = (clearBlocks s).scene ++
      (List.range (firstOccurrences (blocks.map Block.block_type)).length).map
        (fun i => SceneChild.instanced (s.nextUid + i)) := by
  have h := loadBlocksLoop_spec createBlockMaterials blocks s.nextUid (clearBlocks s).scene blocks []
    { instancedMeshes := [], scene := (clearBlocks s).scene, nextUid := s.nextUid,
      loading := some ("Loading " ++ toString blocks.length ++ " blocks...") } 0
    (by simp) (by simp [firstOccurrences]) (by simp [firstOccurrences]) (by simp [firstOccurrences])
  refine ⟨?_, h.2.1, h.2.2⟩
  simp only [loadBlocksBody, mapValues, showLoadingMessage, clearBlocks] at h ⊢
  rw [h.1]
  simp only [List.map_map]
  apply List.map_congr_left
  intro k _
  simp [expectedInstance, expectedMesh]

theorem forall₂_map_right_self {α β : Type} (l : List α) (f : α → β) (R : α → β → Prop)
    (h : ∀ a ∈ l, R a (f a)) : List.Forall₂ R l (l.map f) := by
  induction l with
  | nil => exact List.Forall₂.nil
  | cons a l ih =>
    exact List.Forall₂.cons (h a (List.mem_cons_self _ _))
      (ih (fun x hx => h x (List.mem_cons_of_mem _ hx)))

theorem flatMap_filter_perm (keys : List String) :
    ∀ (l : List Block), keys.Nodup → (∀ b ∈ l, b.block_type ∈ keys) →
    List.Perm (keys.flatMap (fun t => l.filter (fun b => b.block_type == t))) l := by
  induction keys with
  | nil =>
    intro l _ h
    cases l with
    | nil => simp
    | cons b l => exact absurd (h b (List.mem_cons_self _ _)) (List.not_mem_nil _)
  | cons k ks ih =>
    intro l hnd h
    have hnd' := List.nodup_cons.mp hnd
    rw [List.flatMap_cons]
    have hrest : ks.flatMap (fun t => l.filter (fun b => b.block_type == t)) =
        ks.flatMap (fun t => (l.filter (fun b => !(b.block_type == k))).filter
          (fun b => b.block_type == t)) := by
      apply List.flatMap_congr
      intro t ht
      rw [List.filter_filter]
      apply List.filter_congr
      intro b _
      by_cases e : b.block_type = t
      · have : ¬ b.block_type = k := fun e2 => hnd'.1 (e2 ▸ e ▸ ht)
        simp [e, this]
        intro e3
        exact hnd'.1 (e3 ▸ ht)
      · simp [e]
    rw [hrest]
    have ih' := ih (l.filter (fun b => !(b.block_type == k))) hnd'.2 (by
      intro b hb
      rw [List.mem_filter] at hb
      rcases List.mem_cons.mp (h b hb.1) with e | e
      · simp [e] at hb
      · exact e)
    exact (List.Perm.append_left _ ih').trans (List.filter_append_perm _ l)

theorem map_indexOf_of_nodup (uid0 : Nat) (l : List String) (h : l.Nodup) :
    l.map (fun t => uid0 + l.indexOf t) = List.range' uid0 l.length := by
  apply List.ext_getElem
  · simp
  · intro i h1 h2
    simp only [List.getElem_map, List.getElem_range']
    rw [List.indexOf_getElem h]
    omega

/-- C1. `loadBlocks` leaves in `blockMeshes` one instanced mesh per distinct
`block_type` of the block list, in order of first occurrence; the mesh of type
`t` has the material of `t` and a capacity equal to the number of blocks of
type `t`; these meshes are exactly the meshes created (they carry the fresh
uids `nextUid, nextUid + 1, ..`) and exactly the children added to the scene;
an empty list yields no meshes. -/
theorem loadBlocks_one_mesh_per_type (s : ViewerState) (blocks : List Block) :
    List.Forall₂
      (fun t m => m.count = countOfType blocks t ∧ m.instanceMatrix.length = countOfType blocks t ∧
        m.material = materialFor createBlockMaterials t)
      (firstOccurrences (blocks.map Block.block_type))
      (loadBlocks s (FetchOutcome.ok blocks)).1.blockMeshes ∧
    (loadBlocks s (FetchOutcome.ok blocks)).1.blockMeshes.map InstancedMesh.uid =
      List.range' s.nextUid (firstOccurrences (blocks.map Block.block_type)).length ∧
    (loadBlocks s (FetchOutcome.ok blocks)).1.nextUid =
      s.nextUid + (firstOccurrences (blocks.map Block.block_type)).length ∧
    (loadBlocks s (FetchOutcome.ok blocks)).1.scene = (clearBlocks s).scene ++
      (loadBlocks s (FetchOutcome.ok blocks)).1.blockMeshes.map
        (fun m => SceneChild.instanced m.uid) ∧
    (blocks = [] → (loadBlocks s (FetchOutcome.ok blocks)).1.blockMeshes = []) := by
  have h := loadBlocksBody_blockMeshes s blocks
  simp only [loadBlocks]
  rw [h.1, h.2.1, h.2.2]
  refine ⟨?_, ?_, rfl, ?_, ?_⟩
  · apply forall₂_map_right_self
    intro t _
    simp [expectedMesh, slotsOfType_length]
  · rw [List.map_map]
    exact map_indexOf_of_nodup s.nextUid _ (nodup_firstOccurrences _)
  · rw [List.map_map]
    have h2 := map_indexOf_of_nodup s.nextUid _ (nodup_firstOccurrences (blocks.map Block.block_type))
    rw [List.range'_eq_map_range] at h2
    have h3 := congrArg (List.map SceneChild.instanced) h2
    rw [List.map_map, List.map_map] at h3
    exact congrArg _ h3.symm
  · intro e
    subst e
    simp [firstOccurrences]

theorem fround_of_small (n : Int) (h : n.natAbs ≤ 16777216) : fround n = Float32.finite n := by
  have h2 : n.natAbs ≤ 2 ^ 24 := by
    have : (2 : Nat) ^ 24 = 16777216 := by norm_num
    omega
  simp only [fround, h2, if_true]

/-- C2, as amended. Every mesh that `loadBlocks` leaves is a 1x1x1 box, and
slot `j` of the mesh of type `t` holds the translation to the coordinates of
the `j`-th block of type `t` in list order, each coordinate converted to single
precision as the `Float32Array` of the mesh stores it; the instance positions
of all meshes taken together are a permutation of the converted coordinates of
the blocks of the list. When every coordinate of every block has an absolute
value of at most `2 ^ 24 = 16777216` the conversion is exact: slot `j` holds
the coordinates themselves, and the instance positions are a permutation of
the coordinates of the blocks. -/
theorem loadBlocks_instance_positions (s : ViewerState) (blocks : List Block) :
    List.Forall₂
      (fun t m => m.geometry = (1, 1, 1) ∧
        m.instanceMatrix = (blocks.filter (fun b => b.block_type == t)).map
          (fun b => some (Vec3.mk (fround b.x) (fround b.y) (fround b.z))))
      (firstOccurrences (blocks.map Block.block_type))
      (loadBlocks s (FetchOutcome.ok blocks)).1.blockMeshes ∧
    List.Perm
      ((loadBlocks s (FetchOutcome.ok blocks)).1.blockMeshes.flatMap InstancedMesh.instanceMatrix)
      (blocks.map (fun b => some (Vec3.mk (fround b.x) (fround b.y) (fround b.z)))) ∧
    ((∀ b ∈ blocks,
        b.x.natAbs ≤ 16777216 ∧ b.y.natAbs ≤ 16777216 ∧ b.z.natAbs ≤ 16777216) →
      List.Forall₂
        (fun t m => m.instanceMatrix = (blocks.filter (fun b => b.block_type == t)).map
          (fun b => some (Vec3.mk (Float32.finite b.x) (Float32.finite b.y)
            (Float32.finite b.z))))
        (firstOccurrences (blocks.map Block.block_type))
        (loadBlocks s (FetchOutcome.ok blocks)).1.blockMeshes ∧
      List.Perm
        ((loadBlocks s (FetchOutcome.ok blocks)).1.blockMeshes.flatMap
          InstancedMesh.instanceMatrix)
        (blocks.map (fun b => some (Vec3.mk (Float32.finite b.x) (Float32.finite b.y)
          (Float32.finite b.z))))) := by
  have h := loadBlocksBody_blockMeshes s blocks
  have hperm : List.Perm
      ((loadBlocks s (FetchOutcome.ok blocks)).1.blockMeshes.flatMap InstancedMesh.instanceMatrix)
      (blocks.map (fun b => some (Vec3.mk (fround b.x) (fround b.y) (fround b.z)))) := by
    simp only [loadBlocks]
    rw [h.1]
    have hp := flatMap_filter_perm (firstOccurrences (blocks.map Block.block_type)) blocks
      (nodup_firstOccurrences _) (by
        intro b hb
        rw [mem_firstOccurrences]
        exact List.mem_map_of_mem _ hb)
    have hp2 := hp.map (fun b => some (Matrix4.toFloat32 ⟨b.x, b.y, b.z⟩))
    refine List.Perm.trans (List.Perm.of_eq ?_) hp2
    rw [List.flatMap_map, List.map_flatMap]
    rfl
  have hslots : List.Forall₂
      (fun t m => m.geometry = (1, 1, 1) ∧
        m.instanceMatrix = (blocks.filter (fun b => b.block_type == t)).map
          (fun b => some (Vec3.mk (fround b.x) (fround b.y) (fround b.z))))
      (firstOccurrences (blocks.map Block.block_type))
      (loadBlocks s (FetchOutcome.ok blocks)).1.blockMeshes := by
    simp only [loadBlocks]
    rw [h.1]
    apply forall₂_map_right_self
    intro t _
    exact ⟨rfl, rfl⟩
  refine ⟨hslots, hperm, ?_⟩
  intro hsmall
  have hexact : ∀ b ∈ blocks,
      some (Vec3.mk (fround b.x) (fround b.y) (fround b.z)) =
      some (Vec3.mk (Float32.finite b.x) (Float32.finite b.y) (Float32.finite b.z)) := by
    intro b hb
    obtain ⟨hx, hy, hz⟩ := hsmall b hb
    rw [fround_of_small _ hx, fround_of_small _ hy, fround_of_small _ hz]
  refine ⟨?_, ?_⟩
  · refine hslots.imp ?_
    intro t m hm
    rw [hm.2]
    apply List.map_congr_left
    intro b hb
    exact hexact b (List.mem_filter.mp hb).1
  · rw [← List.map_congr_left hexact]
    exact hperm

/-- C2, witness: two stone blocks and a dirt block with small coordinates. -/
theorem loadBlocks_instance_positions_witness :
    (∀ b ∈ [Block.mk "minecraft:stone" 1 64 (-3), Block.mk "minecraft:dirt" 0 0 0,
        Block.mk "minecraft:stone" 2 64 (-3)],
      b.x.natAbs ≤ 16777216 ∧ b.y.natAbs ≤ 16777216 ∧ b.z.natAbs ≤ 16777216) ∧
    List.Perm
      ((loadBlocks ⟨[], none, [], [], none, [], [], none, 0⟩
        (FetchOutcome.ok [Block.mk "minecraft:stone" 1 64 (-3), Block.mk "minecraft:dirt" 0 0 0,
          Block.mk "minecraft:stone" 2 64 (-3)])).1.blockMeshes.flatMap
            InstancedMesh.instanceMatrix)
      ([Block.mk "minecraft:stone" 1 64 (-3), Block.mk "minecraft:dirt" 0 0 0,
          Block.mk "minecraft:stone" 2 64 (-3)].map
        (fun b => some (Vec3.mk (Float32.finite b.x) (Float32.finite b.y)
          (Float32.finite b.z)))) :=
  ⟨by decide,
    ((loadBlocks_instance_positions ⟨[], none, [], [], none, [], [], none, 0⟩
      [Block.mk "minecraft:stone" 1 64 (-3), Block.mk "minecraft:dirt" 0 0 0,
        Block.mk "minecraft:stone" 2 64 (-3)]).2.2 (by decide)).2⟩

/-- C2, counterexample. One stone block at `(16777217, 64, -29999999)`, inside
the world border of Minecraft: the slot of its mesh holds
`(16777216, 64, -30000000)`, the nearest single-precision numbers, so the
instance positions are not the block coordinates. -/
theorem loadBlocks_float32_rounding :
    (loadBlocks ⟨[], none, [], [], none, [], [], none, 0⟩
      (FetchOutcome.ok [Block.mk "minecraft:stone" 16777217 64 (-29999999)])).1.blockMeshes.flatMap
        InstancedMesh.instanceMatrix =
      [some (Vec3.mk (Float32.finite 16777216) (Float32.finite 64)
        (Float32.finite (-30000000)))] ∧
    ¬ List.Perm
      ((loadBlocks ⟨[], none, [], [], none, [], [], none, 0⟩
        (FetchOutcome.ok [Block.mk "minecraft:stone" 16777217 64 (-29999999)])).1.blockMeshes.flatMap
          InstancedMesh.instanceMatrix)
      ([Block.mk "minecraft:stone" 16777217 64 (-29999999)].map
        (fun b => some (Vec3.mk (Float32.finite b.x) (Float32.finite b.y)
          (Float32.finite b.z)))) := by
  have h : (loadBlocks ⟨[], none, [], [], none, [], [], none, 0⟩
      (FetchOutcome.ok [Block.mk "minecraft:stone" 16777217 64 (-29999999)])).1.blockMeshes.flatMap
        InstancedMesh.instanceMatrix =
      [some (Vec3.mk (Float32.finite 16777216) (Float32.finite 64)
        (Float32.finite (-30000000)))] := by
    decide
  refine ⟨h, ?_⟩
  rw [h]
  decide

/-! ## Theorems: `validateFile` -/

theorem split_ne_nil (sep : Char) (l : List Char) : split sep l ≠ [] := by
  induction l with
  | nil => simp [split]
  | cons c cs ih =>
    rw [split]
    split
    · simp
    · split <;> simp

theorem split_of_all_ne (sep : Char) (l : List Char) (h : l.all (fun c => c != sep) = true) :
    split sep l = [l] := by
  induction l with
  | nil => simp [split]
  | cons c cs ih =>
    simp only [List.all_cons, Bool.and_eq_true, bne_iff_ne, ne_eq] at h
    rw [split, if_neg h.1, ih h.2]

theorem split_two_of_not_all (sep : Char) (l : List Char)
    (h : ¬ l.all (fun c => c != sep) = true) :
    ∃ seg seg2 segs, split sep l = seg :: seg2 :: segs := by
  induction l with
  | nil => simp at h
  | cons c cs ih =>
    rw [split]
    by_cases hc : c = sep
    · rw [if_pos hc]
      cases hs : split sep cs with
      | nil => exact absurd hs (split_ne_nil sep cs)
      | cons a b => exact ⟨_, _, _, rfl⟩
    · rw [if_neg hc]
      have h2 : ¬ cs.all (fun c => c != sep) = true := by
        intro h3
        apply h
        simp only [List.all_cons, Bool.and_eq_true, bne_iff_ne, ne_eq]
        exact ⟨hc, h3⟩
      obtain ⟨seg, seg2, segs, hs⟩ := ih h2
      rw [hs]
      exact ⟨_, _, _, rfl⟩

theorem takeWhile_snoc {α : Type} (p : α → Bool) (l : List α) (c : α) :
    (l ++ [c]).takeWhile p =
      if l.all p then (if p c then l ++ [c] else l) else l.takeWhile p := by
  induction l with
  | nil => by_cases h : p c <;> simp [List.takeWhile, h]
  | cons a l ih =>
    by_cases ha : p a
    · simp only [List.cons_append, List.takeWhile_cons, ha, if_true, ih, List.all_cons,
        Bool.true_and]
      by_cases hl : l.all p = true
      · by_cases hc : p c <;> simp [hl, hc]
      · simp [hl]
    · simp [List.takeWhile_cons, ha]

theorem pop_split (sep : Char) (l : List Char) :
    pop (split sep l) = (l.reverse.takeWhile (fun c => c != sep)).reverse := by
  induction l with
  | nil => simp [split, pop]
  | cons c cs ih =>
    rw [List.reverse_cons, takeWhile_snoc, List.all_reverse, split]
    by_cases h : c = sep
    · subst h
      rw [if_pos rfl]
      have hne := split_ne_nil c cs
      have hp : pop ([] :: split c cs) = pop (split c cs) := by
        cases hs : split c cs with
        | nil => exact absurd hs hne
        | cons a b => simp [pop, List.getLastD]
      rw [hp, ih]
      by_cases hall : cs.all (fun x => x != c) = true
      · have : cs.reverse.takeWhile (fun x => x != c) = cs.reverse := by
          rw [List.takeWhile_eq_self_iff]
          intro x hx
          rw [List.all_eq_true] at hall
          exact hall x (List.mem_reverse.mp hx)
        simp [hall, this]
      · simp [hall]
    · rw [if_neg h]
      by_cases hall : cs.all (fun x => x != sep) = true
      · rw [split_of_all_ne sep cs hall]
        simp [pop, hall, h]
      · obtain ⟨seg, seg2, segs, hs⟩ := split_two_of_not_all sep cs hall
        rw [hs] at ih ⊢
        simp only [hall, Bool.false_eq_true, if_false]
        rw [← ih]
        simp [pop, List.getLastD]

theorem getD_textAfterLastDot (name : List Char) :
    (textAfterLastDot name).getD name = pop (split '.' name) := by
  rw [pop_split, textAfterLastDot]
  by_cases h : '.' ∈ name
  · simp [h]
  · have : name.reverse.takeWhile (fun c => c != '.') = name.reverse := by
      rw [List.takeWhile_eq_self_iff]
      intro x hx
      have : x ≠ '.' := fun e => h (e ▸ List.mem_reverse.mp hx)
      simpa using this
    simp [h, this]

theorem extensionOf_eq (name : String) :
    extensionOf name = String.mk (toLowerCase ((textAfterLastDot name.data).getD name.data)) := by
  rw [extensionOf, getD_textAfterLastDot]

/-- C3, as amended. `validateFile` returns no error exactly when the size is
at most 524288000 and the lower-cased last `.`-separated segment of the name
(the text after the last `.`, or the whole name when it has no `.`) is `mca`
or `mcr`; in general it returns the size error when the size is above the
limit, followed by the format error when that segment is not supported. -/
theorem validateFile_spec (formatFileSize : Nat → String) (file : File) :
    (validateFile formatFileSize file = [] ↔
      file.size ≤ 524288000 ∧
        (String.mk (toLowerCase ((textAfterLastDot file.name.data).getD file.name.data)) = "mca" ∨
          String.mk (toLowerCase ((textAfterLastDot file.name.data).getD file.name.data)) =
            "mcr")) ∧
    validateFile formatFileSize file =
      (if 524288000 < file.size then [sizeError (formatFileSize 524288000)] else []) ++
      (if String.mk (toLowerCase ((textAfterLastDot file.name.data).getD file.name.data)) = "mca" ∨
          String.mk (toLowerCase ((textAfterLastDot file.name.data).getD file.name.data)) = "mcr"
        then [] else [formatError]) := by
  rw [← extensionOf_eq]
  have hmax : uploadMaxSize = 524288000 := by decide
  have hcontains : supportedFormats.contains (extensionOf file.name) =
      decide (extensionOf file.name = "mca" ∨ extensionOf file.name = "mcr") := by
    rw [Bool.eq_iff_iff]
    simp [supportedFormats]
  have hres : validateFile formatFileSize file =
      (if 524288000 < file.size then [sizeError (formatFileSize 524288000)] else []) ++
      (if extensionOf file.name = "mca" ∨ extensionOf file.name = "mcr" then []
        else [formatError]) := by
    simp only [validateFile, hcontains, hmax, gt_iff_lt, List.nil_append]
    by_cases hs : 524288000 < file.size <;>
      by_cases he : extensionOf file.name = "mca" ∨ extensionOf file.name = "mcr" <;>
      simp [hs, he]
  refine ⟨?_, hres⟩
  rw [hres]
  by_cases hs : 524288000 < file.size
  · simp [hs]
  · by_cases he : extensionOf file.name = "mca" ∨ extensionOf file.name = "mcr"
    · simp only [hs, he, if_false, if_true, List.append_nil, true_iff, and_true]
      omega
    · simp [hs, he]

/-- C3, counterexample. The file named `mca` has no `.` in its name, so no
text after a last `.`, and `validateFile` accepts it all the same. -/
theorem validateFile_dotless_name :
    ¬ (validateFile (fun _ => "500 MB") ⟨"mca", 0⟩ = [] ↔
        ((File.mk "mca" 0).size ≤ 524288000 ∧
          ∃ ext, textAfterLastDot (File.mk "mca" 0).name.data = some ext ∧
            (String.mk (toLowerCase ext) = "mca" ∨ String.mk (toLowerCase ext) = "mcr"))) := by
  intro h
  have h1 : validateFile (fun _ => "500 MB") ⟨"mca", 0⟩ = [] := by decide
  obtain ⟨_, ext, hext, _⟩ := h.mp h1
  have h2 : textAfterLastDot (File.mk "mca" 0).name.data = none := by decide
  rw [h2] at hext
  exact Option.noConfusion hext

/-! ## Theorems: error handling of `request`, `loadBlocks`, `loadAnnotations` -/

/-- C4, as amended. When `fetch` rejects, or answers with a response whose
`ok` flag is false, `request` logs the error, calls `showNotification` once,
which puts one error alert on a page that has a container and none on a page
without, and rethrows: the promise returned to the caller rejects with that
same error. -/
theorem request_failure (JSON : JSONBuiltins) (fetch : String → RequestOptions → FetchResult)
    (p : Page)
    (method url : String) (data : Option JSONValue) (options : OptionsOverride) (error : JSError)
    (h : fetch url (finalOptions JSON method data options) = FetchResult.rejected error ∨
      ∃ r, fetch url (finalOptions JSON method data options) = FetchResult.fulfilled r ∧
        r.ok = false ∧ error = ⟨"HTTP " ++ toString r.status ++ ": " ++ r.statusText⟩) :
    (request JSON fetch p method url data options).2 = Settled.rejected error ∧
    (request JSON fetch p method url data options).1.consoleErrors =
      p.consoleErrors ++ ["API请求失败:"] ∧
    (request JSON fetch p method url data options).1.alerts =
      (if p.hasContainer then
        [Alert.mk ("请求失败: " ++ error.message) (AlertClass.named "alert-danger")] else [])
        ++ p.alerts := by
  rcases h with h | ⟨r, h, hok, he⟩
  · simp only [request, h, showNotification]
    cases hc : p.hasContainer <;> simp [hc, alertClassOf]
  · subst he
    simp only [request, h, hok, showNotification]
    cases hc : p.hasContainer <;> simp [hc, alertClassOf]

/-- C4, witness: a request whose `fetch` rejects with `Failed to fetch`. -/
theorem request_failure_witness :
    (request integerJSON (fun _ _ => FetchResult.rejected ⟨"Failed to fetch"⟩) ⟨true, [], []⟩
        "GET" "/api/maps" none ⟨none, none, none⟩).2 = Settled.rejected ⟨"Failed to fetch"⟩ ∧
    (request integerJSON (fun _ _ => FetchResult.rejected ⟨"Failed to fetch"⟩) ⟨true, [], []⟩
        "GET" "/api/maps" none ⟨none, none, none⟩).1.consoleErrors = [] ++ ["API请求失败:"] ∧
    (request integerJSON (fun _ _ => FetchResult.rejected ⟨"Failed to fetch"⟩) ⟨true, [], []⟩
        "GET" "/api/maps" none ⟨none, none, none⟩).1.alerts =
      (if (Page.mk true [] []).hasContainer then
        [Alert.mk ("请求失败: " ++ (JSError.mk "Failed to fetch").message)
          (AlertClass.named "alert-danger")] else [])
        ++ [] :=
  request_failure integerJSON (fun _ _ => FetchResult.rejected ⟨"Failed to fetch"⟩)
    ⟨true, [], []⟩ "GET" "/api/maps" none ⟨none, none, none⟩ ⟨"Failed to fetch"⟩ (Or.inl rfl)

/-- C4, counterexample. A `GET` whose `fetch` rejects: the promise that
`request` returns rejects too, with the error of `fetch`. -/
theorem request_propagates_rejection :
    (request integerJSON (fun _ _ => FetchResult.rejected ⟨"Failed to fetch"⟩) ⟨true, [], []⟩
        "GET" "/api/maps" none ⟨none, none, none⟩).2 = Settled.rejected ⟨"Failed to fetch"⟩ ∧
    ¬ ∃ value, (request integerJSON (fun _ _ => FetchResult.rejected ⟨"Failed to fetch"⟩)
        ⟨true, [], []⟩ "GET" "/api/maps" none ⟨none, none, none⟩).2 =
          Settled.resolved value := by
  refine ⟨rfl, ?_⟩
  rintro ⟨value, h⟩
  exact Settled.noConfusion h

/-- C5, the code at the failing input. A request for the annotations that is
rejected, or whose body is not JSON, makes `loadAnnotations` log to the
console and complete normally without any call of `showMessage`; the same
failure in `loadBlocks` does put up the message `Failed to load blocks`. -/
theorem loadAnnotations_failure_shows_no_message (JSON : JSONBuiltins) (s : ViewerState) :
    (loadAnnotations JSON s FetchOutcome.rejected).1.messages = s.messages ∧
    (loadAnnotations JSON s FetchOutcome.invalidJSON).1.messages = s.messages ∧
    (loadAnnotations JSON s FetchOutcome.rejected).2 = Completion.normal ∧
    (loadAnnotations JSON s FetchOutcome.invalidJSON).2 = Completion.normal ∧
    (loadBlocks s FetchOutcome.rejected).1.messages =
      s.messages ++ [("Failed to load blocks", "error")] ∧
    (loadBlocks s FetchOutcome.invalidJSON).1.messages =
      s.messages ++ [("Failed to load blocks", "error")] ∧
    (loadBlocks s FetchOutcome.rejected).2 = Completion.normal ∧
    (loadBlocks s FetchOutcome.invalidJSON).2 = Completion.normal := by
  simp [loadAnnotations, loadBlocks, consoleError, showMessage]

/-! ## Theorems: local storage helpers -/

theorem removeItem_quota (ls : LocalStorage) (key : String) :
    (ls.removeItem key).quota = ls.quota := rfl

theorem clear_foldl (keys : List String) (ls : LocalStorage) :
    (keys.foldl (fun acc key => if startsWith key "craftne_" then acc.removeItem key else acc)
      ls).items =
      ls.items.filter
        (fun e => !(keys.any (fun key => startsWith key "craftne_" && e.1 == key))) ∧
    (keys.foldl (fun acc key => if startsWith key "craftne_" then acc.removeItem key else acc)
      ls).quota = ls.quota := by
  induction keys generalizing ls with
  | nil => simp
  | cons k ks ih =>
    rw [List.foldl_cons]
    by_cases hk : startsWith k "craftne_" = true
    · rw [if_pos hk]
      obtain ⟨h1, h2⟩ := ih (ls.removeItem k)
      refine ⟨?_, by rw [h2, removeItem_quota]⟩
      rw [h1]
      simp only [LocalStorage.removeItem, List.filter_filter, List.any_cons, hk, Bool.true_and]
      apply List.filter_congr
      intro e _
      by_cases hek : e.1 = k
      · simp [hek]
      · have hb : (e.1 == k) = false := by simpa using hek
        simp [hb, bne]
    · rw [if_neg hk]
      obtain ⟨h1, h2⟩ := ih ls
      refine ⟨?_, h2⟩
      rw [h1]
      have hk' : startsWith k "craftne_" = false := by simpa using hk
      simp only [List.any_cons, hk', Bool.false_and, Bool.false_or]

theorem startsWith_append (start rest : String) : startsWith (start ++ rest) start = true := by
  simp [startsWith, String.data_append]

/-- C7. `storage.clear` leaves in `localStorage` exactly the entries whose key
does not start with `craftne_`, each with its value and in the same order, and
returns `true`; after it `storage.get(key, d)` returns `d` for every key. -/
theorem storage_clear_spec (JSON : JSONBuiltins) (ls : LocalStorage) :
    (storage.clear ls).1.items = ls.items.filter (fun e => !(startsWith e.1 "craftne_")) ∧
    (storage.clear ls).1.quota = ls.quota ∧
    (storage.clear ls).2 = true ∧
    ∀ (key : String) (d : JSONValue), storage.get JSON (storage.clear ls).1 key d = d := by
  obtain ⟨h1, h2⟩ := clear_foldl ls.keys ls
  have hitems : (storage.clear ls).1.items =
      ls.items.filter (fun e => !(startsWith e.1 "craftne_")) := by
    simp only [storage.clear]
    rw [h1]
    apply List.filter_congr
    intro e he
    congr 1
    rw [Bool.eq_iff_iff]
    simp only [List.any_eq_true, Bool.and_eq_true, beq_iff_eq, LocalStorage.keys, List.mem_map]
    constructor
    · rintro ⟨k, _, hk, hek⟩
      rw [hek]; exact hk
    · intro hs
      exact ⟨e.1, ⟨e, he, rfl⟩, hs, rfl⟩
  refine ⟨hitems, h2, rfl, ?_⟩
  intro key d
  have hnone : (storage.clear ls).1.getItem ("craftne_" ++ key) = none := by
    simp only [LocalStorage.getItem, hitems, Option.map_eq_none', List.find?_eq_none,
      List.mem_filter]
    rintro e ⟨_, he⟩ hek
    simp only [beq_iff_eq] at hek
    rw [hek, startsWith_append] at he
    simp at he
  simp only [storage.get, hnone]

/-! ## Theorems: `debounce` -/

theorem lastCall_append_call {α : Type} (l : List (Event α)) (args : α) :
    lastCall (l ++ [Event.call args]) = some args := by
  induction l with
  | nil => simp [lastCall]
  | cons e l ih =>
    cases e with
    | call a => simp [lastCall, ih]
    | expire i => simp [lastCall, ih]

theorem lastCall_append_expire {α : Type} (l : List (Event α)) (id : Nat) :
    lastCall (l ++ [Event.expire id]) = lastCall l := by
  induction l with
  | nil => simp [lastCall]
  | cons e l ih =>
    cases e with
    | call a => simp [lastCall, ih]
    | expire i => simp [lastCall, ih]

theorem debounceRun_append {α : Type} (immediate : Bool) (s : DebounceState α)
    (l : List (Event α)) (e : Event α) :
    debounceRun immediate s (l ++ [e]) = debounceStep immediate (debounceRun immediate s l) e := by
  simp [debounceRun, List.foldl_append]

theorem debounceCall_timers {α : Type} (immediate : Bool) (s : DebounceState α) (args : α)
    (h : (s.timeout = none ∧ s.timers = []) ∨
      ∃ id a, s.timeout = some id ∧ s.timers = [(id, a)]) :
    (debounceCall immediate s args).timeout = some s.nextId ∧
    (debounceCall immediate s args).timers = [(s.nextId, args)] := by
  rcases h with ⟨h1, h2⟩ | ⟨id, a, h1, h2⟩
  · unfold debounceCall
    simp only [h1, h2, clearTimeout]
    split <;> simp
  · unfold debounceCall
    simp only [h1, h2, clearTimeout]
    split <;> simp

theorem debounce_invariant {α : Type} (immediate : Bool) (events : List (Event α)) :
    ((debounceRun immediate (DebounceState.init α) events).timeout = none ∧
      (debounceRun immediate (DebounceState.init α) events).timers = []) ∨
    ∃ id args, (debounceRun immediate (DebounceState.init α) events).timeout = some id ∧
      (debounceRun immediate (DebounceState.init α) events).timers = [(id, args)] ∧
      lastCall events = some args := by
  induction events using List.reverseRecOn with
  | nil => left; simp [debounceRun, DebounceState.init]
  | append_singleton l e ih =>
    rw [debounceRun_append]
    cases e with
    | call args =>
      right
      have h := debounceCall_timers immediate (debounceRun immediate (DebounceState.init α) l) args
        (by
          rcases ih with h | ⟨id, a, h1, h2, _⟩
          · exact Or.inl h
          · exact Or.inr ⟨id, a, h1, h2⟩)
      exact ⟨_, args, h.1, h.2, lastCall_append_call l args⟩
    | expire id =>
      rw [lastCall_append_expire]
      rcases ih with ⟨h1, h2⟩ | ⟨i, a, h1, h2, h3⟩
      · left
        simp [debounceStep, debounceExpire, h1, h2]
      · by_cases hid : i = id
        · left
          subst hid
          simp only [debounceStep, debounceExpire, h2, List.find?_cons, beq_self_eq_true]
          split <;> simp
        · right
          refine ⟨i, a, ?_⟩
          simp [debounceStep, debounceExpire, h2, List.find?_cons, hid, h1, h3]

theorem debounceCall_invocations {α : Type} (s : DebounceState α) (args : α) :
    (debounceCall false s args).invocations = s.invocations := by
  simp [debounceCall]

theorem debounceRun_calls_invocations {α : Type} (calls : List α) (s : DebounceState α) :
    (debounceRun false s (calls.map Event.call)).invocations = s.invocations := by
  induction calls generalizing s with
  | nil => rfl
  | cons a calls ih =>
    simp only [List.map_cons, debounceRun, List.foldl_cons] at ih ⊢
    rw [ih, debounceStep, debounceCall_invocations]

theorem debounceRun_append_list {α : Type} (immediate : Bool) (s : DebounceState α)
    (l m : List (Event α)) :
    debounceRun immediate s (l ++ m) = debounceRun immediate (debounceRun immediate s l) m := by
  simp [debounceRun, List.foldl_append]

theorem debounceExpire_pending {α : Type} (s : DebounceState α) (id : Nat) (args : α)
    (h : s.timers = [(id, args)]) :
    (debounceExpire false s id).invocations = s.invocations ++ [args] ∧
    (debounceExpire false s id).timers = [] := by
  simp [debounceExpire, h]

/-- C9. Debounce with `immediate` false, after any sequence of calls and timer
expiries: at most one timer is pending; a call does not invoke `func`; the
expiry of a pending timer invokes `func` exactly once, with the arguments of
the most recent call; and a burst of calls `burst ++ [last]` followed by the
expiry of the timer then pending adds exactly one invocation, with the
arguments `last`. -/
theorem debounce_spec {α : Type} (events : List (Event α)) :
    (debounceRun false (DebounceState.init α) events).timers.length ≤ 1 ∧
    (∀ args : α,
      (debounceStep false (debounceRun false (DebounceState.init α) events)
        (Event.call args)).invocations =
        (debounceRun false (DebounceState.init α) events).invocations) ∧
    (∀ (id : Nat) (args : α),
      (id, args) ∈ (debounceRun false (DebounceState.init α) events).timers →
        lastCall events = some args ∧
        (debounceStep false (debounceRun false (DebounceState.init α) events)
          (Event.expire id)).invocations =
          (debounceRun false (DebounceState.init α) events).invocations ++ [args]) ∧
    (∀ (burst : List α) (last : α), ∃ id : Nat,
      (debounceRun false (DebounceState.init α)
        (events ++ (burst ++ [last]).map Event.call)).timers = [(id, last)] ∧
      (debounceRun false (DebounceState.init α)
        (events ++ (burst ++ [last]).map Event.call ++ [Event.expire id])).invocations =
        (debounceRun false (DebounceState.init α) events).invocations ++ [last]) := by
  refine ⟨?_, ?_, ?_, ?_⟩
  · rcases debounce_invariant false events with ⟨_, h⟩ | ⟨id, a, _, h, _⟩ <;> simp [h]
  · intro args
    exact debounceCall_invocations _ args
  · intro id args hmem
    rcases debounce_invariant false events with ⟨_, h⟩ | ⟨i, a, _, h, hl⟩
    · rw [h] at hmem
      exact absurd hmem (List.not_mem_nil _)
    · rw [h, List.mem_singleton] at hmem
      obtain ⟨h1, h2⟩ := Prod.mk.inj hmem
      subst h1 h2
      exact ⟨hl, (debounceExpire_pending _ _ _ h).1⟩
  · intro burst last
    have hinv := debounce_invariant false (events ++ burst.map Event.call)
    have hcall := debounceCall_timers false
      (debounceRun false (DebounceState.init α) (events ++ burst.map Event.call)) last
      (by
        rcases hinv with h | ⟨id, a, h1, h2, _⟩
        · exact Or.inl h
        · exact Or.inr ⟨id, a, h1, h2⟩)
    have hrun : debounceRun false (DebounceState.init α)
        (events ++ (burst ++ [last]).map Event.call) =
        debounceCall false
          (debounceRun false (DebounceState.init α) (events ++ burst.map Event.call)) last := by
      rw [List.map_append, ← List.append_assoc, List.map_singleton, debounceRun_append]
      rfl
    refine ⟨_, by rw [hrun]; exact hcall.2, ?_⟩
    rw [debounceRun_append, hrun, debounceStep]
    rw [(debounceExpire_pending _ _ _ hcall.2).1, debounceCall_invocations,
      debounceRun_append_list, debounceRun_calls_invocations]

/-- C9, witness: two calls with arguments 1 and 2; the one pending timer has
id 2 and its expiry invokes `func` once, with 2. -/
theorem debounce_spec_witness :
    (2, 2) ∈ (debounceRun false (DebounceState.init Nat)
      [Event.call 1, Event.call 2]).timers ∧
    lastCall [Event.call 1, Event.call 2] = some 2 ∧
    (debounceStep false (debounceRun false (DebounceState.init Nat)
      [Event.call 1, Event.call 2]) (Event.expire 2)).invocations =
      (debounceRun false (DebounceState.init Nat) [Event.call 1, Event.call 2]).invocations
        ++ [2] :=
  ⟨by decide, (debounce_spec [Event.call 1, Event.call 2]).2.2.1 2 2 (by decide)⟩

/-! ## Theorems: `throttle` -/

theorem throttleRun_append {α : Type} (s : ThrottleState α) (l m : List (ThrottleEvent α)) :
    throttleRun s (l ++ m) = throttleRun (throttleRun s l) m := by
  simp [throttleRun, List.foldl_append]

theorem throttleRun_cons {α : Type} (s : ThrottleState α) (e : ThrottleEvent α)
    (l : List (ThrottleEvent α)) :
    throttleRun s (e :: l) = throttleRun (throttleStep s e) l := rfl

theorem throttleRun_snoc {α : Type} (s : ThrottleState α) (l : List (ThrottleEvent α))
    (e : ThrottleEvent α) :
    throttleRun s (l ++ [e]) = throttleStep (throttleRun s l) e := by
  simp [throttleRun, List.foldl_append]

theorem throttleRun_map_snoc {α : Type} (s : ThrottleState α) (l : List (Event α))
    (e : Event α) :
    throttleRun s ((l ++ [e]).map Event.toThrottle) =
      throttleStep (throttleRun s (l.map Event.toThrottle)) e.toThrottle := by
  rw [List.map_append, List.map_singleton, throttleRun_snoc]

theorem throttleStep_call_open {α : Type} (s : ThrottleState α) (args : α)
    (h : s.inThrottle = false) :
    throttleStep s (ThrottleEvent.call args FuncBehaviour.returns) =
      { inThrottle := true, timers := s.timers ++ [s.nextId], nextId := s.nextId + 1,
        invocations := s.invocations ++ [args] } := by
  simp [throttleStep, throttleCall, h, ThrottleState.invoke, ThrottleState.arm]

theorem throttle_dropped {α : Type} (s : ThrottleState α) (args : α)
    (h : s.inThrottle = true) :
    throttleStep s (ThrottleEvent.call args FuncBehaviour.returns) = s := by
  simp [throttleStep, throttleCall, h]

theorem throttle_invariant {α : Type} (events : List (Event α)) :
    ((throttleRun (ThrottleState.init α) (events.map Event.toThrottle)).inThrottle = false ∧
      (throttleRun (ThrottleState.init α) (events.map Event.toThrottle)).timers = []) ∨
    ((throttleRun (ThrottleState.init α) (events.map Event.toThrottle)).inThrottle = true ∧
      ∃ id, (throttleRun (ThrottleState.init α) (events.map Event.toThrottle)).timers = [id]) := by
  induction events using List.reverseRecOn with
  | nil => left; simp [throttleRun, ThrottleState.init]
  | append_singleton l e ih =>
    rw [throttleRun_map_snoc]
    generalize throttleRun (ThrottleState.init α) (l.map Event.toThrottle) = s at ih ⊢
    cases e with
    | call args =>
      right
      rcases ih with ⟨h1, h2⟩ | ⟨h1, id, h2⟩
      · rw [Event.toThrottle, throttleStep_call_open s args h1]
        simp [h2]
      · rw [Event.toThrottle, throttle_dropped s args h1]
        exact ⟨h1, id, h2⟩
    | expire id =>
      rcases ih with ⟨h1, h2⟩ | ⟨h1, i, h2⟩
      · left
        simp [Event.toThrottle, throttleStep, throttleExpire, h1, h2]
      · by_cases hid : i = id
        · left
          subst hid
          simp [Event.toThrottle, throttleStep, throttleExpire, h2]
        · right
          have hid' : ¬ id = i := fun e => hid e.symm
          simp [Event.toThrottle, throttleStep, throttleExpire, h2, hid', h1]

theorem throttle_needs_expiry {α : Type} (mid : List (Event α)) :
    ∀ (s : ThrottleState α) (b : α), s.inThrottle = true →
    (throttleStep (throttleRun s (mid.map Event.toThrottle))
        (ThrottleEvent.call b FuncBehaviour.returns)).invocations ≠
      (throttleRun s (mid.map Event.toThrottle)).invocations →
    ∃ mid1 id mid2, mid = mid1 ++ Event.expire id :: mid2 ∧
      id ∈ (throttleRun s (mid1.map Event.toThrottle)).timers := by
  induction mid with
  | nil =>
    intro s b hs hne
    exfalso
    apply hne
    simp only [List.map_nil, throttleRun, List.foldl_nil]
    rw [throttle_dropped s b hs]
  | cons e mid ih =>
    intro s b hs hne
    cases e with
    | call x =>
      have hstep : throttleStep s (Event.call x).toThrottle = s := throttle_dropped s x hs
      rw [List.map_cons, throttleRun_cons, hstep] at hne
      obtain ⟨mid1, id, mid2, h1, h2⟩ := ih s b hs hne
      refine ⟨Event.call x :: mid1, id, mid2, by rw [h1]; rfl, ?_⟩
      rw [List.map_cons, throttleRun_cons, hstep]
      exact h2
    | expire id =>
      by_cases hid : id ∈ s.timers
      · exact ⟨[], id, mid, rfl, hid⟩
      · have hstep : throttleStep s (Event.expire id : Event α).toThrottle = s := by
          simp [Event.toThrottle, throttleStep, throttleExpire, hid]
        rw [List.map_cons, throttleRun_cons, hstep] at hne
        obtain ⟨mid1, i, mid2, h1, h2⟩ := ih s b hs hne
        refine ⟨Event.expire id :: mid1, i, mid2, by rw [h1]; rfl, ?_⟩
        rw [List.map_cons, throttleRun_cons, hstep]
        exact h2

theorem throttle_after_call {α : Type} (s : ThrottleState α) (a : α) :
    (throttleStep s (ThrottleEvent.call a FuncBehaviour.returns)).inThrottle = true := by
  cases h : s.inThrottle
  · rw [throttleStep_call_open s a h]
  · rw [throttle_dropped s a h]; exact h

theorem throttle_no_call_yet {α : Type} (events : List (Event α)) (h : lastCall events = none) :
    throttleRun (ThrottleState.init α) (events.map Event.toThrottle) = ThrottleState.init α := by
  induction events using List.reverseRecOn with
  | nil => rfl
  | append_singleton l e ih =>
    cases e with
    | call args => rw [lastCall_append_call] at h; exact Option.noConfusion h
    | expire id =>
      rw [lastCall_append_expire] at h
      rw [throttleRun_map_snoc, ih h]
      simp [Event.toThrottle, throttleStep, throttleExpire, ThrottleState.init]

/-- C10, as amended. Throttle of a `func` that returns normally and does not
call the throttled function, after any sequence of calls and timer expiries:
at most one timer is pending, and one is pending exactly when the window is
open (`inThrottle` is set); a call invokes `func` with its own arguments when
no window is open and is dropped, leaving the state as it was, when one is; a
call that no call precedes invokes `func`; the expiry of the pending timer
closes the window and leaves no timer pending, so that the next call invokes
`func` again; and between two calls that both invoke `func` a pending timer
expires. -/
theorem throttle_spec {α : Type} (events : List (Event α)) :
    (throttleRun (ThrottleState.init α) (events.map Event.toThrottle)).timers.length ≤ 1 ∧
    ((throttleRun (ThrottleState.init α) (events.map Event.toThrottle)).inThrottle = true ↔
      (throttleRun (ThrottleState.init α) (events.map Event.toThrottle)).timers ≠ []) ∧
    (∀ args : α,
      ((throttleRun (ThrottleState.init α) (events.map Event.toThrottle)).timers = [] →
        (throttleStep (throttleRun (ThrottleState.init α) (events.map Event.toThrottle))
          (ThrottleEvent.call args FuncBehaviour.returns)).invocations =
          (throttleRun (ThrottleState.init α) (events.map Event.toThrottle)).invocations
            ++ [args]) ∧
      ((throttleRun (ThrottleState.init α) (events.map Event.toThrottle)).timers ≠ [] →
        throttleStep (throttleRun (ThrottleState.init α) (events.map Event.toThrottle))
          (ThrottleEvent.call args FuncBehaviour.returns) =
          throttleRun (ThrottleState.init α) (events.map Event.toThrottle))) ∧
    (∀ args : α, lastCall events = none →
      (throttleRun (ThrottleState.init α)
        ((events ++ [Event.call args]).map Event.toThrottle)).invocations = [args]) ∧
    (∀ (id : Nat) (args : α),
      id ∈ (throttleRun (ThrottleState.init α) (events.map Event.toThrottle)).timers →
      (throttleRun (ThrottleState.init α)
        ((events ++ [Event.expire id]).map Event.toThrottle)).timers = [] ∧
      (throttleRun (ThrottleState.init α)
        ((events ++ [Event.expire id]).map Event.toThrottle)).inThrottle = false ∧
      (throttleRun (ThrottleState.init α)
        ((events ++ [Event.expire id, Event.call args]).map Event.toThrottle)).invocations =
        (throttleRun (ThrottleState.init α) (events.map Event.toThrottle)).invocations
          ++ [args]) ∧
    (∀ (a b : α) (mid : List (Event α)),
      (throttleRun (ThrottleState.init α)
        ((events ++ [Event.call a]).map Event.toThrottle)).invocations =
        (throttleRun (ThrottleState.init α) (events.map Event.toThrottle)).invocations ++ [a] →
      (throttleRun (ThrottleState.init α)
        ((events ++ [Event.call a] ++ mid ++ [Event.call b]).map Event.toThrottle)).invocations =
        (throttleRun (ThrottleState.init α)
          ((events ++ [Event.call a] ++ mid).map Event.toThrottle)).invocations ++ [b] →
      ∃ mid1 id mid2, mid = mid1 ++ Event.expire id :: mid2 ∧
        id ∈ (throttleRun (ThrottleState.init α)
          ((events ++ [Event.call a] ++ mid1).map Event.toThrottle)).timers) := by
  refine ⟨?_, ?_, ?_, ?_, ?_, ?_⟩
  · rcases throttle_invariant events with ⟨_, h⟩ | ⟨_, id, h⟩ <;> simp [h]
  · rcases throttle_invariant events with ⟨h1, h2⟩ | ⟨h1, id, h2⟩ <;> simp [h1, h2]
  · intro args
    rcases throttle_invariant events with ⟨h1, h2⟩ | ⟨h1, id, h2⟩
    · refine ⟨fun _ => by rw [throttleStep_call_open _ args h1], fun hne => absurd h2 hne⟩
    · refine ⟨fun he => ?_, fun _ => throttle_dropped _ args h1⟩
      rw [h2] at he
      exact absurd he (List.cons_ne_nil _ _)
  · intro args h
    rw [throttleRun_map_snoc, throttle_no_call_yet events h, Event.toThrottle,
      throttleStep_call_open _ args rfl]
    rfl
  · intro id args hid
    rcases throttle_invariant events with ⟨_, h2⟩ | ⟨_, i, h2⟩
    · rw [h2] at hid
      exact absurd hid (List.not_mem_nil _)
    · rw [h2, List.mem_singleton] at hid
      subst hid
      have hexp : throttleRun (ThrottleState.init α)
          ((events ++ [Event.expire id]).map Event.toThrottle) =
          { throttleRun (ThrottleState.init α) (events.map Event.toThrottle) with
            timers := [], inThrottle := false } := by
        rw [throttleRun_map_snoc]
        simp [Event.toThrottle, throttleStep, throttleExpire, h2]
      refine ⟨by rw [hexp], by rw [hexp], ?_⟩
      have hsplit : events ++ [Event.expire id, Event.call args] =
          (events ++ [Event.expire id]) ++ [Event.call args] := by simp
      rw [hsplit, throttleRun_map_snoc, hexp, Event.toThrottle,
        throttleStep_call_open _ args rfl]
  · intro a b mid _ hb
    have hs := throttle_after_call
      (throttleRun (ThrottleState.init α) (events.map Event.toThrottle)) a
    have hrun : ∀ l : List (Event α), throttleRun (ThrottleState.init α)
        ((events ++ [Event.call a] ++ l).map Event.toThrottle) =
        throttleRun (throttleStep (throttleRun (ThrottleState.init α)
          (events.map Event.toThrottle)) (ThrottleEvent.call a FuncBehaviour.returns))
          (l.map Event.toThrottle) := by
      intro l
      rw [List.map_append, throttleRun_append, throttleRun_map_snoc]
      rfl
    rw [throttleRun_map_snoc, hrun] at hb
    have hne : (throttleStep (throttleRun (throttleStep (throttleRun (ThrottleState.init α)
        (events.map Event.toThrottle)) (ThrottleEvent.call a FuncBehaviour.returns))
        (mid.map Event.toThrottle)) (ThrottleEvent.call b FuncBehaviour.returns)).invocations ≠
        (throttleRun (throttleStep (throttleRun (ThrottleState.init α)
          (events.map Event.toThrottle)) (ThrottleEvent.call a FuncBehaviour.returns))
          (mid.map Event.toThrottle)).invocations := by
      intro e
      have hb' : (throttleStep (throttleRun (throttleStep (throttleRun (ThrottleState.init α)
          (events.map Event.toThrottle)) (ThrottleEvent.call a FuncBehaviour.returns))
          (mid.map Event.toThrottle)) (ThrottleEvent.call b FuncBehaviour.returns)).invocations
          = _ := hb
      rw [e] at hb'
      have := congrArg List.length hb'
      simp at this
    obtain ⟨mid1, id, mid2, h1, h2⟩ := throttle_needs_expiry mid _ b hs hne
    exact ⟨mid1, id, mid2, h1, by rw [hrun]; exact h2⟩

/-- C10, witness: a call, the expiry of its timer, and a second call, `func`
returning normally; both calls invoke `func`, and the expiry of timer 1 lies
between them. -/
theorem throttle_spec_witness :
    (throttleRun (ThrottleState.init Nat)
      (([] ++ [Event.call 1]).map Event.toThrottle)).invocations =
      (throttleRun (ThrottleState.init Nat)
        (([] : List (Event Nat)).map Event.toThrottle)).invocations ++ [1] ∧
    (throttleRun (ThrottleState.init Nat) (([] ++ [Event.call 1] ++ [Event.expire 1] ++
      [Event.call 2]).map Event.toThrottle)).invocations =
      (throttleRun (ThrottleState.init Nat)
        (([] ++ [Event.call 1] ++ [Event.expire 1]).map Event.toThrottle)).invocations ++ [2] ∧
    ∃ mid1 id mid2, [Event.expire 1] = mid1 ++ Event.expire id :: mid2 ∧
      id ∈ (throttleRun (ThrottleState.init Nat)
        (([] ++ [Event.call 1] ++ mid1).map Event.toThrottle)).timers :=
  ⟨by decide, by decide,
    (throttle_spec ([] : List (Event Nat))).2.2.2.2.2 1 2 [Event.expire 1] (by decide)
      (by decide)⟩

/-- C10, counterexample. A `func` that throws on its first invocation leaves
`inThrottle` unset and no timer pending, so the next call invokes `func` again:
two invocations with no timer expiry, and no timer at all, between them. And a
`func` that calls the throttled function once while it runs is invoked twice by
one call and leaves two timers pending. -/
theorem throttle_func_throws_or_reenters :
    (throttleRun (ThrottleState.init Nat)
      [ThrottleEvent.call 1 FuncBehaviour.throws,
        ThrottleEvent.call 2 FuncBehaviour.returns]).invocations = [1, 2] ∧
    (throttleRun (ThrottleState.init Nat)
      [ThrottleEvent.call 1 FuncBehaviour.throws]).timers = [] ∧
    (throttleRun (ThrottleState.init Nat)
      [ThrottleEvent.call 1 (FuncBehaviour.reenters 2 FuncBehaviour.returns)]).invocations =
        [1, 2] ∧
    (throttleRun (ThrottleState.init Nat)
      [ThrottleEvent.call 1 (FuncBehaviour.reenters 2 FuncBehaviour.returns)]).timers.length =
        2 := by
  decide

/-! ## Theorems: the JSON round trip and `storage.set` / `storage.get` -/

theorem natToCharsAux_fuel (n : Nat) :
    ∀ (fuel1 fuel2 : Nat) (acc : List Char), n < fuel1 → n < fuel2 →
      natToCharsAux fuel1 n acc = natToCharsAux fuel2 n [] ++ acc := by
  induction n using Nat.strong_induction_on with
  | _ n ih =>
    intro fuel1 fuel2 acc h1 h2
    obtain ⟨f, rfl⟩ : ∃ f, fuel1 = f + 1 := ⟨fuel1 - 1, by omega⟩
    obtain ⟨g, rfl⟩ : ∃ g, fuel2 = g + 1 := ⟨fuel2 - 1, by omega⟩
    simp only [natToCharsAux]
    by_cases h : n / 10 = 0
    · simp [h]
    · simp only [h, if_false]
      have hlt : n / 10 < n := by omega
      rw [ih (n / 10) hlt f g _ (by omega) (by omega),
        ih (n / 10) hlt g g [digitChar (n % 10)] (by omega) (by omega)]
      simp

theorem natToChars_small (n : Nat) (h : n < 10) : natToChars n = [digitChar n] := by
  have h0 : n / 10 = 0 := by omega
  have h1 : n % 10 = n := by omega
  simp [natToChars, natToCharsAux, h0, h1]

theorem natToChars_large (n : Nat) (h : 10 ≤ n) :
    natToChars n = natToChars (n / 10) ++ [digitChar (n % 10)] := by
  have h0 : ¬ n / 10 = 0 := by omega
  rw [natToChars, natToCharsAux, if_neg h0, natToChars]
  exact natToCharsAux_fuel (n / 10) n (n / 10 + 1) _ (by omega) (by omega)

theorem digitChar_toNat (d : Nat) (h : d < 10) : (digitChar d).toNat = 48 + d := by
  interval_cases d <;> rfl

theorem isDigit_digitChar (d : Nat) (h : d < 10) : isDigit (digitChar d) = true := by
  simp only [isDigit, digitChar_toNat d h, Bool.and_eq_true, decide_eq_true_eq]
  omega

theorem parseDigits_digitChar (d : Nat) (h : d < 10) (rest : List Char) (a : Nat) :
    parseDigits (digitChar d :: rest) a = parseDigits rest (a * 10 + d) := by
  rw [parseDigits, if_pos (isDigit_digitChar d h), digitChar_toNat d h]
  congr 2
  omega

theorem parseDigits_natToChars (n : Nat) :
    ∀ (rest : List Char) (a : Nat),
      parseDigits (natToChars n ++ rest) a =
        parseDigits rest (a * 10 ^ (natToChars n).length + n) := by
  induction n using Nat.strong_induction_on with
  | _ n ih =>
    intro rest a
    by_cases h : n < 10
    · rw [natToChars_small n h]
      simp [parseDigits_digitChar n h]
    · rw [natToChars_large n (by omega), List.append_assoc, ih (n / 10) (by omega)]
      simp only [List.singleton_append, List.length_append, List.length_singleton]
      rw [parseDigits_digitChar _ (by omega)]
      congr 1
      rw [pow_succ]
      have := Nat.div_add_mod n 10
      nlinarith [this]

theorem parseDigits_stop (rest : List Char) (n : Nat)
    (h : ∀ d tail, rest = d :: tail → isDigit d = false) : parseDigits rest n = (n, rest) := by
  cases rest with
  | nil => rfl
  | cons d tail => simp [parseDigits, h d tail rfl]

theorem natToChars_head (n : Nat) (h : 0 < n) :
    ∃ d tail, natToChars n = digitChar d :: tail ∧ 0 < d ∧ d < 10 := by
  induction n using Nat.strong_induction_on with
  | _ n ih =>
    by_cases h10 : n < 10
    · exact ⟨n, [], natToChars_small n h10, h, h10⟩
    · obtain ⟨d, tail, h1, h2, h3⟩ := ih (n / 10) (by omega) (by omega)
      refine ⟨d, tail ++ [digitChar (n % 10)], ?_, h2, h3⟩
      rw [natToChars_large n (by omega), h1]
      rfl

theorem okFollow_not_digit (rest : List Char) (h : okFollow rest = true) :
    ∀ d tail, rest = d :: tail → isDigit d = false := by
  intro d tail e
  subst e
  simp only [okFollow, isNumberTail, Bool.not_eq_true', Bool.or_eq_false_iff] at h
  exact h.1.1.1

theorem parseNatural_natToChars (k : Nat) (hk : 0 < k) (rest : List Char)
    (h : okFollow rest = true) : parseNatural (natToChars k ++ rest) = some (k, rest) := by
  obtain ⟨d, tail, h1, h2, h3⟩ := natToChars_head k hk
  have hp := parseDigits_natToChars k rest 0
  rw [parseDigits_stop rest _ (okFollow_not_digit rest h)] at hp
  simp only [zero_mul, zero_add] at hp
  rw [h1] at hp ⊢
  have hne : digitChar d ≠ '0' := by
    intro e
    have := congrArg Char.toNat e
    rw [digitChar_toNat d h3] at this
    have h0 : ('0' : Char).toNat = 48 := rfl
    omega
  rw [List.cons_append] at hp ⊢
  simp only [parseNatural, if_neg hne, isDigit_digitChar d h3, if_true, hp]
  cases rest with
  | nil => rfl
  | cons e tail2 =>
    simp only [okFollow, Bool.not_eq_true'] at h
    simp [h]

theorem parseNumber_numberToChars (n : Int) (rest : List Char) (h : okFollow rest = true) :
    parseNumber (numberToChars n ++ rest) = some (n, rest) := by
  unfold numberToChars
  by_cases h0 : n = 0
  · subst h0
    simp only [if_true, List.singleton_append, parseNumber]
    rw [if_neg (by decide)]
    cases rest with
    | nil => simp [parseNatural]
    | cons e tail =>
      simp only [okFollow, Bool.not_eq_true'] at h
      simp [parseNatural, h]
  · rw [if_neg h0]
    have hk : 0 < n.natAbs := Int.natAbs_pos.mpr h0
    by_cases hneg : n < 0
    · rw [if_pos hneg, List.cons_append, parseNumber, if_pos rfl,
        parseNatural_natToChars _ hk rest h]
      simp only [Option.map_some', Option.some.injEq, Prod.mk.injEq, and_true]
      omega
    · rw [if_neg hneg]
      obtain ⟨d, tail, h1, h2, h3⟩ := natToChars_head n.natAbs hk
      have hp := parseNatural_natToChars _ hk rest h
      rw [h1] at hp ⊢
      have hne : digitChar d ≠ '-' := by
        intro e
        have := congrArg Char.toNat e
        rw [digitChar_toNat d h3] at this
        have h0 : ('-' : Char).toNat = 45 := rfl
        omega
      rw [List.cons_append, parseNumber, if_neg hne]
      rw [List.cons_append] at hp
      rw [hp]
      simp only [Option.map_some', Option.some.injEq, Prod.mk.injEq, and_true]
      omega

theorem parseHex4_hex4 (n : Nat) (h : n < 32) (rest : List Char) :
    parseHex4 (hex4 n ++ rest) = some (n, rest) := by
  interval_cases n <;> rfl

theorem char_eq_ofNat (c : Char) (n : Nat) (h : c.toNat = n) : Char.ofNat n = c := by
  rw [← h]
  exact Char.ofNat_toNat c

theorem parseStringBody_escape (fuel : Nat) (e c : Char) (cs : List Char)
    (he : e ≠ 'u') (hu : unescapeChar e = some c) :
    parseStringBody (fuel + 1) (chBackslash :: e :: cs) =
      (parseStringBody fuel cs).map (fun r => (c :: r.1, r.2)) := by
  have h1 : chBackslash ≠ chQuote := by decide
  simp only [parseStringBody, if_neg h1, if_true, if_neg he, hu]

theorem parseStringBody_quoteChar (fuel : Nat) (c : Char) (cs : List Char) :
    parseStringBody (fuel + 1) (quoteChar c ++ cs) =
      (parseStringBody fuel cs).map (fun r => (c :: r.1, r.2)) := by
  unfold quoteChar
  by_cases h1 : c = chQuote
  · subst h1
    rw [if_pos rfl]
    exact parseStringBody_escape fuel _ _ cs (by decide) (by decide)
  rw [if_neg h1]
  by_cases h2 : c = chBackslash
  · subst h2
    rw [if_pos rfl]
    exact parseStringBody_escape fuel _ _ cs (by decide) (by decide)
  rw [if_neg h2]
  by_cases h3 : c.toNat = 8
  · rw [if_pos h3, ← char_eq_ofNat c 8 h3]
    exact parseStringBody_escape fuel _ _ cs (by decide) (by decide)
  rw [if_neg h3]
  by_cases h4 : c.toNat = 9
  · rw [if_pos h4, ← char_eq_ofNat c 9 h4]
    exact parseStringBody_escape fuel _ _ cs (by decide) (by decide)
  rw [if_neg h4]
  by_cases h5 : c.toNat = 10
  · rw [if_pos h5, ← char_eq_ofNat c 10 h5]
    exact parseStringBody_escape fuel _ _ cs (by decide) (by decide)
  rw [if_neg h5]
  by_cases h6 : c.toNat = 12
  · rw [if_pos h6, ← char_eq_ofNat c 12 h6]
    exact parseStringBody_escape fuel _ _ cs (by decide) (by decide)
  rw [if_neg h6]
  by_cases h7 : c.toNat = 13
  · rw [if_pos h7, ← char_eq_ofNat c 13 h7]
    exact parseStringBody_escape fuel _ _ cs (by decide) (by decide)
  rw [if_neg h7]
  by_cases h8 : c.toNat < 32
  · rw [if_pos h8]
    have hq : chBackslash ≠ chQuote := by decide
    have hlt : c.toNat < 55296 ∨ 57343 < c.toNat := Or.inl (by omega)
    show parseStringBody (fuel + 1) (chBackslash :: 'u' :: (hex4 c.toNat ++ cs)) = _
    simp only [parseStringBody, if_neg hq, if_true,
      parseHex4_hex4 c.toNat h8 cs, hlt, char_eq_ofNat c c.toNat rfl]
  · rw [if_neg h8]
    show parseStringBody (fuel + 1) (c :: cs) = _
    simp only [parseStringBody, if_neg h1, if_neg h2, if_neg h8]

theorem parseStringBody_quoted (s : List Char) :
    ∀ (fuel : Nat) (rest : List Char), s.length < fuel →
      parseStringBody fuel (s.flatMap quoteChar ++ chQuote :: rest) = some (s, rest) := by
  induction s with
  | nil =>
    intro fuel rest h
    obtain ⟨f, rfl⟩ : ∃ f, fuel = f + 1 := ⟨fuel - 1, by omega⟩
    simp [parseStringBody]
  | cons c s ih =>
    intro fuel rest h
    obtain ⟨f, rfl⟩ : ∃ f, fuel = f + 1 := ⟨fuel - 1, by simp at h; omega⟩
    rw [List.flatMap_cons, List.append_assoc, parseStringBody_quoteChar,
      ih f rest (by simp at h; omega)]
    rfl

theorem skipWhitespace_cons (c : Char) (rest : List Char) (h : isWhitespace c = false) :
    skipWhitespace (c :: rest) = c :: rest := by
  simp [skipWhitespace, h]

theorem length_le_flatMap_quoteChar (s : List Char) :
    s.length ≤ (s.flatMap quoteChar).length := by
  induction s with
  | nil => simp
  | cons c s ih =>
    have h : 1 ≤ (quoteChar c).length := by
      unfold quoteChar
      repeat' split
      all_goals simp [hex4]
    simp only [List.flatMap_cons, List.length_append, List.length_cons]
    omega

theorem parseString_quoted (s rest : List Char) :
    parseStringBody ((s.flatMap quoteChar ++ chQuote :: rest).length + 1)
      (s.flatMap quoteChar ++ chQuote :: rest) = some (s, rest) := by
  apply parseStringBody_quoted
  have := length_le_flatMap_quoteChar s
  simp only [List.length_append, List.length_cons]
  omega

theorem numberToChars_head (n : Int) :
    ∃ c tail, numberToChars n = c :: tail ∧ (c = '-' ∨ isDigit c = true) := by
  unfold numberToChars
  by_cases h0 : n = 0
  · exact ⟨'0', [], by simp [h0], Or.inr (by decide)⟩
  · rw [if_neg h0]
    by_cases hneg : n < 0
    · exact ⟨'-', _, by rw [if_pos hneg], Or.inl rfl⟩
    · obtain ⟨d, tail, h1, _, h3⟩ := natToChars_head n.natAbs (Int.natAbs_pos.mpr h0)
      exact ⟨digitChar d, tail, by rw [if_neg hneg, h1], Or.inr (isDigit_digitChar d h3)⟩

theorem number_head_facts (c : Char) (h : c = '-' ∨ isDigit c = true) :
    isWhitespace c = false ∧ c ≠ 'n' ∧ c ≠ 't' ∧ c ≠ 'f' ∧ c ≠ chQuote ∧ c ≠ '[' ∧
      c ≠ chLBrace ∧ c ≠ ']' ∧ c ≠ chRBrace := by
  rcases h with h | h
  · subst h
    decide
  · simp only [isDigit, Bool.and_eq_true, decide_eq_true_eq] at h
    have hne : ∀ x : Char, (x.toNat < 48 ∨ 57 < x.toNat) → c ≠ x := by
      intro x hx e
      subst e
      omega
    refine ⟨?_, hne _ (by decide), hne _ (by decide), hne _ (by decide), hne _ (by decide),
      hne _ (by decide), hne _ (by decide), hne _ (by decide), hne _ (by decide)⟩
    simp only [isWhitespace, Bool.or_eq_false_iff, decide_eq_false_iff_not]
    omega

theorem serialize_head (v : IntJSON) :
    ∃ c tail, serialize v = c :: tail ∧ isWhitespace c = false ∧ c ≠ ']' ∧ c ≠ chRBrace := by
  cases v with
  | null => exact ⟨_, _, by rw [serialize], by decide, by decide, by decide⟩
  | bool b =>
    cases b
    · exact ⟨_, _, by rw [serialize], by decide, by decide, by decide⟩
    · exact ⟨_, _, by rw [serialize], by decide, by decide, by decide⟩
  | num n =>
    obtain ⟨c, tail, h1, h2⟩ := numberToChars_head n
    have hf := number_head_facts c h2
    exact ⟨c, tail, by rw [serialize, h1], hf.1, hf.2.2.2.2.2.2.2.1, hf.2.2.2.2.2.2.2.2⟩
  | str s => exact ⟨_, _, by rw [serialize, quoteJSONString], by decide, by decide, by decide⟩
  | arr items => exact ⟨_, _, by rw [serialize], by decide, by decide, by decide⟩
  | obj members => exact ⟨_, _, by rw [serialize], by decide, by decide, by decide⟩

theorem okFollow_of_ne (c : Char) (rest : List Char) (h : isNumberTail c = false) :
    okFollow (c :: rest) = true := by
  simp [okFollow, h]

theorem parseValue_scalar (f : Nat) (v : IntJSON) (rest : List Char)
    (hr : okFollow rest = true)
    (hv : (∀ items, v ≠ IntJSON.arr items) ∧ (∀ members, v ≠ IntJSON.obj members)) :
    parseValue (f + 1) (serialize v ++ rest) = some (v, rest) := by
  cases v with
  | null => simp [parseValue, serialize, skipWhitespace, isWhitespace, expectChars]
  | bool b =>
    cases b <;> simp [parseValue, serialize, skipWhitespace, isWhitespace, expectChars]
  | num n =>
    obtain ⟨c, tail, h1, h2⟩ := numberToChars_head n
    have hf := number_head_facts c h2
    have hp := parseNumber_numberToChars n rest hr
    rw [h1] at hp
    rw [serialize, h1, List.cons_append, parseValue, skipWhitespace_cons _ _ hf.1]
    rw [List.cons_append] at hp
    simp only [if_neg hf.2.1, if_neg hf.2.2.1, if_neg hf.2.2.2.1, if_neg hf.2.2.2.2.1,
      if_neg hf.2.2.2.2.2.1, if_neg hf.2.2.2.2.2.2.1, hp, Option.map_some']
  | str s =>
    have hq := parseString_quoted s.data rest
    rw [serialize, quoteJSONString, List.cons_append, List.append_assoc, List.singleton_append,
      parseValue, skipWhitespace_cons _ _ (by decide)]
    have e1 : chQuote ≠ 'n' := by decide
    have e2 : chQuote ≠ 't' := by decide
    have e3 : chQuote ≠ 'f' := by decide
    simp only [if_neg e1, if_neg e2, if_neg e3, if_true, hq, Option.map_some']
  | arr items => exact absurd rfl (hv.1 items)
  | obj members => exact absurd rfl (hv.2 members)

theorem serializeElements_head (v : IntJSON) (vs : List IntJSON) :
    ∃ c tail, serializeElements (v :: vs) = c :: tail ∧ isWhitespace c = false ∧ c ≠ ']' := by
  obtain ⟨c, tail, h1, h2, h3, _⟩ := serialize_head v
  cases vs with
  | nil => exact ⟨c, tail, by rw [serializeElements, h1], h2, h3⟩
  | cons w ws => exact ⟨c, _, by rw [serializeElements, h1]; rfl, h2, h3⟩

theorem serializeMembers_head (k : String) (v : IntJSON) (ms : List (String × IntJSON)) :
    ∃ tail, serializeMembers ((k, v) :: ms) = chQuote :: tail := by
  cases ms with
  | nil => exact ⟨_, by rw [serializeMembers, quoteJSONString]; rfl⟩
  | cons m ms => exact ⟨_, by rw [serializeMembers, quoteJSONString]; rfl⟩

theorem parseValue_arr (f : Nat) (items : List IntJSON) (rest : List Char)
    (hE : ∀ v vs, items = v :: vs →
      parseElements f (serializeElements (v :: vs) ++ ']' :: rest) = some (v :: vs, rest)) :
    parseValue (f + 1) (serialize (IntJSON.arr items) ++ rest) =
      some (IntJSON.arr items, rest) := by
  have e1 : ('[' : Char) ≠ 'n' := by decide
  have e2 : ('[' : Char) ≠ 't' := by decide
  have e3 : ('[' : Char) ≠ 'f' := by decide
  have e4 : ('[' : Char) ≠ chQuote := by decide
  rw [serialize, List.cons_append, List.append_assoc, List.singleton_append, parseValue,
    skipWhitespace_cons _ _ (by decide)]
  simp only [if_neg e1, if_neg e2, if_neg e3, if_neg e4, if_true]
  cases items with
  | nil => simp [serializeElements, skipWhitespace, isWhitespace]
  | cons v vs =>
    have h := hE v vs rfl
    obtain ⟨c, tail, h1, h2, h3⟩ := serializeElements_head v vs
    rw [h1, List.cons_append] at h ⊢
    rw [skipWhitespace_cons _ _ h2]
    simp only [if_neg h3, h, Option.map_some']

theorem parseValue_obj (f : Nat) (members : List (String × IntJSON)) (rest : List Char)
    (hM : ∀ k v ms, members = (k, v) :: ms →
      parseMembers f (serializeMembers ((k, v) :: ms) ++ chRBrace :: rest) =
        some ((k, v) :: ms, rest)) :
    parseValue (f + 1) (serialize (IntJSON.obj members) ++ rest) =
      some (IntJSON.obj members, rest) := by
  have e1 : chLBrace ≠ 'n' := by decide
  have e2 : chLBrace ≠ 't' := by decide
  have e3 : chLBrace ≠ 'f' := by decide
  have e4 : chLBrace ≠ chQuote := by decide
  have e5 : chLBrace ≠ '[' := by decide
  rw [serialize, List.cons_append, List.append_assoc, List.singleton_append, parseValue,
    skipWhitespace_cons _ _ (by decide)]
  simp only [if_neg e1, if_neg e2, if_neg e3, if_neg e4, if_neg e5, if_true]
  cases members with
  | nil =>
    rw [serializeMembers, List.nil_append,
      skipWhitespace_cons _ _ (show isWhitespace chRBrace = false by decide)]
    simp only [if_true]
  | cons m ms =>
    obtain ⟨k, v⟩ := m
    have h := hM k v ms rfl
    obtain ⟨tail, h1⟩ := serializeMembers_head k v ms
    rw [h1, List.cons_append] at h ⊢
    rw [skipWhitespace_cons _ _ (by decide)]
    have e6 : chQuote ≠ chRBrace := by decide
    simp only [if_neg e6, h, Option.map_some']

theorem parseElements_step (f : Nat) (v : IntJSON) (vs : List IntJSON) (rest : List Char)
    (hV : ∀ rest1, okFollow rest1 = true → parseValue f (serialize v ++ rest1) = some (v, rest1))
    (hE : ∀ w ws, vs = w :: ws →
      parseElements f (serializeElements (w :: ws) ++ ']' :: rest) = some (w :: ws, rest)) :
    parseElements (f + 1) (serializeElements (v :: vs) ++ ']' :: rest) = some (v :: vs, rest) := by
  cases vs with
  | nil =>
    rw [serializeElements, parseElements, hV _ (okFollow_of_ne _ _ (by decide))]
    simp only [skipWhitespace_cons _ _ (show isWhitespace ']' = false by decide)]
    have e1 : (']' : Char) ≠ ',' := by decide
    simp only [if_neg e1, if_true]
  | cons w ws =>
    have h := hE w ws rfl
    rw [serializeElements]
    simp only [List.append_assoc, List.cons_append]
    rw [parseElements, hV _ (okFollow_of_ne _ _ (by decide))]
    simp only [skipWhitespace_cons _ _ (show isWhitespace ',' = false by decide), if_true, h,
      Option.map_some']

theorem parseMembers_step (f : Nat) (k : String) (v : IntJSON)
    (ms : List (String × IntJSON)) (rest : List Char)
    (hV : ∀ rest1, okFollow rest1 = true → parseValue f (serialize v ++ rest1) = some (v, rest1))
    (hM : ∀ k2 v2 ms2, ms = (k2, v2) :: ms2 →
      parseMembers f (serializeMembers ((k2, v2) :: ms2) ++ chRBrace :: rest) =
        some ((k2, v2) :: ms2, rest)) :
    parseMembers (f + 1) (serializeMembers ((k, v) :: ms) ++ chRBrace :: rest) =
      some ((k, v) :: ms, rest) := by
  have hws : isWhitespace chQuote = false := by decide
  have hcolon : isWhitespace ':' = false := by decide
  cases ms with
  | nil =>
    rw [serializeMembers, quoteJSONString]
    simp only [List.append_assoc, List.cons_append, List.singleton_append, List.nil_append]
    rw [parseMembers, skipWhitespace_cons _ _ hws]
    simp only [if_true, parseString_quoted, skipWhitespace_cons _ _ hcolon,
      hV _ (okFollow_of_ne chRBrace rest (by decide)),
      skipWhitespace_cons _ _ (show isWhitespace chRBrace = false by decide)]
    have e1 : chRBrace ≠ ',' := by decide
    simp only [if_neg e1, if_true]
  | cons m ms2 =>
    obtain ⟨k2, v2⟩ := m
    have h := hM k2 v2 ms2 rfl
    rw [serializeMembers, quoteJSONString]
    simp only [List.append_assoc, List.cons_append, List.singleton_append, List.nil_append]
    rw [parseMembers, skipWhitespace_cons _ _ hws]
    simp only [if_true, parseString_quoted, skipWhitespace_cons _ _ hcolon,
      hV _ (okFollow_of_ne ',' _ (by decide)),
      skipWhitespace_cons _ _ (show isWhitespace ',' = false by decide), h, Option.map_some']

theorem parse_serialize_fuel (fuel : Nat) :
    (∀ (v : IntJSON) (rest : List Char), weight v ≤ fuel → okFollow rest = true →
      parseValue fuel (serialize v ++ rest) = some (v, rest)) ∧
    (∀ (v : IntJSON) (vs : List IntJSON) (rest : List Char),
      weightElements (v :: vs) ≤ fuel →
      parseElements fuel (serializeElements (v :: vs) ++ ']' :: rest) = some (v :: vs, rest)) ∧
    (∀ (k : String) (v : IntJSON) (ms : List (String × IntJSON)) (rest : List Char),
      weightMembers ((k, v) :: ms) ≤ fuel →
      parseMembers fuel (serializeMembers ((k, v) :: ms) ++ chRBrace :: rest) =
        some ((k, v) :: ms, rest)) := by
  induction fuel with
  | zero =>
    refine ⟨?_, ?_, ?_⟩
    · intro v rest hw _
      cases v <;> simp [weight] at hw
    · intro v vs rest hw
      simp [weightElements] at hw
    · intro k v ms rest hw
      simp [weightMembers] at hw
  | succ f ih =>
    obtain ⟨ihV, ihE, ihM⟩ := ih
    refine ⟨?_, ?_, ?_⟩
    · intro v rest hw hr
      cases v with
      | arr items =>
        apply parseValue_arr
        intro v vs e
        subst e
        exact ihE v vs rest (by simp only [weight] at hw; omega)
      | obj members =>
        apply parseValue_obj
        intro k v ms e
        subst e
        exact ihM k v ms rest (by simp only [weight] at hw; omega)
      | null => exact parseValue_scalar f _ rest hr ⟨by simp, by simp⟩
      | bool b => exact parseValue_scalar f _ rest hr ⟨by simp, by simp⟩
      | num n => exact parseValue_scalar f _ rest hr ⟨by simp, by simp⟩
      | str s => exact parseValue_scalar f _ rest hr ⟨by simp, by simp⟩
    · intro v vs rest hw
      simp only [weightElements] at hw
      apply parseElements_step
      · intro rest1 hr
        exact ihV v rest1 (by omega) hr
      · intro w ws e
        subst e
        exact ihE w ws rest (by omega)
    · intro k v ms rest hw
      simp only [weightMembers] at hw
      apply parseMembers_step
      · intro rest1 hr
        exact ihV v rest1 (by omega) hr
      · intro k2 v2 ms2 e
        subst e
        exact ihM k2 v2 ms2 rest (by omega)

theorem weight_le_length (n : Nat) :
    (∀ v : IntJSON, sizeOf v ≤ n → weight v ≤ (serialize v).length) ∧
    (∀ vs : List IntJSON, sizeOf vs ≤ n →
      weightElements vs ≤ (serializeElements vs).length + 1) ∧
    (∀ ms : List (String × IntJSON), sizeOf ms ≤ n →
      weightMembers ms ≤ (serializeMembers ms).length + 1) := by
  induction n with
  | zero =>
    refine ⟨?_, ?_, ?_⟩
    · intro v h
      cases v <;> simp at h
    · intro vs h
      cases vs <;> simp at h
    · intro ms h
      cases ms <;> simp at h
  | succ n ih =>
    obtain ⟨ihV, ihE, ihM⟩ := ih
    refine ⟨?_, ?_, ?_⟩
    · intro v h
      cases v with
      | null => simp [weight, serialize]
      | bool b => cases b <;> simp [weight, serialize]
      | num k =>
        obtain ⟨c, tail, h1, _⟩ := numberToChars_head k
        simp [weight, serialize, h1]
      | str s => simp [weight, serialize, quoteJSONString]
      | arr items =>
        have := ihE items (by simp at h; omega)
        simp only [weight, serialize, List.length_cons, List.length_append, List.length_nil]
        omega
      | obj members =>
        have := ihM members (by simp at h; omega)
        simp only [weight, serialize, List.length_cons, List.length_append, List.length_nil]
        omega
    · intro vs h
      cases vs with
      | nil => simp [weightElements]
      | cons v vs =>
        have h1 := ihV v (by simp at h; omega)
        have h2 := ihE vs (by simp at h; omega)
        cases vs with
        | nil =>
          simp only [weightElements, serializeElements] at h2 ⊢
          omega
        | cons w ws =>
          simp only [weightElements, serializeElements, List.length_append, List.length_cons]
            at h2 ⊢
          omega
    · intro ms h
      cases ms with
      | nil => simp [weightMembers]
      | cons m ms =>
        obtain ⟨k, v⟩ := m
        have h1 := ihV v (by simp at h; omega)
        have h2 := ihM ms (by simp at h; omega)
        cases ms with
        | nil =>
          simp only [weightMembers, serializeMembers, List.length_append, List.length_cons] at h2 ⊢
          omega
        | cons m2 ms2 =>
          simp only [weightMembers, serializeMembers, List.length_append, List.length_cons]
            at h2 ⊢
          omega

/-- The round trip of the reader and the writer for integer numbers. -/
theorem parse_stringify (v : IntJSON) : IntJSON.parse (IntJSON.stringify v) = some v := by
  have hw := (weight_le_length (sizeOf v)).1 v (le_refl _)
  have h := (parse_serialize_fuel ((serialize v).length + 1)).1 v [] (by omega) rfl
  rw [List.append_nil] at h
  simp [IntJSON.parse, IntJSON.stringify, h, skipWhitespace]

theorem stringify_ne_empty (v : IntJSON) : IntJSON.stringify v ≠ "" := by
  obtain ⟨c, tail, h, _⟩ := serialize_head v
  intro e
  have := congrArg String.data e
  simp [IntJSON.stringify, h] at this

theorem find_replace (items : List (String × String)) (key value : String)
    (h : items.any (fun e => e.1 == key) = true) :
    (items.map (fun e => if e.1 == key then (key, value) else e)).find?
      (fun e => e.1 == key) = some (key, value) := by
  induction items with
  | nil => simp at h
  | cons e items ih =>
    by_cases he : e.1 = key
    · simp [he]
    · have hb : (e.1 == key) = false := by simpa using he
      simp only [List.any_cons, hb, Bool.false_or] at h
      simp only [List.map_cons, hb, Bool.false_eq_true, if_false]
      rw [List.find?_cons_of_neg _ (by simp [he])]
      exact ih h

theorem getItem_setItem (ls ls1 : LocalStorage) (key value : String)
    (h : ls.setItem key value = some ls1) : ls1.getItem key = some value := by
  unfold LocalStorage.setItem at h
  simp only [] at h
  by_cases hany : ls.items.any (fun e => e.1 == key) = true
  · simp only [hany, if_true] at h
    split at h
    · have e := Option.some.inj h
      subst e
      simp only [LocalStorage.getItem, find_replace ls.items key value hany, Option.map_some']
    · exact Option.noConfusion h
  · simp only [hany, Bool.false_eq_true, if_false] at h
    split at h
    · have e := Option.some.inj h
      subst e
      have hnone : ls.items.find? (fun e => e.1 == key) = none := by
        rw [List.find?_eq_none]
        intro x hx hk
        exact hany (List.any_eq_true.mpr ⟨x, hx, hk⟩)
      simp only [LocalStorage.getItem, List.find?_append, hnone, List.find?_cons,
        beq_self_eq_true, Option.none_or, Option.map_some']
    · exact Option.noConfusion h

theorem toDouble_of_safe (n : Int) (h : n.natAbs ≤ 2 ^ 53) : toDouble n = JSNumber.finite n := by
  simp only [toDouble, h, if_true]

theorem ofJSON_toJSON (n : Nat) :
    (∀ v : IntJSON, sizeOf v ≤ n → IntJSON.safe v = true →
      IntJSON.ofJSON (IntJSON.toJSON v) = v) ∧
    (∀ vs : List IntJSON, sizeOf vs ≤ n → IntJSON.safeList vs = true →
      IntJSON.ofJSONList (IntJSON.toJSONList vs) = vs) ∧
    (∀ ms : List (String × IntJSON), sizeOf ms ≤ n → IntJSON.safeMembers ms = true →
      IntJSON.ofJSONMembers (IntJSON.toJSONMembers ms) = ms) := by
  induction n with
  | zero =>
    refine ⟨?_, ?_, ?_⟩
    · intro v h
      cases v <;> simp at h
    · intro vs h
      cases vs <;> simp at h
    · intro ms h
      cases ms <;> simp at h
  | succ n ih =>
    obtain ⟨ihV, ihE, ihM⟩ := ih
    refine ⟨?_, ?_, ?_⟩
    · intro v h hs
      cases v with
      | null => rfl
      | bool b => rfl
      | num k =>
        have hk : k.natAbs ≤ 2 ^ 53 := by
          rw [IntJSON.safe] at hs
          exact of_decide_eq_true hs
        rw [IntJSON.toJSON, toDouble_of_safe k hk, IntJSON.ofJSON]
        simp
      | str s => rfl
      | arr items =>
        simp only [IntJSON.toJSON, IntJSON.ofJSON]
        rw [ihE items (by simp at h; omega) (by simpa [IntJSON.safe] using hs)]
      | obj members =>
        simp only [IntJSON.toJSON, IntJSON.ofJSON]
        rw [ihM members (by simp at h; omega) (by simpa [IntJSON.safe] using hs)]
    · intro vs h hs
      cases vs with
      | nil => rfl
      | cons v vs =>
        simp only [IntJSON.safeList, Bool.and_eq_true] at hs
        simp only [IntJSON.toJSONList, IntJSON.ofJSONList]
        rw [ihV v (by simp at h; omega) hs.1, ihE vs (by simp at h; omega) hs.2]
    · intro ms h hs
      cases ms with
      | nil => rfl
      | cons m ms =>
        obtain ⟨k, v⟩ := m
        simp only [IntJSON.safeMembers, Bool.and_eq_true] at hs
        simp only [IntJSON.toJSONMembers, IntJSON.ofJSONMembers]
        rw [ihV v (by simp at h; omega) hs.1, ihM ms (by simp at h; omega) hs.2]

/-- The builtins for integer numbers read back what they write of every value
whose numbers are integers of absolute value up to `2 ^ 53`. -/
theorem integerJSON_roundtrip (v : IntJSON) (hs : IntJSON.safe v = true) :
    integerJSON.parse (integerJSON.stringify (IntJSON.toJSON v)) = some (IntJSON.toJSON v) := by
  simp only [integerJSON, (ofJSON_toJSON (sizeOf v)).1 v (le_refl _) hs, parse_stringify,
    Option.map_some']

theorem stringify_text_ne_empty (JSON : JSONBuiltins) (v : JSONValue)
    (hv : JSON.parse (JSON.stringify v) = some v) : JSON.stringify v ≠ "" := by
  intro e
  rw [e, JSON.parse_empty] at hv
  exact Option.noConfusion hv

/-- C6. Storage round trip: when `storage.set(key, v)` returns `true`, a
following `storage.get(key, d)` returns `v` whatever the default `d` is. This
holds for whatever `JSON.stringify` and `JSON.parse` the browser has and for
every JSON-serialisable value `v`, that is every value that `JSON.parse` reads
back from the text that `JSON.stringify` writes for it; falsy values are not
an exception. -/
theorem storage_roundtrip (JSON : JSONBuiltins) (ls : LocalStorage) (key : String)
    (v d : JSONValue) (hv : JSON.parse (JSON.stringify v) = some v)
    (h : (storage.set JSON ls key v).2 = true) :
    storage.get JSON (storage.set JSON ls key v).1 key d = v := by
  unfold storage.set at h ⊢
  cases hs : ls.setItem ("craftne_" ++ key) (JSON.stringify v) with
  | none => simp [hs] at h
  | some ls1 =>
    simp only [storage.get, getItem_setItem ls ls1 _ _ hs, ne_eq,
      stringify_text_ne_empty JSON v hv, not_false_eq_true, if_true, hv]

/-- C6, witness: with the builtins for integer numbers, the four falsy values
`null`, `false`, `0` and the empty string, stored under the key `theme` in an
empty storage, come back instead of the default. -/
theorem storage_roundtrip_witness :
    ((integerJSON.parse (integerJSON.stringify JSONValue.null) = some JSONValue.null ∧
      (storage.set integerJSON ⟨[], 100⟩ "theme" JSONValue.null).2 = true) ∧
      storage.get integerJSON (storage.set integerJSON ⟨[], 100⟩ "theme" JSONValue.null).1
        "theme" (JSONValue.num (JSNumber.finite 7)) = JSONValue.null) ∧
    ((integerJSON.parse (integerJSON.stringify (JSONValue.bool false)) =
        some (JSONValue.bool false) ∧
      (storage.set integerJSON ⟨[], 100⟩ "theme" (JSONValue.bool false)).2 = true) ∧
      storage.get integerJSON (storage.set integerJSON ⟨[], 100⟩ "theme"
        (JSONValue.bool false)).1 "theme" (JSONValue.num (JSNumber.finite 7)) =
        JSONValue.bool false) ∧
    ((integerJSON.parse (integerJSON.stringify (JSONValue.num (JSNumber.finite 0))) =
        some (JSONValue.num (JSNumber.finite 0)) ∧
      (storage.set integerJSON ⟨[], 100⟩ "theme" (JSONValue.num (JSNumber.finite 0))).2 =
        true) ∧
      storage.get integerJSON (storage.set integerJSON ⟨[], 100⟩ "theme"
        (JSONValue.num (JSNumber.finite 0))).1 "theme" (JSONValue.num (JSNumber.finite 7)) =
        JSONValue.num (JSNumber.finite 0)) ∧
    ((integerJSON.parse (integerJSON.stringify (JSONValue.str "")) = some (JSONValue.str "") ∧
      (storage.set integerJSON ⟨[], 100⟩ "theme" (JSONValue.str "")).2 = true) ∧
      storage.get integerJSON (storage.set integerJSON ⟨[], 100⟩ "theme" (JSONValue.str "")).1
        "theme" (JSONValue.num (JSNumber.finite 7)) = JSONValue.str "") :=
  ⟨⟨⟨rfl, rfl⟩, storage_roundtrip integerJSON _ _ _ _ rfl rfl⟩,
   ⟨⟨rfl, rfl⟩, storage_roundtrip integerJSON _ _ _ _ rfl rfl⟩,
   ⟨⟨rfl, rfl⟩, storage_roundtrip integerJSON _ _ _ _ rfl rfl⟩,
   ⟨⟨rfl, rfl⟩, storage_roundtrip integerJSON _ _ _ _ rfl rfl⟩⟩

/-! ## Theorems: `loadMap` on a map that is not parsed -/

theorem loadMapTraced_fst (JSON : JSONBuiltins) (mapId : String) (s : ViewerState)
    (mapResponse : FetchOutcome MapData)
    (blocksResponse : FetchOutcome (List Block))
    (annotationsResponse : FetchOutcome (List Annotation)) :
    (loadMapTraced JSON mapId s mapResponse blocksResponse annotationsResponse).1 =
      loadMap JSON s mapResponse blocksResponse annotationsResponse := by
  unfold loadMapTraced loadMap
  cases mapResponse with
  | rejected => rfl
  | invalidJSON => rfl
  | ok mapData =>
    simp only []
    split
    · rfl
    · split
      · rfl
      · split <;> rfl

/-- C11. When the map record has a falsy `is_parsed`, `loadMap` puts up the
warning `Map is not parsed yet` and returns normally; `mapData`,
`blockMeshes`, `annotations`, the scene and the camera are as before, and the
only URL it has handed to `fetch` is that of the map record: neither the
blocks nor the annotations are requested. -/
theorem loadMap_not_parsed (JSON : JSONBuiltins) (mapId : String) (s : ViewerState)
    (mapData : MapData)
    (blocksResponse : FetchOutcome (List Block))
    (annotationsResponse : FetchOutcome (List Annotation))
    (h : truthy mapData.is_parsed = false) :
    (loadMapTraced JSON mapId s (FetchOutcome.ok mapData) blocksResponse annotationsResponse).2 =
      ["/upload/api/maps/" ++ mapId] ∧
    loadMap JSON s (FetchOutcome.ok mapData) blocksResponse annotationsResponse =
      (showMessage (showLoadingMessage s "Loading map data...") "Map is not parsed yet" "warning",
        Completion.normal) ∧
    (loadMap JSON s (FetchOutcome.ok mapData) blocksResponse annotationsResponse).1.messages =
      s.messages ++ [("Map is not parsed yet", "warning")] ∧
    (loadMap JSON s (FetchOutcome.ok mapData) blocksResponse annotationsResponse).1.mapData =
      s.mapData ∧
    (loadMap JSON s (FetchOutcome.ok mapData) blocksResponse annotationsResponse).1.blockMeshes =
      s.blockMeshes ∧
    (loadMap JSON s (FetchOutcome.ok mapData) blocksResponse annotationsResponse).1.annotations =
      s.annotations ∧
    (loadMap JSON s (FetchOutcome.ok mapData) blocksResponse annotationsResponse).1.scene = s.scene ∧
    (loadMap JSON s (FetchOutcome.ok mapData) blocksResponse annotationsResponse).1.cameraTarget =
      s.cameraTarget := by
  have hl : loadMap JSON s (FetchOutcome.ok mapData) blocksResponse annotationsResponse =
      (showMessage (showLoadingMessage s "Loading map data...") "Map is not parsed yet" "warning",
        Completion.normal) := by
    simp [loadMap, h]
  refine ⟨by simp [loadMapTraced, h], hl, ?_⟩
  rw [hl]
  simp [showMessage, showLoadingMessage]

/-- C11, witness: a map record without an `is_parsed` field, in a viewer that
holds one light. -/
theorem loadMap_not_parsed_witness :
    truthy (MapData.mk 3 none).is_parsed = false ∧
    (loadMapTraced integerJSON "3"
      ⟨[SceneChild.light "ambient"], none, [], [], none, [], [], none, 0⟩
      (FetchOutcome.ok (MapData.mk 3 none)) FetchOutcome.rejected FetchOutcome.rejected).2 =
      ["/upload/api/maps/" ++ "3"] :=
  ⟨rfl, (loadMap_not_parsed integerJSON "3"
    ⟨[SceneChild.light "ambient"], none, [], [], none, [], [], none, 0⟩ (MapData.mk 3 none)
    FetchOutcome.rejected FetchOutcome.rejected rfl).1⟩

/-! ## Theorems: the `setMatrixAt` calls of `loadBlocks` -/

theorem loadBlocksStepTraced_fst (materials : List (String × Material)) (blocks : List Block)
    (st : LoopState) (index : Nat) (b : Block) :
    (loadBlocksStepTraced materials blocks st index b).1 =
      loadBlocksStep materials blocks st index b := by
  unfold loadBlocksStepTraced loadBlocksStep
  simp only []
  split <;> rfl

theorem loadBlocksLoopTraced_fst (materials : List (String × Material)) (blocks : List Block)
    (todo : List Block) :
    ∀ (st : LoopState) (index : Nat),
      (loadBlocksLoopTraced materials blocks st index todo).1 =
        loadBlocksLoop materials blocks st index todo := by
  induction todo with
  | nil => intro st index; rfl
  | cons b todo ih =>
    intro st index
    rw [loadBlocksLoopTraced, loadBlocksLoop]
    simp only []
    rw [ih, loadBlocksStepTraced_fst]

theorem loadBlocksStepTraced_write (materials : List (String × Material))
    (blocks done : List Block) (b : Block) (st : LoopState) (index uid0 : Nat)
    (hm : st.instancedMeshes = (firstOccurrences (done.map Block.block_type)).map
      (fun k => (k, expectedInstance materials blocks uid0
        (firstOccurrences (done.map Block.block_type)) done k))) :
    (loadBlocksStepTraced materials blocks st index b).2 =
      some ⟨b.block_type, countOfType done b.block_type, countOfType blocks b.block_type⟩ := by
  obtain ⟨im, sc, nu, ld⟩ := st
  simp only at hm
  subst hm
  unfold loadBlocksStepTraced
  simp only []
  obtain ⟨ld1, hst1⟩ : ∃ ld1 : Option String,
      (if index % 1000 = 0 then ({ (LoopState.mk _ _ _ ld) with loading := some ("Loading blocks: "
        ++ toString index ++ "/" ++ toString blocks.length) } : LoopState) else LoopState.mk _ _ _ ld)
        = LoopState.mk _ _ nu ld1 := by
    split
    · exact ⟨_, rfl⟩
    · exact ⟨_, rfl⟩
  rw [hst1]
  clear hst1
  set keys := firstOccurrences (done.map Block.block_type) with hkeys
  rw [mapHas_map]
  by_cases hmem : b.block_type ∈ keys
  · simp only [hmem, decide_True, Bool.not_true, Bool.false_eq_true, if_false]
    rw [mapGet_map_of_mem _ _ _ hmem]
    simp only [expectedInstance]
  · simp only [hmem, decide_False, Bool.not_false, if_true]
    rw [mapSet_map_of_not_mem _ _ _ _ hmem]
    have hd : b.block_type ∉ done.map Block.block_type := by
      rw [← mem_firstOccurrences]; exact hmem
    have hget : mapGet (List.map (fun k => (k, expectedInstance materials blocks uid0 keys done k))
        keys ++ [(b.block_type, (⟨⟨nu, (1, 1, 1), materialFor materials b.block_type,
          countOfType blocks b.block_type, List.replicate (countOfType blocks b.block_type) none,
          true, true, false⟩, 0⟩ : Instance))]) b.block_type =
        some ⟨⟨nu, (1, 1, 1), materialFor materials b.block_type,
          countOfType blocks b.block_type, List.replicate (countOfType blocks b.block_type) none,
          true, true, false⟩, 0⟩ := by
      have hnone : List.find? (fun e => e.1 == b.block_type)
          (List.map (fun k => (k, expectedInstance materials blocks uid0 keys done k)) keys) =
          none := by
        rw [List.find?_eq_none]
        intro x hx hk
        obtain ⟨k, hk1, rfl⟩ := List.mem_map.mp hx
        simp only [beq_iff_eq] at hk
        exact hmem (hk ▸ hk1)
      simp [mapGet, List.find?_append, hnone]
    rw [hget]
    have h0 : countOfType done b.block_type = 0 := by
      simp [countOfType, filter_type_eq_nil done b.block_type hd]
    simp only [h0]

theorem loadBlocksLoopTraced_writes (materials : List (String × Material)) (blocks : List Block)
    (uid0 : Nat) (scene0 : List SceneChild) (todo : List Block) :
    ∀ (done : List Block) (st : LoopState) (index : Nat),
    blocks = done ++ todo →
    st.instancedMeshes = (firstOccurrences (done.map Block.block_type)).map
      (fun k => (k, expectedInstance materials blocks uid0
        (firstOccurrences (done.map Block.block_type)) done k)) →
    st.nextUid = uid0 + (firstOccurrences (done.map Block.block_type)).length →
    st.scene = scene0 ++ (List.range (firstOccurrences (done.map Block.block_type)).length).map
      (fun i => SceneChild.instanced (uid0 + i)) →
    (loadBlocksLoopTraced materials blocks st index todo).2 = expectedWrites blocks done todo := by
  induction todo with
  | nil =>
    intro done st index _ _ _ _
    rfl
  | cons b todo ih =>
    intro done st index hb hm hu hs
    have hstep := loadBlocksStep_spec materials blocks done todo b st index uid0 scene0 hb hm hu hs
    have hw := loadBlocksStepTraced_write materials blocks done b st index uid0 hm
    rw [← loadBlocksStepTraced_fst] at hstep
    rw [loadBlocksLoopTraced, expectedWrites]
    simp only []
    rw [hw, ih (done ++ [b]) _ (index + 1) (by simp [hb]) hstep.1 hstep.2.1 hstep.2.2]
    rfl

theorem expectedWrites_length (blocks todo : List Block) :
    ∀ done, (expectedWrites blocks done todo).length = todo.length := by
  induction todo with
  | nil => intro done; rfl
  | cons b todo ih => intro done; simp [expectedWrites, ih]

theorem expectedWrites_get (blocks mid : List Block) :
    ∀ (done : List Block) (b : Block) (todo : List Block),
      (expectedWrites blocks done (mid ++ b :: todo))[mid.length]? =
        some ⟨b.block_type, countOfType (done ++ mid) b.block_type,
          countOfType blocks b.block_type⟩ := by
  induction mid with
  | nil => intro done b todo; simp [expectedWrites]
  | cons m mid ih =>
    intro done b todo
    rw [List.cons_append, expectedWrites, List.length_cons, List.getElem?_cons_succ,
      ih (done ++ [m]) b todo]
    simp

theorem expectedWrites_bound (blocks todo : List Block) :
    ∀ done, blocks = done ++ todo →
      ∀ w ∈ expectedWrites blocks done todo, w.index < w.capacity := by
  induction todo with
  | nil => intro done _ w hw; simp [expectedWrites] at hw
  | cons b todo ih =>
    intro done hb w hw
    rw [expectedWrites, List.mem_cons] at hw
    rcases hw with hw | hw
    · subst hw
      simp only [hb, countOfType_append]
      simp [countOfType]
    · exact ih (done ++ [b]) (by simp [hb]) w hw

theorem expectedWrites_indices (blocks todo : List Block) (t : String) :
    ∀ done, ((expectedWrites blocks done todo).filter (fun w => w.blockType == t)).map
      MatrixWrite.index = List.range' (countOfType done t) (countOfType todo t) := by
  induction todo with
  | nil => intro done; simp [expectedWrites, countOfType]
  | cons b todo ih =>
    intro done
    rw [expectedWrites]
    by_cases h : b.block_type = t
    · subst h
      have hc : countOfType (b :: todo) b.block_type = countOfType todo b.block_type + 1 := by
        simp [countOfType]
      rw [List.filter_cons_of_pos (by simp), List.map_cons, ih, countOfType_snoc_self, hc,
        List.range'_succ]
    · have hc : countOfType (b :: todo) t = countOfType todo t := by
        simp [countOfType, h]
      have ht : t ≠ b.block_type := fun e => h e.symm
      rw [List.filter_cons_of_neg (by simp [h]), ih, countOfType_snoc_ne _ _ _ ht, hc]

theorem loadBlocksTraced_eq (s : ViewerState) (blocks : List Block) :
    (loadBlocksTraced s blocks).2 = expectedWrites blocks [] blocks ∧
    (loadBlocksTraced s blocks).1 = (firstOccurrences (blocks.map Block.block_type)).map
      (fun k => (k, expectedInstance createBlockMaterials blocks s.nextUid
        (firstOccurrences (blocks.map Block.block_type)) blocks k)) := by
  have hw := loadBlocksLoopTraced_writes createBlockMaterials blocks s.nextUid
    (clearBlocks s).scene blocks []
    { instancedMeshes := [], scene := (clearBlocks s).scene, nextUid := s.nextUid,
      loading := some ("Loading " ++ toString blocks.length ++ " blocks...") } 0
    (by simp) (by simp [firstOccurrences]) (by simp [firstOccurrences]) (by simp [firstOccurrences])
  have hl := loadBlocksLoop_spec createBlockMaterials blocks s.nextUid (clearBlocks s).scene
    blocks []
    { instancedMeshes := [], scene := (clearBlocks s).scene, nextUid := s.nextUid,
      loading := some ("Loading " ++ toString blocks.length ++ " blocks...") } 0
    (by simp) (by simp [firstOccurrences]) (by simp [firstOccurrences]) (by simp [firstOccurrences])
  rw [← loadBlocksLoopTraced_fst] at hl
  exact ⟨hw, hl.1⟩

/-- C12. The `setMatrixAt` calls of `loadBlocks`: there is one per block, in
list order; the call for a block uses as index the number of earlier blocks
of the same type, on the mesh of that type, whose capacity is the number of
blocks of that type in the whole list, so the index is below the capacity;
the indices used on the mesh of a type are `0, 1, ..` up to its capacity, each
once; and when the loop ends the index kept with each mesh equals the
capacity of the mesh, which is the length of its matrix array. The meshes of
the traced loop are those that `loadBlocks` leaves in `blockMeshes`. -/
theorem loadBlocks_writes_in_bounds (s : ViewerState) (blocks : List Block) :
    (loadBlocksTraced s blocks).2.length = blocks.length ∧
    (∀ (done : List Block) (b : Block) (todo : List Block), blocks = done ++ b :: todo →
      (loadBlocksTraced s blocks).2[done.length]? =
        some ⟨b.block_type, countOfType done b.block_type, countOfType blocks b.block_type⟩) ∧
    (∀ w ∈ (loadBlocksTraced s blocks).2, w.index < w.capacity) ∧
    (∀ t : String,
      (((loadBlocksTraced s blocks).2.filter (fun w => w.blockType == t)).map MatrixWrite.index) =
        List.range (countOfType blocks t)) ∧
    (∀ e ∈ (loadBlocksTraced s blocks).1,
      e.2.index = e.2.mesh.count ∧ e.2.mesh.count = e.2.mesh.instanceMatrix.length ∧
        e.2.mesh.count = countOfType blocks e.1) ∧
    (loadBlocks s (FetchOutcome.ok blocks)).1.blockMeshes =
      (loadBlocksTraced s blocks).1.map
        (fun e => { e.2.mesh with needsUpdate := true }) := by
  obtain ⟨hw, hm⟩ := loadBlocksTraced_eq s blocks
  refine ⟨?_, ?_, ?_, ?_, ?_, ?_⟩
  · rw [hw, expectedWrites_length]
  · intro done b todo hb
    rw [hw]
    have := expectedWrites_get blocks done [] b todo
    rw [List.nil_append, ← hb] at this
    exact this
  · rw [hw]
    exact expectedWrites_bound blocks blocks [] rfl
  · intro t
    rw [hw, expectedWrites_indices, List.range_eq_range']
    rfl
  · intro e he
    rw [hm] at he
    obtain ⟨k, _, rfl⟩ := List.mem_map.mp he
    simp [expectedInstance, slotsOfType_length]
  · have hb := (loadBlocksBody_blockMeshes s blocks).1
    simp only [loadBlocks]
    rw [hb, hm, List.map_map]
    apply List.map_congr_left
    intro k _
    simp [expectedInstance, expectedMesh]

/-- C12, witness: two blocks of one type; the call for the second block
uses index 1 on a mesh of capacity 2. -/
theorem loadBlocks_writes_in_bounds_witness :
    [Block.mk "minecraft:stone" 0 0 0, Block.mk "minecraft:stone" 1 0 0] =
      [Block.mk "minecraft:stone" 0 0 0] ++ Block.mk "minecraft:stone" 1 0 0 :: [] ∧
    (loadBlocksTraced ⟨[], none, [], [], none, [], [], none, 0⟩
      [Block.mk "minecraft:stone" 0 0 0, Block.mk "minecraft:stone" 1 0 0]).2[
        [Block.mk "minecraft:stone" 0 0 0].length]? =
      some ⟨(Block.mk "minecraft:stone" 1 0 0).block_type,
        countOfType [Block.mk "minecraft:stone" 0 0 0] (Block.mk "minecraft:stone" 1 0 0).block_type,
        countOfType [Block.mk "minecraft:stone" 0 0 0, Block.mk "minecraft:stone" 1 0 0]
          (Block.mk "minecraft:stone" 1 0 0).block_type⟩ :=
  ⟨rfl, (loadBlocks_writes_in_bounds ⟨[], none, [], [], none, [], [], none, 0⟩
    [Block.mk "minecraft:stone" 0 0 0, Block.mk "minecraft:stone" 1 0 0]).2.1
    [Block.mk "minecraft:stone" 0 0 0] (Block.mk "minecraft:stone" 1 0 0) [] rfl⟩

/-! ## Theorems: the `load` handler of `uploadFile` -/

/-- C13. With both callbacks given, the `load` handler of `uploadFile`
invokes exactly one callback, once: `successCallback` with the parsed body
when the status is 200 or 201 and the text parses; `errorCallback` with
`响应解析失败` when the status is 200 or 201 and the text does not parse; for any
other status `errorCallback` with the `error` field of the parsed body when
the text parses and that field is truthy, and with `上传失败` in every remaining
case (the text does not parse, the body is `null`, the field is missing or
falsy). In particular `successCallback` is invoked if and only if the status
is 200 or 201 and the text parses. "Parses" is what the `JSON.parse` of the
browser says of the text, whichever it is. -/
theorem uploadLoadHandler_spec (JSON : JSONBuiltins) (status : Nat) (responseText : String) :
    (∃ callback, uploadLoadHandler JSON status responseText true true = [callback]) ∧
    (∀ response, (status = 200 ∨ status = 201) → JSON.parse responseText = some response →
      uploadLoadHandler JSON status responseText true true = [UploadCallback.success response]) ∧
    ((status = 200 ∨ status = 201) → JSON.parse responseText = none →
      uploadLoadHandler JSON status responseText true true =
        [UploadCallback.error (JSONValue.str "响应解析失败")]) ∧
    (∀ body value, ¬ (status = 200 ∨ status = 201) → JSON.parse responseText = some body →
      getProperty body "error" = some (some value) → truthy (some value) = true →
      uploadLoadHandler JSON status responseText true true = [UploadCallback.error value]) ∧
    (¬ (status = 200 ∨ status = 201) →
      (¬ ∃ body value, JSON.parse responseText = some body ∧
        getProperty body "error" = some (some value) ∧ truthy (some value) = true) →
      uploadLoadHandler JSON status responseText true true =
        [UploadCallback.error (JSONValue.str "上传失败")]) ∧
    ((∃ response, uploadLoadHandler JSON status responseText true true =
        [UploadCallback.success response]) ↔
      ((status = 200 ∨ status = 201) ∧ ∃ response, JSON.parse responseText = some response)) := by
  by_cases hs : status = 200 ∨ status = 201
  · cases hp : JSON.parse responseText with
    | none =>
      have hr : uploadLoadHandler JSON status responseText true true =
          [UploadCallback.error (JSONValue.str "响应解析失败")] := by
        simp [uploadLoadHandler, hs, hp]
      refine ⟨⟨_, hr⟩, ?_, fun _ _ => hr, ?_, fun h => absurd hs h, ?_⟩
      · intro response _ h
        exact Option.noConfusion h
      · intro body value h
        exact absurd hs h
      · rw [hr]
        constructor
        · rintro ⟨r, h⟩
          simp at h
        · rintro ⟨_, r, h⟩
          exact Option.noConfusion h
    | some response =>
      have hr : uploadLoadHandler JSON status responseText true true =
          [UploadCallback.success response] := by
        simp [uploadLoadHandler, hs, hp]
      refine ⟨⟨_, hr⟩, ?_, ?_, ?_, fun h => absurd hs h, ?_⟩
      · intro r _ h
        rw [← Option.some.inj h]
        exact hr
      · intro _ h
        exact Option.noConfusion h
      · intro body value h
        exact absurd hs h
      · exact ⟨fun _ => ⟨hs, response, rfl⟩, fun _ => ⟨response, hr⟩⟩
  · have hnot : ¬ ∃ response, uploadLoadHandler JSON status responseText true true =
        [UploadCallback.success response] := by
      rintro ⟨r, h⟩
      unfold uploadLoadHandler at h
      rw [if_neg hs] at h
      split at h
      · split at h
        · simp at h
        · simp at h
      · simp at h
    have hfail : (¬ ∃ body value, JSON.parse responseText = some body ∧
        getProperty body "error" = some (some value) ∧ truthy (some value) = true) →
        uploadLoadHandler JSON status responseText true true =
          [UploadCallback.error (JSONValue.str "上传失败")] := by
      intro hno
      unfold uploadLoadHandler
      rw [if_neg hs]
      cases hp : JSON.parse responseText with
      | none => simp
      | some body =>
        cases hg : getProperty body "error" with
        | none => simp [hg]
        | some field =>
          cases field with
          | none => simp [hg]
          | some value =>
            have ht : truthy (some value) = false := by
              cases h : truthy (some value) with
              | false => rfl
              | true => exact absurd ⟨body, value, hp, hg, h⟩ hno
            simp [hg, ht]
    have hfield : ∀ body value, JSON.parse responseText = some body →
        getProperty body "error" = some (some value) → truthy (some value) = true →
        uploadLoadHandler JSON status responseText true true = [UploadCallback.error value] := by
      intro body value hp hg ht
      simp [uploadLoadHandler, hs, hp, hg, ht]
    refine ⟨?_, fun _ h => absurd h hs, fun h => absurd h hs, fun body value _ => hfield body value,
      fun _ => hfail, ?_⟩
    · by_cases hex : ∃ body value, JSON.parse responseText = some body ∧
          getProperty body "error" = some (some value) ∧ truthy (some value) = true
      · obtain ⟨body, value, hp, hg, ht⟩ := hex
        exact ⟨_, hfield body value hp hg ht⟩
      · exact ⟨_, hfail hex⟩
    · exact ⟨fun h => absurd h hnot, fun h => absurd h.1 hs⟩

/-- C13, witness: status 413 with a body whose `error` field is the text
`too large`, read by the builtins for integer numbers. -/
theorem uploadLoadHandler_spec_witness :
    ¬ (413 = 200 ∨ 413 = 201) ∧
    integerJSON.parse "\x7b\"error\":\"too large\"\x7d" =
      some (JSONValue.obj [("error", JSONValue.str "too large")]) ∧
    getProperty (JSONValue.obj [("error", JSONValue.str "too large")]) "error" =
      some (some (JSONValue.str "too large")) ∧
    truthy (some (JSONValue.str "too large")) = true ∧
    uploadLoadHandler integerJSON 413 "\x7b\"error\":\"too large\"\x7d" true true =
      [UploadCallback.error (JSONValue.str "too large")] :=
  ⟨by decide, rfl, rfl, rfl,
    (uploadLoadHandler_spec integerJSON 413 "\x7b\"error\":\"too large\"\x7d").2.2.2.1
      (JSONValue.obj [("error", JSONValue.str "too large")]) (JSONValue.str "too large")
      (by decide) rfl rfl rfl⟩

/-! ## Theorems: `renderAnnotations` -/

theorem getProperty_of_ne_null (v : JSONValue) (name : String) (h : v ≠ JSONValue.null) :
    getProperty v name = some (propertyOf v name) := by
  cases v with
  | null => exact absurd rfl h
  | bool b => rfl
  | num n => rfl
  | str s => rfl
  | arr items => rfl
  | obj members => rfl

theorem renderAnnotation_ok (JSON : JSONBuiltins) (coords : Annotation → JSONValue)
    (scene : List SceneChild) (uid : Nat) (a : Annotation)
    (h : JSON.parse a.coordinates = some (coords a) ∧ coords a ≠ JSONValue.null) :
    renderAnnotation JSON scene uid a = some (scene ++ [expectedAnnotationMesh coords uid a]) := by
  unfold renderAnnotation
  simp only [h.1, getProperty_of_ne_null _ _ h.2, expectedAnnotationMesh]

theorem renderAnnotationsLoop_ok (JSON : JSONBuiltins) (coords : Annotation → JSONValue)
    (annotations : List Annotation) :
    ∀ (scene : List SceneChild) (uid : Nat),
    (∀ a ∈ annotations, JSON.parse a.coordinates = some (coords a) ∧ coords a ≠ JSONValue.null) →
    renderAnnotationsLoop JSON scene uid annotations =
      (scene ++ List.zipWith (expectedAnnotationMesh coords)
        (List.range' uid annotations.length) annotations,
        uid + annotations.length, Completion.normal) := by
  induction annotations with
  | nil => intro scene uid _; simp [renderAnnotationsLoop]
  | cons a rest ih =>
    intro scene uid h
    rw [renderAnnotationsLoop, renderAnnotation_ok JSON coords scene uid a (h a (List.mem_cons_self _ _))]
    simp only []
    rw [ih _ _ (fun b hb => h b (List.mem_cons_of_mem _ hb))]
    simp [List.range'_succ, Nat.add_comm, Nat.add_left_comm]

theorem renderAnnotations_scene (JSON : JSONBuiltins) (coords : Annotation → JSONValue)
    (s : ViewerState)
    (h : ∀ a ∈ s.annotations,
      JSON.parse a.coordinates = some (coords a) ∧ coords a ≠ JSONValue.null) :
    renderAnnotations JSON s =
      ({ s with
          scene := s.scene.filter (fun child => !child.isAnnotation) ++
            List.zipWith (expectedAnnotationMesh coords)
              (List.range' s.nextUid s.annotations.length) s.annotations
          nextUid := s.nextUid + s.annotations.length }, Completion.normal) := by
  unfold renderAnnotations
  simp only []
  rw [renderAnnotationsLoop_ok JSON coords s.annotations _ _ h]

theorem isAnnotation_expected (coords : Annotation → JSONValue) (uid : Nat) (a : Annotation) :
    SceneChild.isAnnotation (expectedAnnotationMesh coords uid a) = true := rfl

theorem eraseUid_expected (coords : Annotation → JSONValue) (uid : Nat) (a : Annotation) :
    SceneChild.eraseUid (expectedAnnotationMesh coords uid a) =
      expectedAnnotationMesh coords 0 a := rfl

theorem zipWith_expected_forall (coords : Annotation → JSONValue) (annotations : List Annotation) :
    ∀ uid : Nat, ∀ child ∈ List.zipWith (expectedAnnotationMesh coords)
      (List.range' uid annotations.length) annotations,
      SceneChild.isAnnotation child = true := by
  induction annotations with
  | nil => intro uid child hc; simp at hc
  | cons a rest ih =>
    intro uid child hc
    rw [List.length_cons, List.range'_succ, List.zipWith_cons_cons, List.mem_cons] at hc
    rcases hc with hc | hc
    · rw [hc]; rfl
    · exact ih _ child hc

theorem zipWith_expected_eraseUid (coords : Annotation → JSONValue)
    (annotations : List Annotation) :
    ∀ uid : Nat, (List.zipWith (expectedAnnotationMesh coords)
      (List.range' uid annotations.length) annotations).map SceneChild.eraseUid =
      annotations.map (expectedAnnotationMesh coords 0) := by
  induction annotations with
  | nil => intro uid; simp
  | cons a rest ih =>
    intro uid
    rw [List.length_cons, List.range'_succ, List.zipWith_cons_cons, List.map_cons, List.map_cons,
      ih, eraseUid_expected]

theorem zipWith_expected_forall₂ (coords : Annotation → JSONValue)
    (annotations : List Annotation) :
    ∀ uid : Nat, List.Forall₂
      (fun a child => ∃ u, child = expectedAnnotationMesh coords u a)
      annotations
      (List.zipWith (expectedAnnotationMesh coords) (List.range' uid annotations.length)
        annotations) := by
  induction annotations with
  | nil => intro uid; simp
  | cons a rest ih =>
    intro uid
    rw [List.length_cons, List.range'_succ, List.zipWith_cons_cons]
    exact List.Forall₂.cons ⟨uid, rfl⟩ (ih _)

/-- C14, as amended. When the coordinates of every annotation parse to a JSON
value other than `null`, `renderAnnotations` returns normally and leaves as
scene the children that were not annotation meshes, unchanged and in their
order, followed by one annotation-marked mesh per annotation, in list order:
the mesh of an annotation carries that annotation, sits at the parsed
`(x, y, z)` and has each of width, height and depth replaced by 1 when it is
missing or falsy (a truthy value is kept, a missing one and the number 0 become
1). A second call right after the first leaves the same scene, up to the
identity of the meshes it creates anew. -/
theorem renderAnnotations_spec (JSON : JSONBuiltins) (coords : Annotation → JSONValue)
    (s : ViewerState)
    (h : ∀ a ∈ s.annotations,
      JSON.parse a.coordinates = some (coords a) ∧ coords a ≠ JSONValue.null) :
    (renderAnnotations JSON s).2 = Completion.normal ∧
    (∃ added : List SceneChild,
      (renderAnnotations JSON s).1.scene =
        s.scene.filter (fun child => !child.isAnnotation) ++ added ∧
      List.Forall₂
        (fun a child => ∃ m : AnnotationMesh, child = SceneChild.annotationMesh m ∧
          m.isAnnotation = true ∧ m.userDataAnnotation = a ∧
          m.position = (propertyOf (coords a) "x", propertyOf (coords a) "y",
            propertyOf (coords a) "z") ∧
          m.geometry = (orOne (propertyOf (coords a) "width"),
            orOne (propertyOf (coords a) "height"), orOne (propertyOf (coords a) "depth")))
        s.annotations added) ∧
    ((∀ v : JSONValue, truthy (some v) = true → orOne (some v) = v) ∧
      (∀ p : JSProp, truthy p = false → orOne p = JSONValue.num (JSNumber.finite 1)) ∧
      orOne none = JSONValue.num (JSNumber.finite 1) ∧
      orOne (some (JSONValue.num (JSNumber.finite 0))) = JSONValue.num (JSNumber.finite 1)) ∧
    ((renderAnnotations JSON (renderAnnotations JSON s).1).1.scene.map SceneChild.eraseUid =
      (renderAnnotations JSON s).1.scene.map SceneChild.eraseUid) := by
  have h1 := renderAnnotations_scene JSON coords s h
  refine ⟨by rw [h1], ?_, ?_, ?_⟩
  · refine ⟨_, by rw [h1], ?_⟩
    refine (zipWith_expected_forall₂ coords s.annotations s.nextUid).imp ?_
    rintro a child ⟨u, rfl⟩
    exact ⟨_, rfl, rfl, rfl, rfl, rfl⟩
  · refine ⟨?_, ?_, rfl, rfl⟩
    · intro v hv
      simp [orOne, hv]
    · intro p hp
      cases p with
      | none => rfl
      | some v => simp [orOne, hp]
  · have ha : (renderAnnotations JSON s).1.annotations = s.annotations := by rw [h1]
    have h2 := renderAnnotations_scene JSON coords (renderAnnotations JSON s).1 (by rw [ha]; exact h)
    rw [h2]
    simp only [h1, List.filter_append, List.filter_filter, Bool.and_self, List.map_append,
      zipWith_expected_eraseUid]
    have hnil : List.filter (fun a => !a.isAnnotation)
        (List.zipWith (expectedAnnotationMesh coords)
          (List.range' s.nextUid s.annotations.length) s.annotations) = [] := by
      rw [List.filter_eq_nil_iff]
      intro child hc
      simp [zipWith_expected_forall coords s.annotations s.nextUid child hc]
    rw [hnil]
    simp

/-- C14, witness: a scene with a light and an old annotation mesh, and one
annotation whose coordinates give `x`, `y`, `z` and a width of 0. -/
theorem renderAnnotations_spec_witness :
    (∀ a ∈ [ Annotation.mk 1 "\x7b\"x\":1,\"y\":2,\"z\":3,\"width\":0\x7d"],
      integerJSON.parse a.coordinates =
        some (JSONValue.obj
            [("x", JSONValue.num (JSNumber.finite 1)),
             ("y", JSONValue.num (JSNumber.finite 2)),
             ("z", JSONValue.num (JSNumber.finite 3)),
             ("width", JSONValue.num (JSNumber.finite 0))]) ∧
      JSONValue.obj
          [("x", JSONValue.num (JSNumber.finite 1)),
           ("y", JSONValue.num (JSNumber.finite 2)),
           ("z", JSONValue.num (JSNumber.finite 3)),
           ("width", JSONValue.num (JSNumber.finite 0))] ≠ JSONValue.null) ∧
    (renderAnnotations integerJSON
      ⟨[SceneChild.light "ambient"], none, [],
        [ Annotation.mk 1 "\x7b\"x\":1,\"y\":2,\"z\":3,\"width\":0\x7d"], none, [], [], none,
        5⟩).2 = Completion.normal :=
  ⟨by
      intro a ha
      rw [List.mem_singleton] at ha
      subst ha
      exact ⟨rfl, by simp⟩,
    (renderAnnotations_spec integerJSON
      (fun _ => JSONValue.obj
          [("x", JSONValue.num (JSNumber.finite 1)),
           ("y", JSONValue.num (JSNumber.finite 2)),
           ("z", JSONValue.num (JSNumber.finite 3)),
           ("width", JSONValue.num (JSNumber.finite 0))])
      ⟨[SceneChild.light "ambient"], none, [],
        [ Annotation.mk 1 "\x7b\"x\":1,\"y\":2,\"z\":3,\"width\":0\x7d"], none, [], [], none, 5⟩
      (by
        intro a ha
        rw [List.mem_singleton] at ha
        subst ha
        exact ⟨rfl, by simp⟩)).1⟩

/-- C14, counterexample. The text `null` parses as JSON, yet for an
annotation with these coordinates the read of `coords.width` throws:
`renderAnnotations` ends by throwing and the scene holds no mesh for the
annotation. And a width of `false`, which is neither missing nor 0, is
replaced by 1 as well. -/
theorem renderAnnotations_null_coordinates :
    integerJSON.parse ( Annotation.mk 1 "null").coordinates = some JSONValue.null ∧
    (renderAnnotations integerJSON
      ⟨[], none, [], [ Annotation.mk 1 "null"], none, [], [], none, 0⟩).2 = Completion.thrown ∧
    (renderAnnotations integerJSON
      ⟨[], none, [], [ Annotation.mk 1 "null"], none, [], [], none, 0⟩).1.scene = [] ∧
    integerJSON.parse "\x7b\"x\":1,\"y\":2,\"z\":3,\"width\":false\x7d" =
      some (JSONValue.obj
          [("x", JSONValue.num (JSNumber.finite 1)),
           ("y", JSONValue.num (JSNumber.finite 2)),
           ("z", JSONValue.num (JSNumber.finite 3)),
           ("width", JSONValue.bool false)]) ∧
    orOne (propertyOf (JSONValue.obj
        [("x", JSONValue.num (JSNumber.finite 1)),
         ("y", JSONValue.num (JSNumber.finite 2)),
         ("z", JSONValue.num (JSNumber.finite 3)),
         ("width", JSONValue.bool false)]) "width") = JSONValue.num (JSNumber.finite 1) :=
  ⟨rfl, rfl, rfl, rfl, rfl⟩

/-! ## Theorems: the drag and drop handlers -/

theorem dragStep_invariant (s : DragState) (e : DragEvent)
    (hc : 0 ≤ s.dragCounter) (hi : s.dragOver = true ↔ 0 < s.dragCounter)
    (he : e = DragEvent.dragleave → s.dragCounter ≠ 0) :
    0 ≤ (dragStep s e).dragCounter ∧
      ((dragStep s e).dragOver = true ↔ 0 < (dragStep s e).dragCounter) := by
  cases e with
  | dragenter =>
    simp only [dragStep, true_iff]
    omega
  | dragleave =>
    have hne := he rfl
    simp only [dragStep]
    refine ⟨by omega, ?_⟩
    by_cases h1 : s.dragCounter - 1 ≤ 0
    · simp only [h1, if_true, Bool.false_eq_true, false_iff]
      omega
    · simp only [h1, if_false, hi]
      omega
  | dragover => exact ⟨hc, hi⟩
  | drop => simp [dragStep]

theorem dragRun_invariant (events : List DragEvent) :
    ∀ (s : DragState), 0 ≤ s.dragCounter → (s.dragOver = true ↔ 0 < s.dragCounter) →
    noLeaveAtZero s events = true →
    ∀ pre suf, events = pre ++ suf →
      0 ≤ (dragRun s pre).dragCounter ∧
        ((dragRun s pre).dragOver = true ↔ 0 < (dragRun s pre).dragCounter) := by
  induction events with
  | nil =>
    intro s hc hi _ pre suf h
    have hp : pre = [] := (List.append_eq_nil.mp h.symm).1
    subst hp
    exact ⟨hc, hi⟩
  | cons e rest ih =>
    intro s hc hi hn pre suf h
    cases pre with
    | nil => exact ⟨hc, hi⟩
    | cons p pre =>
      rw [List.cons_append, List.cons.injEq] at h
      obtain ⟨h1, h2⟩ := h
      subst h1
      rw [noLeaveAtZero, Bool.and_eq_true] at hn
      have he : e = DragEvent.dragleave → s.dragCounter ≠ 0 := by
        intro e1
        have := hn.1
        simpa [e1] using this
      obtain ⟨hs1, hs2⟩ := dragStep_invariant s e hc hi he
      exact ih (dragStep s e) hs1 hs2 hn.2 pre suf h2

/-- C15. Starting from `dragCounter = 0` without the class `drag-over`, along
every sequence of `dragenter`, `dragleave`, `dragover` and `drop` events in
which no `dragleave` occurs while `dragCounter` is 0, after each event (after
every prefix of the sequence) `body` carries the class if and only if
`dragCounter > 0`; and a `drop`, in any state, sets `dragCounter` to 0 and
removes the class. -/
theorem drag_over_iff_counter_pos (events : List DragEvent)
    (h : noLeaveAtZero DragState.init events = true) :
    (∀ pre suf, events = pre ++ suf →
      ((dragRun DragState.init pre).dragOver = true ↔ 0 < (dragRun DragState.init pre).dragCounter)) ∧
    (∀ s : DragState, dragStep s DragEvent.drop = { dragCounter := 0, dragOver := false }) := by
  refine ⟨fun pre suf hp => ?_, fun s => rfl⟩
  exact (dragRun_invariant events DragState.init (by simp [DragState.init])
    (by simp [DragState.init]) h pre suf hp).2

/-- C15, witness: two `dragenter`, one `dragleave`, a `dragover` and a
`drop`; after the first three events the counter is 1 and the class is set. -/
theorem drag_over_iff_counter_pos_witness :
    noLeaveAtZero DragState.init
      [DragEvent.dragenter, DragEvent.dragenter, DragEvent.dragleave, DragEvent.dragover,
        DragEvent.drop] = true ∧
    ((dragRun DragState.init
        [DragEvent.dragenter, DragEvent.dragenter, DragEvent.dragleave]).dragOver = true ↔
      0 < (dragRun DragState.init
        [DragEvent.dragenter, DragEvent.dragenter, DragEvent.dragleave]).dragCounter) :=
  ⟨by decide,
    (drag_over_iff_counter_pos
      [DragEvent.dragenter, DragEvent.dragenter, DragEvent.dragleave, DragEvent.dragover,
        DragEvent.drop]
      (by decide)).1
      [DragEvent.dragenter, DragEvent.dragenter, DragEvent.dragleave]
      [DragEvent.dragover, DragEvent.drop] rfl⟩

end CraftNE
